import Mathlib

/-!
# Route assembly core of `thor`

A shallow embedding of `src/thor/route_action.cc` (the engine selector
`get_path_algorithm`, the retry ladder `get_path`, the origin rewrite
`update_origin`, and the two orchestrators `path_depart_at` and
`path_arrive_by`), of `src/thor/route_matcher.cc` (the shape walker
`RouteMatcher::FormPath` with `expand_from_node`) and of
`src/thor/mapmatching_route.cc` (`MapMatchingRoute::FormPath`), followed by
theorems about them.

Conventions of the embedding.

* `std::vector` is `List`; `back()` is `getLast?`, `front()` is `head?`.
* `uint32_t` is `Nat` with an explicit `% 2 ^ 32` where the source adds.
* The collaborators that live outside these files (the three engines, the
  cost model, the graph reader, the trip builder) are the fields of
  `Collab`; the mutable state they share is an abstract type `σ`.
* `throw valhalla_exception_t{400, 442}` is `Except.error ⟨400, 442⟩`.
* A `float` value is a rational; the `float` operations are the fields of
  `FloatOps`, left uninterpreted; `exact_float` is the instance in which they
  are computed without rounding error.
* A recursion whose depth is not bounded by the structure of its arguments
  carries an explicit bound and answers `none` when the bound is reached.
* Analytics logging and wall-clock measurements have no effect on the
  values computed and are left out.
-/

namespace Thor

/-! ## Data model -/

/-- Modelled from the spec: `GraphId` is declared outside the files at hand.
It is an opaque handle with structural equality and a validity predicate;
here the handle is its 64-bit value. -/
structure GraphId where
  value : Nat
  deriving DecidableEq, Repr

/-- Modelled from the spec: the value carried by a default-constructed
`GraphId()`, the one id that is not valid. -/
def kInvalidGraphId : Nat := 0x3fffffffffff

/-- The default-constructed id `baldr::GraphId()`. -/
def GraphId.invalid : GraphId := ⟨kInvalidGraphId⟩

/-- Validity predicate `GraphId::Is_Valid`. -/
def GraphId.Is_Valid (g : GraphId) : Bool := g.value != kInvalidGraphId

/-- Modelled from the spec: `PathLocation::PathEdge`, a candidate edge of a
correlated location: the edge id, the fractional position along the edge
and the two flags telling whether the snap lies at the begin or end node. -/
structure PathEdge where
  id : GraphId
  dist : ℚ
  begin_node : Bool
  end_node : Bool
  deriving DecidableEq

/-- Stop type of a location, `Location::StopType`. -/
inductive StopType where
  | BREAK
  | THROUGH
  deriving DecidableEq, Repr

/-- Modelled from the spec: `baldr::PathLocation`, a location correlated to
the graph: its candidate edges in order, its stop type and its optional
date-time. -/
structure PathLocation where
  edges : List PathEdge
  stoptype_ : StopType
  date_time_ : Option String
  deriving DecidableEq

/-- Modelled from the spec: `thor::PathInfo`, one output entry per edge.
`elapsed_time` is a `uint32_t` (it is read into one in the stitch step). -/
structure PathInfo where
  mode : Nat
  elapsed_time : Nat
  edgeid : GraphId
  tripid : Nat
  deriving DecidableEq, Repr

/-- The three engines owned by the worker (`astar`, `bidir_astar`,
`multi_modal_astar`); a `PathAlgorithm*` points at one of them. -/
inductive PathAlgorithm where
  | astar
  | bidir_astar
  | multi_modal_astar
  deriving DecidableEq, Repr

/-- The structured error `valhalla_exception_t{http_status, code}`. -/
structure valhalla_exception_t where
  http_status : Nat
  code : Nat
  deriving DecidableEq, Repr

/-- A trip as the orchestrator sees it: the arguments it handed to
`TripPathBuilder::Build` (the reader and the cost models apart). -/
structure TripPath where
  path_edges : List PathInfo
  origin : PathLocation
  dest : PathLocation
  through_loc : List PathLocation
  deriving DecidableEq

/-- Modelled from the spec: the external collaborators of the orchestrator,
over a shared mutable state `σ` (engine search state and cost model).

* `GetBestPath alg origin dest s` is `alg->GetBestPath(origin, dest, reader,
  mode_costing, mode)`: the edge list (possibly empty) and the new state.
* `Clear alg` is `alg->Clear()`.
* `AllowMultiPass`, `RelaxHierarchyLimits`, `DisableHighwayTransitions` are
  the methods of the current mode's cost model.
* `not_thru e` is `reader.GetGraphTile(e)->directededge(e)->not_thru()`.
* `GetOpposingEdgeId` is the reader's opposing-edge resolution.
* `BuildUpdate` gives the values of the origin and destination locations
  after `TripPathBuilder::Build` ran on them (it receives both by reference
  and fills in computed date-times). -/
structure Collab (σ : Type) where
  GetBestPath : PathAlgorithm → PathLocation → PathLocation → σ → List PathInfo × σ
  Clear : PathAlgorithm → σ → σ
  AllowMultiPass : σ → Bool
  RelaxHierarchyLimits : ℚ → ℚ → σ → σ
  DisableHighwayTransitions : σ → σ
  not_thru : GraphId → Bool
  GetOpposingEdgeId : GraphId → GraphId
  BuildUpdate : TripPath → PathLocation × PathLocation

/-! ## `get_path_algorithm` -/

/-- Inner loop of `get_path_algorithm`: `for (auto& edge2 : destination.edges)
if (edge1.id == edge2.id) return &astar;`. True when the loop returns. -/
def get_path_algorithm.inner (edge1 : PathEdge) : List PathEdge → Bool
  | [] => false
  | edge2 :: rest => if edge1.id = edge2.id then true else inner edge1 rest

/-- Outer loop of `get_path_algorithm` over `origin.edges`. -/
def get_path_algorithm.outer (dest_edges : List PathEdge) : List PathEdge → Bool
  | [] => false
  | edge1 :: rest =>
    if get_path_algorithm.inner edge1 dest_edges then true else outer dest_edges rest

/-- Engine selection, `thor_worker_t::get_path_algorithm`. -/
def get_path_algorithm (routetype : String) (origin destination : PathLocation) :
    PathAlgorithm :=
  if routetype = "multimodal" ∨ routetype = "transit" then
    PathAlgorithm.multi_modal_astar
  else if get_path_algorithm.outer destination.edges origin.edges then
    PathAlgorithm.astar
  else
    PathAlgorithm.bidir_astar

/-! ## `update_origin` -/

/-- Loop of `update_origin` computing `ends_at_node`: true as soon as a
candidate on the through edge is flagged end-node. -/
def update_origin.ends_at_node (through_edge : GraphId) : List PathEdge → Bool
  | [] => false
  | e :: rest =>
    if e.id = through_edge then
      if e.end_node then true else ends_at_node through_edge rest
    else ends_at_node through_edge rest

/-- Main loop of `std::remove_if` once the first element to remove has been
found: `first` scans the vector, `result` is the next slot to fill;
`*result = std::move(*first)` copies (the element type has no move
semantics of its own). `n` bounds the number of positions left to scan. -/
def remove_if.loop {α : Type} (pred : α → Bool) : Nat → Nat → Nat → List α → List α × Nat
  | 0, _, result, v => (v, result)
  | n + 1, first, result, v =>
    match v[first]? with
    | none => (v, result)
    | some x =>
      if pred x then remove_if.loop pred n (first + 1) result v
      else remove_if.loop pred n (first + 1) (result + 1) (v.set result x)

/-- The algorithm `std::remove_if(v.begin(), v.end(), pred)`: the content of the
vector afterwards and the position of the returned iterator. The vector is
not resized: that is the job of an `erase` on the returned iterator. -/
def remove_if {α : Type} (pred : α → Bool) (v : List α) : List α × Nat :=
  let first := v.findIdx pred
  if first = v.length then (v, first)
  else remove_if.loop pred (v.length - (first + 1)) (first + 1) first v

/-- Loop of the last branch of `update_origin`: at the first candidate `e` on
the through edge, `origin.edges.clear(); origin.edges.push_back(e); break;`.
`all` is the list as it stands when no candidate matches. -/
def update_origin.set_origin (through_edge : GraphId) (all : List PathEdge) :
    List PathEdge → List PathEdge
  | [] => all
  | e :: rest => if e.id = through_edge then [e] else set_origin through_edge all rest

/-- Rewrite of the origin of a leg that follows a through location,
`thor_worker_t::update_origin`. The result of `std::remove_if` is discarded
by the source and the vector is not erased. -/
def update_origin {σ : Type} (c : Collab σ) (origin : PathLocation) (prior_is_node : Bool)
    (through_edge : GraphId) : PathLocation :=
  if prior_is_node then origin
  else if c.not_thru through_edge then origin
  else if update_origin.ends_at_node through_edge origin.edges then
    let opp_edge := c.GetOpposingEdgeId through_edge
    { origin with
      edges := (remove_if (fun edge => decide (edge.id = through_edge ∨ edge.id = opp_edge))
        origin.edges).1 }
  else
    { origin with edges := update_origin.set_origin through_edge origin.edges origin.edges }

/-! ## `get_path` -/

/-- The retry ladder `thor_worker_t::get_path`: the edge list left in the
output vector and the state of the collaborators afterwards. -/
def get_path {σ : Type} (c : Collab σ) (path_algorithm : PathAlgorithm)
    (origin destination : PathLocation) (s : σ) : List PathInfo × σ :=
  let r1 := c.GetBestPath path_algorithm origin destination s
  if r1.1.length = 0 then
    if c.AllowMultiPass r1.2 then
      let s2 := c.Clear path_algorithm r1.2
      let using_astar : Bool := decide (path_algorithm = PathAlgorithm.astar)
      let relax_factor : ℚ := if using_astar then 16 else 8
      let expansion_within_factor : ℚ := if using_astar then 4 else 2
      let s3 := c.RelaxHierarchyLimits relax_factor expansion_within_factor s2
      let r2 := c.GetBestPath path_algorithm origin destination s3
      if r2.1.length = 0 ∧ using_astar = true then
        let s4 := c.Clear path_algorithm r2.2
        let s5 := c.DisableHighwayTransitions s4
        c.GetBestPath path_algorithm origin destination s5
      else r2
    else r1
  else r1

/-! ## Leg merging -/

/-- The statement `edge.elapsed_time += t` on a copy of `edge`, in `uint32_t`
arithmetic. -/
def add_elapsed (t : Nat) (edge : PathInfo) : PathInfo :=
  { edge with elapsed_time := (edge.elapsed_time + t) % 2 ^ 32 }

/-- The stitch step shared by `path_depart_at` and `path_arrive_by`: append
the edges of `temp_path` to `path_edges`, adding the elapsed time of the end
of the current path, after removing the last edge of `path_edges` when the
new leg continues along it. Both vectors are non-empty where the source
runs it; the last case is never reached. -/
def stitch (path_edges temp_path : List PathInfo) : List PathInfo :=
  match path_edges.getLast?, temp_path.head? with
  | some back, some front =>
    let t := back.elapsed_time
    let path_edges := if front.edgeid = back.edgeid then path_edges.dropLast else path_edges
    temp_path.foldl (fun acc edge => acc ++ [add_elapsed t edge]) path_edges
  | _, _ => path_edges ++ temp_path

/-! ## The orchestrators -/

/-- Local variables of an orchestrator run, together with the location vector
(written through the references `last_break_origin` / `last_break_dest`) and
the state of the collaborators. `dest_date_time` is used by
`path_depart_at` only. -/
structure OrchState (σ : Type) where
  correlated : List PathLocation
  world : σ
  prior_is_node : Bool
  through_loc : List PathLocation
  through_edge : GraphId
  path_edges : List PathInfo
  origin_date_time : String
  dest_date_time : String
  trippaths : List TripPath

/-- State at loop entry of either orchestrator. -/
def OrchState.init {σ : Type} (correlated : List PathLocation) (s : σ) : OrchState σ :=
  { correlated := correlated, world := s, prior_is_node := false, through_loc := [],
    through_edge := GraphId.invalid, path_edges := [], origin_date_time := "",
    dest_date_time := "", trippaths := [] }

/-- Loop `for (const auto& e : origin.edges) if (e.id == path_edges.back().edgeid)
{ prior_is_node = e.begin_node() || e.end_node(); break; }` run after
`prior_is_node = false`. -/
def find_prior_is_node (last_edge : GraphId) : List PathEdge → Bool
  | [] => false
  | e :: rest =>
    if e.id = last_edge then (e.begin_node || e.end_node) else find_prior_is_node last_edge rest

/-- The edge id `path_edges.back().edgeid` (the vector is non-empty where the
source reads it). -/
def back_edgeid (path_edges : List PathInfo) : GraphId :=
  match path_edges.getLast? with
  | some back => back.edgeid
  | none => GraphId.invalid

/-- Reading `*opt` of an optional string; the source leaves the read of an
empty optional undefined, the model reads the empty string. -/
def deref (o : Option String) : String := o.getD ""

/-- What one iteration of `path_depart_at` hands to the engine: the origin
(a copy of `*std::prev(path_location)`, with its date-time and candidate
edges rewritten), the destination (a copy of `*path_location`), and the
location vector after the write `last_break_origin = origin`, the reference
`last_break_origin` being bound to `correlated[0]`. -/
def path_depart_at.prepare {σ : Type} (c : Collab σ) (date_time_type : Option Int) (i : Nat)
    (st : OrchState σ) : Option (PathLocation × PathLocation × List PathLocation) :=
  match st.correlated[i - 1]?, st.correlated[i]? with
  | some origin, some destination =>
    let origin :=
      if (date_time_type = some 0 ∨ date_time_type = some 1) ∧ st.dest_date_time ≠ "" ∧
          origin.stoptype_ = StopType.BREAK then
        { origin with date_time_ := some st.dest_date_time }
      else origin
    if st.through_edge.Is_Valid then
      some (update_origin c origin st.prior_is_node st.through_edge, destination, st.correlated)
    else
      some (origin, destination, st.correlated.set 0 origin)
  | _, _ => none

/-- The write `last_break_origin.date_time_ = origin.date_time_` made after a
successful `get_path` when the request departs at a given time, no trip
has been emitted yet and the origin is a break. -/
def path_depart_at.set_break_time (date_time_type : Option Int) (origin_date_time : String)
    (origin : PathLocation) (correlated : List PathLocation) : List PathLocation :=
  if date_time_type = some 0 ∧ origin_date_time = "" ∧ origin.stoptype_ = StopType.BREAK then
    match correlated[0]? with
    | some last_break_origin =>
      correlated.set 0 { last_break_origin with date_time_ := origin.date_time_ }
    | none => correlated
  else correlated

/-- The block of an iteration of `path_depart_at` under the comment "Build
trip path for this leg": emit a trip when the destination is a break or
`path_location` is the last position, otherwise record the through
location. `n` is `correlated.size()`, so `i = n - 1` stands for
`path_location == --correlated.cend()`. -/
def path_depart_at.boundary {σ : Type} (c : Collab σ) (date_time_type : Option Int) (n i : Nat)
    (origin destination : PathLocation) (st : OrchState σ) : OrchState σ :=
  if destination.stoptype_ = StopType.BREAK ∨ i = n - 1 then
    let last_break_origin := st.correlated[0]?.getD origin
    let trip_path : TripPath :=
      { path_edges := st.path_edges, origin := last_break_origin, dest := destination,
        through_loc := st.through_loc }
    let upd := c.BuildUpdate trip_path
    { st with
      correlated := st.correlated.set 0 upd.1
      origin_date_time :=
        if date_time_type.isSome then deref upd.1.date_time_ else st.origin_date_time
      dest_date_time :=
        if date_time_type.isSome then deref upd.2.date_time_ else st.dest_date_time
      trippaths := st.trippaths ++ [trip_path]
      path_edges := []
      through_edge := GraphId.invalid }
  else
    { st with
      prior_is_node := find_prior_is_node (back_edgeid st.path_edges) origin.edges
      through_edge := back_edgeid st.path_edges
      through_loc := st.through_loc ++ [destination] }

/-- Second half of an iteration of `path_depart_at`: the boundary block, then
`if (--correlated.cend() != path_location) path_algorithm->Clear();`. -/
def path_depart_at.finish {σ : Type} (c : Collab σ) (date_time_type : Option Int) (n i : Nat)
    (path_algorithm : PathAlgorithm) (origin destination : PathLocation)
    (st : OrchState σ) : OrchState σ :=
  let st := path_depart_at.boundary c date_time_type n i origin destination st
  { st with world := if n - 1 ≠ i then c.Clear path_algorithm st.world else st.world }

/-- One iteration of the loop of `path_depart_at`, `path_location` standing at
index `i` of a vector of `n` locations. -/
def path_depart_at.step {σ : Type} (c : Collab σ) (costing : String)
    (date_time_type : Option Int) (n i : Nat) (st : OrchState σ) :
    Except valhalla_exception_t (OrchState σ) :=
  match path_depart_at.prepare c date_time_type i st with
  | none => Except.ok st
  | some (origin, destination, correlated) =>
    let path_algorithm := get_path_algorithm costing origin destination
    if st.path_edges.length = 0 then
      let r := get_path c path_algorithm origin destination st.world
      if r.1.length = 0 then Except.error ⟨400, 442⟩
      else
        Except.ok (path_depart_at.finish c date_time_type n i path_algorithm origin destination
          { st with
            correlated :=
              path_depart_at.set_break_time date_time_type st.origin_date_time origin correlated
            world := r.2
            path_edges := r.1 })
    else
      let r := get_path c path_algorithm origin destination st.world
      if r.1.length = 0 then Except.error ⟨400, 442⟩
      else
        Except.ok (path_depart_at.finish c date_time_type n i path_algorithm origin destination
          { st with
            correlated :=
              path_depart_at.set_break_time date_time_type st.origin_date_time origin correlated
            world := r.2
            path_edges := stitch st.path_edges r.1 })

/-- Run the loop body at each position of `idxs` in turn; the first throw ends
the run. -/
def run_loop {σ : Type} (body : Nat → OrchState σ → Except valhalla_exception_t (OrchState σ)) :
    List Nat → OrchState σ → Except valhalla_exception_t (OrchState σ)
  | [], st => Except.ok st
  | i :: rest, st =>
    match body i st with
    | Except.error e => Except.error e
    | Except.ok st1 => run_loop body rest st1

/-- The whole loop of `path_depart_at`, `path_location` running from
`++correlated.cbegin()` to the end: the final state, or the exception. -/
def path_depart_at.run {σ : Type} (c : Collab σ) (correlated : List PathLocation)
    (costing : String) (date_time_type : Option Int) (s : σ) :
    Except valhalla_exception_t (OrchState σ) :=
  run_loop (path_depart_at.step c costing date_time_type correlated.length)
    (List.range' 1 (correlated.length - 1)) (OrchState.init correlated s)

/-- The orchestrator `thor_worker_t::path_depart_at`: the trips returned, or the
exception thrown. -/
def path_depart_at {σ : Type} (c : Collab σ) (correlated : List PathLocation)
    (costing : String) (date_time_type : Option Int) (s : σ) :
    Except valhalla_exception_t (List TripPath) :=
  match path_depart_at.run c correlated costing date_time_type s with
  | Except.error e => Except.error e
  | Except.ok st => Except.ok st.trippaths

/-- What one iteration of `path_arrive_by` hands to the engine, the reverse
iterator `path_location` standing at index `i`: the origin (a copy of
`*path_location`, its candidate edges rewritten after a through location),
the destination (a copy of `*std::prev(path_location)`, the location at
index `i + 1`), and the location vector after the write
`last_break_dest = destination`, the reference `last_break_dest` being bound
to the last element. -/
def path_arrive_by.prepare {σ : Type} (c : Collab σ) (n i : Nat) (st : OrchState σ) :
    Option (PathLocation × PathLocation × List PathLocation) :=
  match st.correlated[i]?, st.correlated[i + 1]? with
  | some origin, some destination =>
    if st.through_edge.Is_Valid then
      some (update_origin c origin st.prior_is_node st.through_edge, destination, st.correlated)
    else
      some (origin, destination, st.correlated.set (n - 1) destination)
  | _, _ => none

/-- The block of an iteration of `path_arrive_by` under the comment "Build
trip path for this leg": emit a trip when the origin is a break or
`path_location` is the last position of the reverse iteration (`i = 0`
stands for `path_location == --correlated.crend()`), otherwise record the
through location. -/
def path_arrive_by.boundary {σ : Type} (c : Collab σ) (n i : Nat)
    (origin : PathLocation) (st : OrchState σ) : OrchState σ :=
  if origin.stoptype_ = StopType.BREAK ∨ i = 0 then
    let last_break_dest := st.correlated[n - 1]?.getD origin
    let last_break_dest :=
      if st.origin_date_time ≠ "" then
        { last_break_dest with date_time_ := some st.origin_date_time }
      else last_break_dest
    let trip_path : TripPath :=
      { path_edges := st.path_edges, origin := origin, dest := last_break_dest,
        through_loc := st.through_loc }
    let upd := c.BuildUpdate trip_path
    { st with
      correlated := st.correlated.set (n - 1) upd.2
      origin_date_time :=
        match upd.1.date_time_ with
        | some d => d
        | none => st.origin_date_time
      trippaths := trip_path :: st.trippaths
      path_edges := []
      through_edge := GraphId.invalid }
  else
    { st with
      prior_is_node := find_prior_is_node (back_edgeid st.path_edges) origin.edges
      through_edge := back_edgeid st.path_edges
      through_loc := st.through_loc ++ [origin] }

/-- Second half of an iteration of `path_arrive_by`: the boundary block, then
`if (--correlated.crend() != path_location) path_algorithm->Clear();`. -/
def path_arrive_by.finish {σ : Type} (c : Collab σ) (n i : Nat)
    (path_algorithm : PathAlgorithm) (origin : PathLocation) (st : OrchState σ) :
    OrchState σ :=
  let st := path_arrive_by.boundary c n i origin st
  { st with world := if 0 ≠ i then c.Clear path_algorithm st.world else st.world }

/-- One iteration of the loop of `path_arrive_by`, the reverse iterator
`path_location` standing at index `i` of a vector of `n` locations. -/
def path_arrive_by.step {σ : Type} (c : Collab σ) (costing : String) (n i : Nat)
    (st : OrchState σ) : Except valhalla_exception_t (OrchState σ) :=
  match path_arrive_by.prepare c n i st with
  | none => Except.ok st
  | some (origin, destination, correlated) =>
    let path_algorithm := get_path_algorithm costing origin destination
    if st.path_edges.length = 0 then
      let r := get_path c path_algorithm origin destination st.world
      if r.1.length = 0 then Except.error ⟨400, 442⟩
      else
        Except.ok (path_arrive_by.finish c n i path_algorithm origin
          { st with correlated := correlated, world := r.2, path_edges := r.1 })
    else
      let r := get_path c path_algorithm origin destination st.world
      if r.1.length = 0 then Except.error ⟨400, 442⟩
      else
        Except.ok (path_arrive_by.finish c n i path_algorithm origin
          { st with correlated := correlated, world := r.2,
                    path_edges := stitch st.path_edges r.1 })

/-- The whole loop of `path_arrive_by`, `path_location` running from
`++correlated.crbegin()` to `correlated.crend()`, that is over the indices
`n - 2` down to `0`: the final state, or the exception. -/
def path_arrive_by.run {σ : Type} (c : Collab σ) (correlated : List PathLocation)
    (costing : String) (s : σ) : Except valhalla_exception_t (OrchState σ) :=
  run_loop (path_arrive_by.step c costing correlated.length)
    (List.range (correlated.length - 1)).reverse (OrchState.init correlated s)

/-- The orchestrator `thor_worker_t::path_arrive_by`: the trips returned, or the
exception thrown. -/
def path_arrive_by {σ : Type} (c : Collab σ) (correlated : List PathLocation)
    (costing : String) (s : σ) : Except valhalla_exception_t (List TripPath) :=
  match path_arrive_by.run c correlated costing s with
  | Except.error e => Except.error e
  | Except.ok st => Except.ok st.trippaths

/-! ## Predicates on edge lists -/

/-- The relation `R` holds between every entry of the list and the next one. -/
def adjacent_pairs (R : PathInfo → PathInfo → Prop) : List PathInfo → Prop
  | a :: b :: rest => R a b ∧ adjacent_pairs R (b :: rest)
  | _ => True

instance adjacent_pairs.decide (R : PathInfo → PathInfo → Prop) [DecidableRel R] :
    (l : List PathInfo) → Decidable (adjacent_pairs R l)
  | [] => isTrue trivial
  | [_] => isTrue trivial
  | a :: b :: rest =>
    match (inferInstance : Decidable (R a b)), adjacent_pairs.decide R (b :: rest) with
    | isTrue h1, isTrue h2 => isTrue ⟨h1, h2⟩
    | isFalse h1, _ => isFalse (fun h => h1 h.1)
    | _, isFalse h2 => isFalse (fun h => h2 h.2)

/-- Elapsed times do not decrease from an entry to the next one:
`l[i].elapsed_time ≤ l[i+1].elapsed_time` for every adjacent pair. -/
def elapsed_nondecreasing (l : List PathInfo) : Prop :=
  adjacent_pairs (fun a b => a.elapsed_time ≤ b.elapsed_time) l

/-- No two adjacent entries share an edge id:
`l[i].edgeid ≠ l[i+1].edgeid` for every adjacent pair. -/
def adjacent_edges_distinct (l : List PathInfo) : Prop :=
  adjacent_pairs (fun a b => a.edgeid ≠ b.edgeid) l

instance (l : List PathInfo) : Decidable (elapsed_nondecreasing l) :=
  adjacent_pairs.decide (fun a b => a.elapsed_time ≤ b.elapsed_time) l

instance (l : List PathInfo) : Decidable (adjacent_edges_distinct l) :=
  adjacent_pairs.decide (fun a b => a.edgeid ≠ b.edgeid) l

/-- Number of `BREAK` locations strictly between the first and the last
location of the list (indices `1` to `n - 2`). -/
def interior_breaks (correlated : List PathLocation) : Nat :=
  ((correlated.drop 1).dropLast).countP (fun l => decide (l.stoptype_ = StopType.BREAK))

/-- The state of an orchestrator when `i - 1` legs have been computed: the
running path and the edge lists of the trips emitted so far have
non-decreasing elapsed times, and the elapsed times of the running path
stay below `(i - 1) * B`. -/
def elapsed_inv {σ : Type} (B i : Nat) (st : OrchState σ) : Prop :=
  elapsed_nondecreasing st.path_edges ∧
    (∀ e ∈ st.path_edges, e.elapsed_time ≤ (i - 1) * B) ∧
    ∀ t ∈ st.trippaths, elapsed_nondecreasing t.path_edges

/-! ## Concrete collaborators for the worked examples -/

/-- A worker whose engines answer every request with the one-edge path over
the first candidate edge of the destination (elapsed time 1), and the empty
path when the destination has no candidate; no edge is not-through, the
opposing edge of edge `g` is edge `g + 100`, and the trip builder leaves the
locations as they are. The state counts the engine invocations. -/
def demo_collab : Collab Nat where
  GetBestPath := fun _ _ destination s =>
    (match destination.edges.head? with
      | some e => [⟨0, 1, e.id, 0⟩]
      | none => [], s + 1)
  Clear := fun _ s => s
  AllowMultiPass := fun _ => false
  RelaxHierarchyLimits := fun _ _ s => s
  DisableHighwayTransitions := fun s => s
  not_thru := fun _ => false
  GetOpposingEdgeId := fun g => ⟨g.value + 100⟩
  BuildUpdate := fun t => (t.origin, t.dest)

/-- A location with the given candidate edge ids, all snapped halfway along
the edge. -/
def demo_loc (ids : List Nat) (stoptype : StopType) : PathLocation :=
  { edges := ids.map (fun g => ⟨⟨g⟩, Rat.divInt 1 2, false, false⟩), stoptype_ := stoptype,
    date_time_ := none }

/-- Four locations: a break, a through location, and two breaks. -/
def demo_route : List PathLocation :=
  [demo_loc [1] StopType.BREAK, demo_loc [2] StopType.THROUGH, demo_loc [3] StopType.BREAK,
    demo_loc [4] StopType.BREAK]

/-- Four locations: two breaks, a through location, and a break. -/
def demo_route_rev : List PathLocation :=
  [demo_loc [1] StopType.BREAK, demo_loc [2] StopType.BREAK, demo_loc [3] StopType.THROUGH,
    demo_loc [4] StopType.BREAK]

/-- Three breaks, the last one without any candidate edge: no path reaches it. -/
def demo_unreachable : List PathLocation :=
  [demo_loc [1] StopType.BREAK, demo_loc [2] StopType.BREAK, demo_loc [] StopType.BREAK]

/-! ## Instrumented collaborators -/

/-- A call made by `get_path` to one of its collaborators. -/
inductive Event where
  | GetBestPath (path_algorithm : PathAlgorithm)
  | Clear (path_algorithm : PathAlgorithm)
  | RelaxHierarchyLimits (relax_factor expansion_within_factor : ℚ)
  | DisableHighwayTransitions
  deriving DecidableEq

/-- The collaborators `c` with a log: every call that changes the state appends
its `Event` to the log and otherwise behaves as in `c`. -/
def traced {σ : Type} (c : Collab σ) : Collab (σ × List Event) where
  GetBestPath := fun alg origin destination s =>
    ((c.GetBestPath alg origin destination s.1).1,
      ((c.GetBestPath alg origin destination s.1).2, s.2 ++ [Event.GetBestPath alg]))
  Clear := fun alg s => (c.Clear alg s.1, s.2 ++ [Event.Clear alg])
  AllowMultiPass := fun s => c.AllowMultiPass s.1
  RelaxHierarchyLimits := fun a b s =>
    (c.RelaxHierarchyLimits a b s.1, s.2 ++ [Event.RelaxHierarchyLimits a b])
  DisableHighwayTransitions := fun s =>
    (c.DisableHighwayTransitions s.1, s.2 ++ [Event.DisableHighwayTransitions])
  not_thru := c.not_thru
  GetOpposingEdgeId := c.GetOpposingEdgeId
  BuildUpdate := c.BuildUpdate

/-- The calls `get_path` makes, in order, when started in state `s`. -/
def get_path_events {σ : Type} (c : Collab σ) (path_algorithm : PathAlgorithm)
    (origin destination : PathLocation) (s : σ) : List Event :=
  (get_path (traced c) path_algorithm origin destination (s, [])).2.2

/-- Number of engine invocations in a log. -/
def invocations (log : List Event) : Nat :=
  log.countP (fun e => match e with
    | Event.GetBestPath _ => true
    | _ => false)

/-- The `RelaxHierarchyLimits` calls of a log, in order. -/
def relaxations (log : List Event) : List Event :=
  log.filter (fun e => match e with
    | Event.RelaxHierarchyLimits _ _ => true
    | _ => false)

/-- First rung of the retry ladder as the specification describes it: the
engine invoked in the state `s`. -/
def ladder_pass1 {σ : Type} (c : Collab σ) (alg : PathAlgorithm)
    (origin destination : PathLocation) (s : σ) : List PathInfo × σ :=
  c.GetBestPath alg origin destination s

/-- Second rung as the specification describes it: engine cleared, hierarchy
limits relaxed with `(16, 4)` for the forward A* engine and `(8, 2)` for
the others, engine invoked again. -/
def ladder_pass2 {σ : Type} (c : Collab σ) (alg : PathAlgorithm)
    (origin destination : PathLocation) (s : σ) : List PathInfo × σ :=
  c.GetBestPath alg origin destination
    (c.RelaxHierarchyLimits (if alg = PathAlgorithm.astar then 16 else 8)
      (if alg = PathAlgorithm.astar then 4 else 2)
      (c.Clear alg (ladder_pass1 c alg origin destination s).2))

/-- Third rung as the specification describes it: engine cleared, highway
transitions disabled, engine invoked again. -/
def ladder_pass3 {σ : Type} (c : Collab σ) (alg : PathAlgorithm)
    (origin destination : PathLocation) (s : σ) : List PathInfo × σ :=
  c.GetBestPath alg origin destination
    (c.DisableHighwayTransitions (c.Clear alg (ladder_pass2 c alg origin destination s).2))

/-- A worker whose cost model allows several passes and whose engines find the
one-edge path over the first candidate edge of the destination only once
the hierarchy limits have been relaxed; the state counts the relaxations. -/
def demo_retry_collab : Collab Nat where
  GetBestPath := fun _ _ destination s =>
    (match destination.edges.head? with
      | some e => if s = 0 then [] else [⟨0, 1, e.id, 0⟩]
      | none => [], s)
  Clear := fun _ s => s
  AllowMultiPass := fun _ => true
  RelaxHierarchyLimits := fun _ _ s => s + 1
  DisableHighwayTransitions := fun s => s
  not_thru := fun _ => false
  GetOpposingEdgeId := fun g => ⟨g.value + 100⟩
  BuildUpdate := fun t => (t.origin, t.dest)

/-- A worker whose engines answer with the path made of the first candidate
edge of the origin (elapsed time 1) followed by the first candidate edge of
the destination (elapsed time 2), a single edge when the two coincide, and
the empty path when a location has no candidate. The state is the list of
the origin/destination pairs handed to the engines so far. -/
def demo_log_collab : Collab (List (PathLocation × PathLocation)) where
  GetBestPath := fun _ origin destination s =>
    (match origin.edges.head?, destination.edges.head? with
      | some a, some b =>
        if a.id = b.id then [⟨0, 1, a.id, 0⟩] else [⟨0, 1, a.id, 0⟩, ⟨0, 2, b.id, 0⟩]
      | _, _ => [], s ++ [(origin, destination)])
  Clear := fun _ s => s
  AllowMultiPass := fun _ => false
  RelaxHierarchyLimits := fun _ _ s => s
  DisableHighwayTransitions := fun s => s
  not_thru := fun _ => false
  GetOpposingEdgeId := fun g => ⟨g.value + 100⟩
  BuildUpdate := fun t => (t.origin, t.dest)

/-- Three locations: a break, a through location snapped halfway along edge 2,
and a break. -/
def demo_through_route : List PathLocation :=
  [demo_loc [1] StopType.BREAK, demo_loc [2] StopType.THROUGH, demo_loc [3] StopType.BREAK]

/-- A through location snapped at a node: it lies at the end of the inbound
edge 2 and at the beginning of the outbound edge 3. -/
def demo_node_loc : PathLocation :=
  { edges := [⟨⟨2⟩, 1, false, true⟩, ⟨⟨3⟩, 0, true, false⟩], stoptype_ := StopType.THROUGH,
    date_time_ := none }

/-- Three locations: a break, a through location snapped at a node, and a break. -/
def demo_node_route : List PathLocation :=
  [demo_loc [1] StopType.BREAK, demo_node_loc, demo_loc [4] StopType.BREAK]

/-- Three breaks. -/
def demo_three_breaks : List PathLocation :=
  [demo_loc [1] StopType.BREAK, demo_loc [2] StopType.BREAK, demo_loc [3] StopType.BREAK]

/-! ## Graph, costs and geometry seen by the shape walker and the map-match assembler

Floating-point values are rationals (every finite `float` is one); the
floating-point operations are the fields of `FloatOps`, so that nothing is
assumed about their rounding. -/

/-- Modelled from the spec: `midgard::PointLL`, a lng/lat coordinate. -/
structure PointLL where
  lng : ℚ
  lat : ℚ
  deriving DecidableEq

/-- Modelled from the spec: the use category of a directed edge, with its
distinguished transit-connection category. -/
inductive Use where
  | kTransitConnection
  | kOther (code : Nat)
  deriving DecidableEq

/-- Modelled from the spec: `baldr::DirectedEdge`, as far as the three source
files read it. -/
structure DirectedEdge where
  is_shortcut : Bool
  use : Use
  trans_up : Bool
  trans_down : Bool
  length : Nat
  endnode : GraphId
  restrictions : Nat
  opp_local_idx : Nat
  deriving DecidableEq

/-- Modelled from the spec: `baldr::NodeInfo`: the outgoing edges of the node
are the `edge_count` edges stored from index `edge_index` on. -/
structure NodeInfo where
  edge_index : Nat
  edge_count : Nat
  latlng : PointLL
  density : Nat
  deriving DecidableEq

/-- Modelled from the spec: `sif::EdgeLabel`, the predecessor descriptor given
to the transition cost. The three ways the sources build one: default
construction, `{kInvalidLabel, edge_id, de, {}, 0, 0, mode, 0}` in the
shape walker, and `{kInvalidLabel, edge_id, directededge, {}, 0, 0,
restrictions, opp_local_idx, mode, 0}` in the map-match assembler. -/
inductive EdgeLabel where
  | default
  | walked (edgeid : GraphId) (edge : DirectedEdge) (mode : Nat)
  | matched (edgeid : GraphId) (edge : DirectedEdge) (restrictions opp_local_idx mode : Nat)
  deriving DecidableEq

/-- Modelled from the spec: a graph tile. `directededge` is the lookup by
`GraphId`, `directededge_at` the lookup by index in the tile,
`GetOpposingEdgeId` the opposing-edge resolution. -/
structure GraphTile where
  node : GraphId → NodeInfo
  directededge : GraphId → DirectedEdge
  directededge_at : Nat → DirectedEdge
  GetOpposingEdgeId : DirectedEdge → GraphId

/-- The floating-point operations of the sources on `float` values:
`+`, `-`, `*`, `std::round`, and the conversions to and from `uint32_t`.
Adding to `0.f` gives the value added. -/
structure FloatOps where
  add : ℚ → ℚ → ℚ
  sub : ℚ → ℚ → ℚ
  mul : ℚ → ℚ → ℚ
  round : ℚ → ℚ
  to_uint32 : ℚ → Nat
  of_uint32 : Nat → ℚ
  zero_add : ∀ x, add 0 x = x

/-- Modelled from the spec: the collaborators of `RouteMatcher::FormPath`.

* `GetGraphTile id` is `reader.GetGraphTile(id)`, `none` for a null tile.
* `edge_id_at node k` is `GraphId(node.tileid(), node.level(), k)`, the id of
  the directed edge stored at index `k` of the tile and level of `node`.
* `EdgeCost mode de` is `mode_costing[mode]->EdgeCost(de).secs`,
  `TransitionCost mode de node pred` is
  `mode_costing[mode]->TransitionCost(de, node, pred).secs`.
* `Distance a b` is `a.Distance(b)`, `DistanceSquared a b` is
  `DistanceApproximator(a).DistanceSquared(b)`, `ApproximatelyEqual a b` is
  `a.ApproximatelyEqual(b)`. -/
structure WalkEnv where
  F : FloatOps
  GetGraphTile : GraphId → Option GraphTile
  edge_id_at : GraphId → Nat → GraphId
  EdgeCost : Nat → DirectedEdge → ℚ
  TransitionCost : Nat → DirectedEdge → NodeInfo → EdgeLabel → ℚ
  Distance : PointLL → PointLL → ℚ
  DistanceSquared : PointLL → PointLL → ℚ
  ApproximatelyEqual : PointLL → PointLL → Bool

/-- The three variables `expand_from_node` receives by reference and writes:
`prev_edge_label`, `elapsed_time` and `path_infos`. -/
structure WalkState where
  prev_edge_label : EdgeLabel
  elapsed_time : ℚ
  path_infos : List PathInfo
  deriving DecidableEq

/-- How a run of `RouteMatcher::FormPath` can end without a result:
`throw std::runtime_error(what)`, the dereference of a null tile pointer
(the source checks `begin_edge_tile` where it means `end_node_tile`), and,
in the model only, the exhaustion of the recursion bound. -/
inductive WalkError where
  | runtime_error (what : String)
  | null_dereference
  | out_of_fuel
  deriving DecidableEq

/-! ## `RouteMatcher::FormPath` -/

/-- Loop of `find_begin_edge` over `correlated.front().edges`: the first
candidate that is not flagged end-node, `none` for `nullptr`. -/
def find_begin_edge.loop : List PathEdge → Option PathEdge
  | [] => none
  | edge :: rest => if edge.end_node then find_begin_edge.loop rest else some edge

/-- The function `find_begin_edge`. The source reads `correlated.front()`,
which is undefined on an empty vector; the model answers `nullptr` there. -/
def find_begin_edge (correlated : List PathLocation) : Option PathEdge :=
  match correlated.head? with
  | some front => find_begin_edge.loop front.edges
  | none => none

/-- Loop of `find_end_edge` over `correlated.back().edges`: the first candidate
that is not flagged begin-node, `none` for `nullptr`. -/
def find_end_edge.loop : List PathEdge → Option PathEdge
  | [] => none
  | edge :: rest => if edge.begin_node then find_end_edge.loop rest else some edge

/-- The function `find_end_edge`. The source reads `correlated.back()`, which is
undefined on an empty vector; the model answers `nullptr` there. -/
def find_end_edge (correlated : List PathLocation) : Option PathEdge :=
  match correlated.getLast? with
  | some back => find_end_edge.loop back.edges
  | none => none

/-- The function `find_start_node`: the end node of the opposing edge. -/
def find_start_node (env : WalkEnv) (edge_id : GraphId) : Except WalkError GraphId :=
  match env.GetGraphTile edge_id with
  | none => Except.error (WalkError.runtime_error "Tile is null")
  | some tile =>
    let de := tile.directededge edge_id
    let opp_edge_id := tile.GetOpposingEdgeId de
    let opp_de := tile.directededge opp_edge_id
    Except.ok opp_de.endnode

/-- The `while` loop of `expand_from_node` over the shape, from `index` on:
the first index whose point approximately equals the end node of the edge,
provided every point up to it lies within the squared distance `de2` of the
end node; `none` when the loop ends without a match. -/
def expand_from_node.match_shape (env : WalkEnv) (de_end_ll : PointLL) (de2 : ℚ) :
    List PointLL → Nat → Option Nat
  | [], _ => none
  | p :: rest, index =>
    if env.DistanceSquared de_end_ll p < de2 then
      if env.ApproximatelyEqual p de_end_ll then some index
      else expand_from_node.match_shape env de_end_ll de2 rest (index + 1)
    else none

/-- The `for` loop of `expand_from_node` over the outgoing edges of `node`, the
edge indices still to visit being `idxs`. `recurse index tile node st
from_transition` stands for the recursive call
`expand_from_node(…, index, tile, node, stop_node, prev_edge_label,
elapsed_time, path_infos, from_transition)`: it answers the returned
boolean and the three variables as the call leaves them, which the loop
goes on with when the call returns false. -/
def expand_from_node.edges (env : WalkEnv) (mode : Nat) (shape : List PointLL)
    (recurse : Nat → GraphTile → GraphId → WalkState → Bool → Option (Bool × WalkState))
    (correlated_index : Nat) (tile : GraphTile) (node : GraphId) (node_info : NodeInfo)
    (from_transition : Bool) : List Nat → WalkState → Option (Bool × WalkState)
  | [], st => some (false, st)
  | idx :: rest, st =>
    let de := tile.directededge_at idx
    let edge_id := env.edge_id_at node idx
    -- Skip shortcuts and transit connection edges
    if de.is_shortcut = true ∨ de.use = Use.kTransitConnection then
      expand_from_node.edges env mode shape recurse correlated_index tile node node_info
        from_transition rest st
    else
      -- Look back in path_infos by 1-2 edges
      let n := st.path_infos.length
      if n > 1 ∧ ((st.path_infos[n - 2]?).map PathInfo.edgeid = some edge_id ∨
          (st.path_infos[n - 1]?).map PathInfo.edgeid = some edge_id) then
        expand_from_node.edges env mode shape recurse correlated_index tile node node_info
          from_transition rest st
      else if de.trans_down = true ∨ de.trans_up = true then
        if from_transition then
          expand_from_node.edges env mode shape recurse correlated_index tile node node_info
            from_transition rest st
        else
          match env.GetGraphTile de.endnode with
          | none =>
            expand_from_node.edges env mode shape recurse correlated_index tile node node_info
              from_transition rest st
          | some end_node_tile =>
            match recurse correlated_index end_node_tile de.endnode st true with
            | none => none
            | some (true, st1) => some (true, st1)
            | some (false, st1) =>
              expand_from_node.edges env mode shape recurse correlated_index tile node
                node_info from_transition rest st1
      else
        let de_length := (de.length + 50) % 2 ^ 32
        let de2 := env.F.of_uint32 ((de_length * de_length) % 2 ^ 32)
        match env.GetGraphTile de.endnode with
        | none =>
          expand_from_node.edges env mode shape recurse correlated_index tile node node_info
            from_transition rest st
        | some end_node_tile =>
          let de_end_ll := (end_node_tile.node de.endnode).latlng
          match expand_from_node.match_shape env de_end_ll de2
              (shape.drop (correlated_index + 1)) (correlated_index + 1) with
          | some index =>
            let elapsed_time :=
              env.F.add st.elapsed_time (env.TransitionCost mode de node_info st.prev_edge_label)
            let elapsed_time := env.F.add elapsed_time (env.EdgeCost mode de)
            recurse index end_node_tile de.endnode
              { prev_edge_label := EdgeLabel.walked edge_id de mode
                elapsed_time := elapsed_time
                path_infos :=
                  st.path_infos ++
                    [⟨mode, env.F.to_uint32 (env.F.round elapsed_time), edge_id, 0⟩] }
              false
          | none =>
            expand_from_node.edges env mode shape recurse correlated_index tile node node_info
              from_transition rest st

/-- The function `expand_from_node`: the returned boolean and the variables
`prev_edge_label`, `elapsed_time`, `path_infos` as the call leaves them. The
first argument bounds the depth of the recursion; `none` when the bound is
reached. `correlated_index` is received by reference but never written. -/
def expand_from_node (env : WalkEnv) (mode : Nat) (shape : List PointLL) (stop_node : GraphId) :
    Nat → Nat → GraphTile → GraphId → WalkState → Bool → Option (Bool × WalkState)
  | 0, _, _, _, _, _ => none
  | fuel + 1, correlated_index, tile, node, st, from_transition =>
    if node = stop_node then some (true, st)
    else
      let node_info := tile.node node
      expand_from_node.edges env mode shape
        (expand_from_node env mode shape stop_node fuel)
        correlated_index tile node node_info from_transition
        (List.range' node_info.edge_index node_info.edge_count) st

/-- The `while` loop of `FormPath` looking for the end node of the begin edge
along the shape: the first index whose point approximately equals
`de_end_ll`, provided every point up to it lies closer to the first shape
point than `de_length` (distances rounded); `none` when the loop ends
without a match. `first` is `shape.at(0)`. -/
def FormPath.match_begin (env : WalkEnv) (first de_end_ll : PointLL) (de_length : Nat) :
    List PointLL → Nat → Option Nat
  | [], _ => none
  | p :: rest, index =>
    if env.F.round (env.Distance first p) < env.F.of_uint32 de_length then
      if env.ApproximatelyEqual p de_end_ll then some index
      else FormPath.match_begin env first de_end_ll de_length rest (index + 1)
    else none

/-- The function `RouteMatcher::FormPath`: how the call ends (the returned
boolean, or the way the run ended without a result) and the content of the
output vector `path_infos` at that point. The argument `path_infos` is the
content of the output vector at the call. The recursion of
`expand_from_node` is bounded by `2 * shape.size() + 2`. -/
def FormPath (env : WalkEnv) (mode : Nat) (shape : List PointLL)
    (correlated : List PathLocation) (path_infos : List PathInfo) :
    Except WalkError Bool × List PathInfo :=
  -- Process and validate begin edge
  match find_begin_edge correlated with
  | none => (Except.error (WalkError.runtime_error "Invalid begin edge id"), path_infos)
  | some begin_path_edge =>
    if begin_path_edge.id.Is_Valid = false then
      (Except.error (WalkError.runtime_error "Invalid begin edge id"), path_infos)
    else
      match env.GetGraphTile begin_path_edge.id with
      | none => (Except.error (WalkError.runtime_error "Begin tile is null"), path_infos)
      | some begin_edge_tile =>
        -- Process and validate end edge
        match find_end_edge correlated with
        | none => (Except.error (WalkError.runtime_error "Invalid end edge id"), path_infos)
        | some end_path_edge =>
          if end_path_edge.id.Is_Valid = false then
            (Except.error (WalkError.runtime_error "Invalid end edge id"), path_infos)
          else
            match env.GetGraphTile end_path_edge.id with
            | none => (Except.error (WalkError.runtime_error "End tile is null"), path_infos)
            | some end_edge_tile =>
              -- Assign the end edge start node
              match find_start_node env end_path_edge.id with
              | Except.error e => (Except.error e, path_infos)
              | Except.ok end_edge_start_node =>
                -- Process directed edge and info
                let de := begin_edge_tile.directededge begin_path_edge.id
                match env.GetGraphTile de.endnode with
                | none => (Except.error WalkError.null_dereference, path_infos)
                | some end_node_tile =>
                  let de_end_ll := (end_node_tile.node de.endnode).latlng
                  -- If start and end have the same edge then add and return
                  if begin_path_edge.id = end_path_edge.id then
                    let elapsed_time :=
                      env.F.add 0
                        (env.F.mul (env.EdgeCost mode de)
                          (env.F.sub end_path_edge.dist begin_path_edge.dist))
                    (Except.ok true,
                      path_infos ++
                        [⟨mode, env.F.to_uint32 (env.F.round elapsed_time),
                          begin_path_edge.id, 0⟩])
                  else
                    let de_length :=
                      env.F.to_uint32
                        (env.F.add
                          (env.F.round
                            (env.F.mul (env.F.of_uint32 de.length)
                              (env.F.sub 1 begin_path_edge.dist)))
                          50)
                    match shape.head? with
                    | none => (Except.ok false, path_infos)
                    | some first =>
                      match FormPath.match_begin env first de_end_ll de_length shape 0 with
                      | none => (Except.ok false, path_infos)
                      | some index =>
                        -- Update the elapsed time edge cost at begin edge
                        let elapsed_time :=
                          env.F.add 0
                            (env.F.mul (env.EdgeCost mode de)
                              (env.F.sub 1 begin_path_edge.dist))
                        let st : WalkState :=
                          { prev_edge_label := EdgeLabel.walked begin_path_edge.id de mode
                            elapsed_time := elapsed_time
                            path_infos :=
                              path_infos ++
                                [⟨mode, env.F.to_uint32 (env.F.round elapsed_time),
                                  begin_path_edge.id, 0⟩] }
                        match expand_from_node env mode shape end_edge_start_node
                            (2 * shape.length + 2) index end_node_tile de.endnode st false with
                        | none => (Except.error WalkError.out_of_fuel, st.path_infos)
                        | some (false, st1) => (Except.ok false, st1.path_infos)
                        | some (true, st1) =>
                          let elapsed_time :=
                            env.F.add st1.elapsed_time
                              (env.TransitionCost mode de
                                (end_edge_tile.node end_edge_start_node) st1.prev_edge_label)
                          let elapsed_time :=
                            env.F.add elapsed_time
                              (env.F.mul (env.EdgeCost mode de) end_path_edge.dist)
                          (Except.ok true,
                            st1.path_infos ++
                              [⟨mode, env.F.to_uint32 (env.F.round elapsed_time),
                                end_path_edge.id, 0⟩])

/-! ## `MapMatchingRoute::FormPath` -/

/-- Modelled from the spec: an edge segment of a matched route, with the
fractions of the edge at which the segment starts and ends. -/
structure EdgeSegment where
  edgeid : GraphId
  source : ℚ
  target : ℚ
  deriving DecidableEq

/-- Modelled from the spec: a match result of the map matcher, consumed
opaquely. -/
structure MatchResult where
  handle : Nat
  deriving DecidableEq

/-- Modelled from the spec: the collaborators of `MapMatchingRoute::FormPath`.

* `ConstructRoute results` is `ConstructRoute(matcher->mapmatching(),
  results.begin(), results.end())`: the edge segments, or the message of
  the exception it throws.
* `directededge id` is
  `matcher->graphreader().GetGraphTile(id)->directededge(id)` and `node id` is
  `matcher->graphreader().GetGraphTile(id)->node(id)`; the source
  dereferences both tiles unchecked.
* `GetEdgeDensity` is the reader's tile-level density.
* `EdgeCost mode de density` is `costing->EdgeCost(de, density).secs`,
  `TransitionCost mode de node pred` is
  `costing->TransitionCost(de, node, pred).secs`. -/
structure MatchEnv where
  F : FloatOps
  ConstructRoute : List MatchResult → Except String (List EdgeSegment)
  directededge : GraphId → DirectedEdge
  node : GraphId → NodeInfo
  GetEdgeDensity : GraphId → Nat
  EdgeCost : Nat → DirectedEdge → Nat → ℚ
  TransitionCost : Nat → DirectedEdge → NodeInfo → EdgeLabel → ℚ

/-- The local variables of `MapMatchingRoute::FormPath` that live across the
iterations of its loop; `nodeinfo` is `none` for the null pointer. -/
structure MatchState where
  elapsed_time : ℚ
  path : List PathInfo
  prior_edge : GraphId
  nodeinfo : Option NodeInfo
  pred : EdgeLabel
  deriving DecidableEq

/-- State of `MapMatchingRoute::FormPath` at loop entry: the default-constructed
`prior_edge` is the invalid id. -/
def MatchState.init : MatchState :=
  { elapsed_time := 0, path := [], prior_edge := GraphId.invalid, nodeinfo := none,
    pred := EdgeLabel.default }

/-- The loop of `MapMatchingRoute::FormPath` over the edge segments. -/
def MapMatchingRoute.loop (env : MatchEnv) (mode : Nat) :
    List EdgeSegment → MatchState → MatchState
  | [], st => st
  | edge_segment :: rest, st =>
    -- Skip edges that are the same as the prior edge
    if edge_segment.edgeid = st.prior_edge then MapMatchingRoute.loop env mode rest st
    else
      let edge_id := edge_segment.edgeid
      let directededge := env.directededge edge_id
      let elapsed_time :=
        match st.nodeinfo with
        | some nodeinfo =>
          env.F.add
            (env.F.add st.elapsed_time (env.TransitionCost mode directededge nodeinfo st.pred))
            (env.F.mul (env.EdgeCost mode directededge nodeinfo.density)
              (env.F.sub edge_segment.target edge_segment.source))
        | none =>
          env.F.add st.elapsed_time
            (env.F.mul (env.EdgeCost mode directededge (env.GetEdgeDensity edge_id))
              (env.F.sub edge_segment.target edge_segment.source))
      let prior_node := directededge.endnode
      MapMatchingRoute.loop env mode rest
        { elapsed_time := elapsed_time
          path := st.path ++ [⟨mode, env.F.to_uint32 elapsed_time, edge_id, 0⟩]
          prior_edge := edge_id
          nodeinfo := some (env.node prior_node)
          pred := EdgeLabel.matched edge_id directededge directededge.restrictions
            directededge.opp_local_idx mode }

/-- The function `MapMatchingRoute::FormPath`: the path returned, or the
exception `valhalla_exception_t{400, 442}` that replaces any exception
thrown while the route is constructed. -/
def MapMatchingRoute.FormPath (env : MatchEnv) (results : List MatchResult) (mode : Nat) :
    Except valhalla_exception_t (List PathInfo) :=
  match env.ConstructRoute results with
  | Except.error _ => Except.error ⟨400, 442⟩
  | Except.ok edge_segments =>
    Except.ok (MapMatchingRoute.loop env mode edge_segments MatchState.init).path

/-- The segments kept by the deduplication as the specification describes it:
those whose edge id differs from the edge id of the last kept segment,
`prior` being that id (initially the invalid id). -/
def kept_segments (prior : GraphId) : List EdgeSegment → List EdgeSegment
  | [] => []
  | seg :: rest =>
    if seg.edgeid = prior then kept_segments prior rest
    else seg :: kept_segments seg.edgeid rest

deriving instance DecidableEq for Except

/-! ## A small graph for the worked examples of the shape walker -/

/-- Exact arithmetic: the floating-point operations on values that are computed
without rounding error. `std::round` rounds to the nearest integer, halfway
cases away from zero. The conversion to `uint32_t` drops the fraction
(towards zero) and keeps the low 32 bits of the integer, as the conversion
through a 64-bit integer does: a negative value such as `-5` becomes
`2 ^ 32 - 5`. -/
def exact_float : FloatOps where
  add := fun a b => a + b
  sub := fun a b => a - b
  mul := fun a b => a * b
  round := fun a =>
    if 0 ≤ a then ((⌊a + Rat.divInt 1 2⌋ : ℤ) : ℚ) else ((⌈a - Rat.divInt 1 2⌉ : ℤ) : ℚ)
  to_uint32 := fun a => Int.toNat ((if 0 ≤ a then ⌊a⌋ else ⌈a⌉) % 2 ^ 32)
  of_uint32 := fun n => (n : ℚ)
  zero_add := fun x => zero_add x

/-- Five nodes on a west-east line, with ids 1000 to 1004 and positions (in
metres east of the first) 0, 100, 150, 200 and 400: node 1002, at 150, is
the end of a 50 m spur leaving node 1001. -/
def demo_node_x (node : GraphId) : ℚ :=
  if node = ⟨1000⟩ then 0
  else if node = ⟨1001⟩ then 100
  else if node = ⟨1002⟩ then 150
  else if node = ⟨1003⟩ then 200
  else 400

/-- The eight directed edges of the demo graph, by index (the id of an edge is
its index): `0: 1000→1001`, `1: 1001→1000`, `2: 1001→1002` (the spur),
`3: 1001→1003`, `4: 1002→1001`, `5: 1003→1001`, `6: 1003→1004` (200 m),
`7: 1004→1003`. -/
def demo_edge (idx : Nat) : DirectedEdge :=
  let mk (length : Nat) (endnode : Nat) : DirectedEdge :=
    { is_shortcut := false, use := Use.kOther 0, trans_up := false, trans_down := false,
      length := length, endnode := ⟨endnode⟩, restrictions := 0, opp_local_idx := 0 }
  match idx with
  | 0 => mk 100 1001
  | 1 => mk 100 1000
  | 2 => mk 50 1002
  | 3 => mk 100 1003
  | 4 => mk 50 1001
  | 5 => mk 100 1001
  | 6 => mk 200 1004
  | _ => mk 200 1003

/-- The nodes of the demo graph with their outgoing edge ranges. -/
def demo_node (node : GraphId) : NodeInfo :=
  let mk (edge_index edge_count : Nat) : NodeInfo :=
    { edge_index := edge_index, edge_count := edge_count,
      latlng := ⟨demo_node_x node, 0⟩, density := 0 }
  if node = ⟨1000⟩ then mk 0 1
  else if node = ⟨1001⟩ then mk 1 3
  else if node = ⟨1002⟩ then mk 4 1
  else if node = ⟨1003⟩ then mk 5 2
  else mk 7 1

/-- The single tile of the demo graph. The opposing edge of an edge is found
from its end node and length: `0↔1`, `2↔4`, `3↔5`, `6↔7`. -/
def demo_tile : GraphTile where
  node := demo_node
  directededge := fun id => demo_edge id.value
  directededge_at := demo_edge
  GetOpposingEdgeId := fun de =>
    if de = demo_edge 0 then ⟨1⟩ else if de = demo_edge 1 then ⟨0⟩
    else if de = demo_edge 2 then ⟨4⟩ else if de = demo_edge 4 then ⟨2⟩
    else if de = demo_edge 3 then ⟨5⟩ else if de = demo_edge 5 then ⟨3⟩
    else if de = demo_edge 6 then ⟨7⟩ else ⟨6⟩

/-- The demo graph with its costs and geometry: an edge costs a tenth of its
length in seconds, a transition onto an edge a hundredth of the length of
that edge; the points lie on one line, so their distance is the difference
of their first coordinates, and two points are approximately equal when
they are equal. -/
def demo_walk_env : WalkEnv where
  F := exact_float
  GetGraphTile := fun _ => some demo_tile
  edge_id_at := fun _ k => ⟨k⟩
  EdgeCost := fun _ de => ((de.length / 10 : Nat) : ℚ)
  TransitionCost := fun _ de _ _ => ((de.length / 100 : Nat) : ℚ)
  Distance := fun a b => |a.lng - b.lng|
  DistanceSquared := fun a b => (a.lng - b.lng) * (a.lng - b.lng)
  ApproximatelyEqual := fun a b => decide (a = b)

/-- Origin at the begin node of edge 0 and destination at the end node of
edge 6. -/
def demo_walk_locations : List PathLocation :=
  [{ edges := [⟨⟨0⟩, 0, true, false⟩], stoptype_ := StopType.BREAK, date_time_ := none },
    { edges := [⟨⟨6⟩, 1, false, true⟩], stoptype_ := StopType.BREAK, date_time_ := none }]

/-- The shape of the route over the edges 0, 3, 6, node positions only. -/
def demo_shape : List PointLL := [⟨0, 0⟩, ⟨100, 0⟩, ⟨200, 0⟩, ⟨400, 0⟩]

/-- The shape of the same route when edge 3 carries an intermediate shape point
at 150 m, where the spur (edge 2) ends. -/
def demo_shape_spur : List PointLL := [⟨0, 0⟩, ⟨100, 0⟩, ⟨150, 0⟩, ⟨200, 0⟩, ⟨400, 0⟩]

/-- Two locations whose only candidate carries the invalid edge id. -/
def demo_invalid_locations : List PathLocation :=
  [{ edges := [⟨GraphId.invalid, Rat.divInt 1 2, false, false⟩], stoptype_ := StopType.BREAK,
     date_time_ := none },
    { edges := [⟨GraphId.invalid, Rat.divInt 1 2, false, false⟩], stoptype_ := StopType.BREAK,
      date_time_ := none }]

/-- Two locations on edge 3, at a fifth and at seven tenths of the edge. -/
def demo_same_edge_locations : List PathLocation :=
  [{ edges := [⟨⟨3⟩, Rat.divInt 1 5, false, false⟩], stoptype_ := StopType.BREAK,
     date_time_ := none },
    { edges := [⟨⟨3⟩, Rat.divInt 7 10, false, false⟩], stoptype_ := StopType.BREAK,
      date_time_ := none }]

/-- Two locations on edge 3, the first at three quarters and the second at a
quarter of the edge: the destination lies before the origin on the edge. -/
def demo_reversed_locations : List PathLocation :=
  [{ edges := [⟨⟨3⟩, Rat.divInt 3 4, false, false⟩], stoptype_ := StopType.BREAK,
     date_time_ := none },
    { edges := [⟨⟨3⟩, Rat.divInt 1 4, false, false⟩], stoptype_ := StopType.BREAK,
      date_time_ := none }]

/-- The demo graph with no tile loaded. -/
def demo_no_tile_env : WalkEnv :=
  { demo_walk_env with GetGraphTile := fun _ => none }

/-- An origin whose only candidate is flagged end-node, and the destination of
`demo_walk_locations`. -/
def demo_no_begin_locations : List PathLocation :=
  [{ edges := [⟨⟨1⟩, 1, false, true⟩], stoptype_ := StopType.BREAK, date_time_ := none },
    { edges := [⟨⟨6⟩, 1, false, true⟩], stoptype_ := StopType.BREAK, date_time_ := none }]

/-- A matcher whose route is made of the segments `0, 0, 3, 3, 6` of the demo
graph (edge 0 and edge 3 are each split over two segments), with the costs
of `demo_walk_env`. -/
def demo_match_env : MatchEnv where
  F := exact_float
  ConstructRoute := fun _ =>
    Except.ok [⟨⟨0⟩, 0, 1⟩, ⟨⟨0⟩, 1, 1⟩, ⟨⟨3⟩, 0, 1⟩, ⟨⟨3⟩, 1, 1⟩, ⟨⟨6⟩, 0, 1⟩]
  directededge := fun id => demo_edge id.value
  node := demo_node
  GetEdgeDensity := fun _ => 0
  EdgeCost := fun _ de _ => ((de.length / 10 : Nat) : ℚ)
  TransitionCost := fun _ de _ _ => ((de.length / 100 : Nat) : ℚ)

/-! ## A graph with a loop edge -/

/-- The five directed edges of a graph whose first edge is a loop: `0: 3000→3000`
(60 m, leaving node 3000 and coming back to it), `1: 3000→3001`,
`2: 3001→3000`, `3: 3001→3002` (200 m), `4: 3002→3001`. -/
def demo_loop_edge (idx : Nat) : DirectedEdge :=
  let mk (length : Nat) (endnode : Nat) : DirectedEdge :=
    { is_shortcut := false, use := Use.kOther 0, trans_up := false, trans_down := false,
      length := length, endnode := ⟨endnode⟩, restrictions := 0, opp_local_idx := 0 }
  match idx with
  | 0 => mk 60 3000
  | 1 => mk 100 3001
  | 2 => mk 100 3000
  | 3 => mk 200 3002
  | _ => mk 200 3001

/-- The nodes 3000, 3001 and 3002 of that graph, at 0, 100 and 300 m, with their
outgoing edge ranges: the loop is the first outgoing edge of node 3000. -/
def demo_loop_node (node : GraphId) : NodeInfo :=
  if node = ⟨3000⟩ then
    { edge_index := 0, edge_count := 2, latlng := ⟨0, 0⟩, density := 0 }
  else if node = ⟨3001⟩ then
    { edge_index := 2, edge_count := 2, latlng := ⟨100, 0⟩, density := 0 }
  else { edge_index := 4, edge_count := 1, latlng := ⟨300, 0⟩, density := 0 }

/-- The single tile of the graph with the loop edge. -/
def demo_loop_tile : GraphTile where
  node := demo_loop_node
  directededge := fun id => demo_loop_edge id.value
  directededge_at := demo_loop_edge
  GetOpposingEdgeId := fun de =>
    if de = demo_loop_edge 1 then ⟨2⟩ else if de = demo_loop_edge 2 then ⟨1⟩
    else if de = demo_loop_edge 3 then ⟨4⟩ else if de = demo_loop_edge 4 then ⟨3⟩
    else ⟨0⟩

/-- The graph with the loop edge, with the costs and the geometry of
`demo_walk_env`. -/
def demo_loop_env : WalkEnv :=
  { demo_walk_env with GetGraphTile := fun _ => some demo_loop_tile }

/-- Origin at the begin node of the loop edge 0 and destination at the end node
of edge 3. -/
def demo_loop_locations : List PathLocation :=
  [{ edges := [⟨⟨0⟩, 0, true, false⟩], stoptype_ := StopType.BREAK, date_time_ := none },
    { edges := [⟨⟨3⟩, 1, false, true⟩], stoptype_ := StopType.BREAK, date_time_ := none }]

/-- The shape of the route over the edges 0, 1, 3: once around the loop (out to
30 m and back to node 3000), then on to the nodes 3001 and 3002. -/
def demo_loop_shape : List PointLL := [⟨0, 0⟩, ⟨30, 0⟩, ⟨0, 0⟩, ⟨100, 0⟩, ⟨300, 0⟩]

/-! ## A graph on three hierarchy levels -/

/-- The twelve directed edges of a graph on three hierarchy levels:
`0: 1000→1001`, `1: 1001→1000`, `2: 1001→2001` (transition down),
`3: 1001→3001` (transition up), `4: 2001→2002` (a 50 m spur),
`5: 2001→1001` (transition up), `6: 2002→2001`, `7: 3001→3003`,
`8: 3001→1001` (transition down), `9: 3003→3001`, `10: 3003→3004` (200 m),
`11: 3004→3003`. -/
def demo_levels_edge (idx : Nat) : DirectedEdge :=
  let mk (length : Nat) (endnode : Nat) : DirectedEdge :=
    { is_shortcut := false, use := Use.kOther 0, trans_up := false, trans_down := false,
      length := length, endnode := ⟨endnode⟩, restrictions := 0, opp_local_idx := 0 }
  let up (endnode : Nat) : DirectedEdge :=
    { is_shortcut := false, use := Use.kOther 0, trans_up := true, trans_down := false,
      length := 0, endnode := ⟨endnode⟩, restrictions := 0, opp_local_idx := 0 }
  let down (endnode : Nat) : DirectedEdge :=
    { is_shortcut := false, use := Use.kOther 0, trans_up := false, trans_down := true,
      length := 0, endnode := ⟨endnode⟩, restrictions := 0, opp_local_idx := 0 }
  match idx with
  | 0 => mk 100 1001
  | 1 => mk 100 1000
  | 2 => down 2001
  | 3 => up 3001
  | 4 => mk 50 2002
  | 5 => up 1001
  | 6 => mk 50 2001
  | 7 => mk 100 3003
  | 8 => down 1001
  | 9 => mk 100 3001
  | 10 => mk 200 3004
  | _ => mk 200 3003

/-- The node ids of the graph on three levels: 1000 and 1001 on the middle
level, 2001 and 2002 on the lower level, 3001, 3003 and 3004 on the upper
level. -/
def demo_levels_nodes : List GraphId :=
  [⟨1000⟩, ⟨1001⟩, ⟨2001⟩, ⟨2002⟩, ⟨3001⟩, ⟨3003⟩, ⟨3004⟩]

/-- The nodes of the graph on three levels with their positions and outgoing
edge ranges: the nodes 1001, 2001 and 3001 are the same place (100 m) on
the three levels, node 2002 is at 150 m, node 3003 at 200 m and node 3004
at 400 m. -/
def demo_levels_node (node : GraphId) : NodeInfo :=
  let mk (edge_index edge_count : Nat) (x : ℚ) : NodeInfo :=
    { edge_index := edge_index, edge_count := edge_count, latlng := ⟨x, 0⟩, density := 0 }
  if node = ⟨1000⟩ then mk 0 1 0
  else if node = ⟨1001⟩ then mk 1 3 100
  else if node = ⟨2001⟩ then mk 4 2 100
  else if node = ⟨2002⟩ then mk 6 1 150
  else if node = ⟨3001⟩ then mk 7 2 100
  else if node = ⟨3003⟩ then mk 9 2 200
  else mk 11 1 400

/-- The single tile of the graph on three levels. -/
def demo_levels_tile : GraphTile where
  node := demo_levels_node
  directededge := fun id => demo_levels_edge id.value
  directededge_at := demo_levels_edge
  GetOpposingEdgeId := fun de =>
    if de = demo_levels_edge 0 then ⟨1⟩ else if de = demo_levels_edge 1 then ⟨0⟩
    else if de = demo_levels_edge 2 then ⟨5⟩ else if de = demo_levels_edge 5 then ⟨2⟩
    else if de = demo_levels_edge 3 then ⟨8⟩ else if de = demo_levels_edge 8 then ⟨3⟩
    else if de = demo_levels_edge 4 then ⟨6⟩ else if de = demo_levels_edge 6 then ⟨4⟩
    else if de = demo_levels_edge 7 then ⟨9⟩ else if de = demo_levels_edge 9 then ⟨7⟩
    else if de = demo_levels_edge 10 then ⟨11⟩ else ⟨10⟩

/-- The graph on three levels, with the costs and the geometry of
`demo_walk_env`. -/
def demo_levels_env : WalkEnv :=
  { demo_walk_env with GetGraphTile := fun _ => some demo_levels_tile }

/-- Origin at the begin node of edge 0 and destination at the end node of
edge 10: the route is edge 0, the transition up at node 1001, edge 7 and
edge 10, and its shape is `demo_shape_spur` (edge 7 has an intermediate
shape point at 150 m). -/
def demo_levels_locations : List PathLocation :=
  [{ edges := [⟨⟨0⟩, 0, true, false⟩], stoptype_ := StopType.BREAK, date_time_ := none },
    { edges := [⟨⟨10⟩, 1, false, true⟩], stoptype_ := StopType.BREAK, date_time_ := none }]

/-- Whether the edge `edge_id` is an outgoing edge of `node`, that is, whether
`node` is the start node of the edge. -/
def edge_leaves (env : WalkEnv) (tile : GraphTile) (node edge_id : GraphId) : Bool :=
  (List.range' (tile.node node).edge_index (tile.node node).edge_count).any
    (fun k => decide (env.edge_id_at node k = edge_id))

/-- Whether the node `u` is the node `v` or has a hierarchy-transition edge
ending at `v`. -/
def nodes_joined (tile : GraphTile) (u v : GraphId) : Bool :=
  decide (u = v) ||
    (List.range' (tile.node u).edge_index (tile.node u).edge_count).any
      (fun k => ((tile.directededge_at k).trans_up || (tile.directededge_at k).trans_down) &&
        decide ((tile.directededge_at k).endnode = v))

/-! ## Theorems: engine selection -/

theorem get_path_algorithm_inner_iff (edge1 : PathEdge) (l : List PathEdge) :
    get_path_algorithm.inner edge1 l = true ↔ ∃ edge2 ∈ l, edge1.id = edge2.id := by
  induction l with
  | nil => simp [get_path_algorithm.inner]
  | cons a rest ih =>
    by_cases h : edge1.id = a.id
    · simp [get_path_algorithm.inner, h]
    · simp [get_path_algorithm.inner, h, ih]

theorem get_path_algorithm_outer_iff (dest_edges l : List PathEdge) :
    get_path_algorithm.outer dest_edges l = true ↔
      ∃ edge1 ∈ l, ∃ edge2 ∈ dest_edges, edge1.id = edge2.id := by
  induction l with
  | nil => simp [get_path_algorithm.outer]
  | cons a rest ih =>
    by_cases h : get_path_algorithm.inner a dest_edges = true
    · have h2 := (get_path_algorithm_inner_iff a dest_edges).1 h
      have h3 : get_path_algorithm.outer dest_edges (a :: rest) = true := by
        simp [get_path_algorithm.outer, h]
      exact ⟨fun _ => ⟨a, List.mem_cons_self _ _, h2⟩, fun _ => h3⟩
    · have h2 : ¬ ∃ edge2 ∈ dest_edges, a.id = edge2.id :=
        fun hx => h ((get_path_algorithm_inner_iff a dest_edges).2 hx)
      have h3 : get_path_algorithm.outer dest_edges (a :: rest) =
          get_path_algorithm.outer dest_edges rest := by
        simp [get_path_algorithm.outer, h]
      rw [h3, ih]
      constructor
      · rintro ⟨e1, he1, hx⟩
        exact ⟨e1, List.mem_cons_of_mem _ he1, hx⟩
      · rintro ⟨e1, he1, hx⟩
        rcases List.mem_cons.1 he1 with he1 | he1
        · exact absurd (he1 ▸ hx) h2
        · exact ⟨e1, he1, hx⟩

/-- C1. `get_path_algorithm` selects the multi-modal engine exactly when the
costing is "multimodal" or "transit" (whatever the candidate edges);
otherwise it selects the forward A* engine exactly when some candidate edge
id of the origin equals some candidate edge id of the destination, and the
bidirectional A* engine in every remaining case. -/
theorem get_path_algorithm_selects (routetype : String) (origin destination : PathLocation) :
    (get_path_algorithm routetype origin destination = PathAlgorithm.multi_modal_astar ↔
      (routetype = "multimodal" ∨ routetype = "transit")) ∧
    (get_path_algorithm routetype origin destination = PathAlgorithm.astar ↔
      (¬ (routetype = "multimodal" ∨ routetype = "transit") ∧
        ∃ edge1 ∈ origin.edges, ∃ edge2 ∈ destination.edges, edge1.id = edge2.id)) ∧
    (get_path_algorithm routetype origin destination = PathAlgorithm.bidir_astar ↔
      (¬ (routetype = "multimodal" ∨ routetype = "transit") ∧
        ¬ ∃ edge1 ∈ origin.edges, ∃ edge2 ∈ destination.edges, edge1.id = edge2.id)) := by
  have key := get_path_algorithm_outer_iff destination.edges origin.edges
  by_cases hr : routetype = "multimodal" ∨ routetype = "transit"
  · have hv : get_path_algorithm routetype origin destination =
        PathAlgorithm.multi_modal_astar := by
      simp [get_path_algorithm, hr]
    rw [hv]
    refine ⟨⟨fun _ => hr, fun _ => rfl⟩, ⟨fun h => ?_, fun h => absurd hr h.1⟩,
      ⟨fun h => ?_, fun h => absurd hr h.1⟩⟩
    · exact absurd h (by decide)
    · exact absurd h (by decide)
  · by_cases ho : get_path_algorithm.outer destination.edges origin.edges = true
    · have hv : get_path_algorithm routetype origin destination = PathAlgorithm.astar := by
        simp [get_path_algorithm, hr, ho]
      rw [hv]
      refine ⟨⟨fun h => ?_, fun h => absurd h hr⟩, ⟨fun _ => ⟨hr, key.1 ho⟩, fun _ => rfl⟩,
        ⟨fun h => ?_, fun h => absurd (key.1 ho) h.2⟩⟩
      · exact absurd h (by decide)
      · exact absurd h (by decide)
    · have hex : ¬ ∃ edge1 ∈ origin.edges, ∃ edge2 ∈ destination.edges, edge1.id = edge2.id :=
        fun hx => ho (key.2 hx)
      have hv : get_path_algorithm routetype origin destination =
          PathAlgorithm.bidir_astar := by
        simp [get_path_algorithm, hr, ho]
      rw [hv]
      refine ⟨⟨fun h => ?_, fun h => absurd h hr⟩, ⟨fun h => ?_, fun h => absurd h.2 hex⟩,
        ⟨fun _ => ⟨hr, hex⟩, fun _ => rfl⟩⟩
      · exact absurd h (by decide)
      · exact absurd h (by decide)

/-! ## Theorems: leg merging -/

theorem foldl_push_eq_append_map {α β : Type} (f : α → β) (T : List α) (P : List β) :
    T.foldl (fun acc x => acc ++ [f x]) P = P ++ T.map f := by
  induction T generalizing P with
  | nil => simp
  | cons a rest ih => simp [ih]

/-- Closed form of `stitch` on a running path ending in `b` and a leg starting
with `f`. -/
theorem stitch_append_cons (Q : List PathInfo) (b f : PathInfo) (T : List PathInfo) :
    stitch (Q ++ [b]) (f :: T) =
      (if f.edgeid = b.edgeid then Q else Q ++ [b]) ++
        (f :: T).map (add_elapsed b.elapsed_time) := by
  unfold stitch
  rw [List.getLast?_concat, List.head?_cons]
  simp only [foldl_push_eq_append_map, List.dropLast_concat]

/-- Closed form of `stitch` on two non-empty vectors. -/
theorem stitch_of_ne_nil (P T : List PathInfo) (hP : P ≠ []) (hT : T ≠ []) :
    stitch P T =
      (if (T.head hT).edgeid = (P.getLast hP).edgeid then P.dropLast else P) ++
        T.map (add_elapsed (P.getLast hP).elapsed_time) := by
  obtain ⟨f, T1, rfl⟩ := List.exists_cons_of_ne_nil hT
  have hPs : P = P.dropLast ++ [P.getLast hP] := (List.dropLast_append_getLast hP).symm
  have h := stitch_append_cons P.dropLast (P.getLast hP) f T1
  rw [← hPs] at h
  rw [h, List.head_cons]

theorem stitch_ne_nil (P T : List PathInfo) (hT : T ≠ []) : stitch P T ≠ [] := by
  by_cases hP : P = []
  · subst hP
    simpa [stitch] using hT
  · rw [stitch_of_ne_nil P T hP hT]
    simp [hT]

/-- C3. Leg merging: for a non-empty running path `P` and a non-empty leg `T`,
with `t` the elapsed time of the last entry of `P` (read before any
removal), the new running path is `P` without its last entry when the first
edge id of `T` is the last edge id of `P`, and `P` itself otherwise,
followed by every entry of `T` in order with its elapsed time increased by
`t` (the 32-bit sum, which is the plain sum whenever that fits in 32 bits)
and its edge id, mode and trip id unchanged; its length is `|P| + |T| - 1`
in the first case and `|P| + |T|` in the second. -/
theorem stitch_merges_leg (P T : List PathInfo) (hP : P ≠ []) (hT : T ≠ []) :
    stitch P T =
      (if (T.head hT).edgeid = (P.getLast hP).edgeid then P.dropLast else P) ++
        T.map (fun e =>
          { mode := e.mode
            elapsed_time := (e.elapsed_time + (P.getLast hP).elapsed_time) % 2 ^ 32
            edgeid := e.edgeid
            tripid := e.tripid }) ∧
    ((∀ e ∈ T, e.elapsed_time + (P.getLast hP).elapsed_time < 2 ^ 32) →
      stitch P T =
        (if (T.head hT).edgeid = (P.getLast hP).edgeid then P.dropLast else P) ++
          T.map (fun e =>
            { mode := e.mode
              elapsed_time := e.elapsed_time + (P.getLast hP).elapsed_time
              edgeid := e.edgeid
              tripid := e.tripid })) ∧
    (stitch P T).length =
      (if (T.head hT).edgeid = (P.getLast hP).edgeid then P.length + T.length - 1
       else P.length + T.length) := by
  have h := stitch_of_ne_nil P T hP hT
  have hmap : T.map (add_elapsed (P.getLast hP).elapsed_time) =
      T.map (fun e =>
          { mode := e.mode
            elapsed_time := (e.elapsed_time + (P.getLast hP).elapsed_time) % 2 ^ 32
            edgeid := e.edgeid
            tripid := e.tripid }) := rfl
  have hlen : 0 < P.length := List.length_pos.2 hP
  refine ⟨by rw [h, hmap], fun hno => ?_, ?_⟩
  · rw [h, hmap]
    congr 1
    apply List.map_congr_left
    intro e he
    rw [Nat.mod_eq_of_lt (hno e he)]
  · rw [h]
    by_cases hj : (T.head hT).edgeid = (P.getLast hP).edgeid
    · simp only [hj, if_true, List.length_append, List.length_map, List.length_dropLast]
      omega
    · simp only [hj, if_false, List.length_append, List.length_map]

/-- C3 on a concrete input: a two-edge path merged with a two-edge leg that continues
along its last edge. -/
theorem stitch_merges_leg_witness :
    stitch [⟨0, 3, ⟨1⟩, 0⟩, ⟨0, 7, ⟨2⟩, 0⟩] [⟨0, 1, ⟨2⟩, 0⟩, ⟨0, 5, ⟨3⟩, 0⟩] =
      [⟨0, 3, ⟨1⟩, 0⟩, ⟨0, 8, ⟨2⟩, 0⟩, ⟨0, 12, ⟨3⟩, 0⟩] ∧
    (stitch [⟨0, 3, ⟨1⟩, 0⟩, ⟨0, 7, ⟨2⟩, 0⟩] [⟨0, 1, ⟨2⟩, 0⟩, ⟨0, 5, ⟨3⟩, 0⟩]).length = 3 := by
  have h := stitch_merges_leg [⟨0, 3, ⟨1⟩, 0⟩, ⟨0, 7, ⟨2⟩, 0⟩]
    [⟨0, 1, ⟨2⟩, 0⟩, ⟨0, 5, ⟨3⟩, 0⟩] (by decide) (by decide)
  exact ⟨h.1.trans (by decide), h.2.2.trans (by decide)⟩

theorem chain'_imp_mem {α : Type} {R S : α → α → Prop} {l : List α}
    (H : ∀ a ∈ l, ∀ b ∈ l, R a b → S a b) (h : l.Chain' R) : l.Chain' S := by
  induction l with
  | nil => exact List.chain'_nil
  | cons a rest ih =>
    cases rest with
    | nil => exact List.chain'_singleton a
    | cons b rest2 =>
      rw [List.chain'_cons] at h ⊢
      refine ⟨H a (List.mem_cons_self _ _) b (List.mem_cons_of_mem _ (List.mem_cons_self _ _))
        h.1, ih (fun x hx y hy hxy => H x (List.mem_cons_of_mem _ hx) y
          (List.mem_cons_of_mem _ hy) hxy) h.2⟩

/-- A relation between adjacent entries survives `stitch` when it holds along
both vectors (the leg after its elapsed times were shifted) and at the
join, in the case where the last entry is removed and in the case where it
is kept. -/
theorem chain'_stitch (R : PathInfo → PathInfo → Prop) (Q : List PathInfo) (b f : PathInfo)
    (T : List PathInfo) (hP : (Q ++ [b]).Chain' R)
    (hT : ((f :: T).map (add_elapsed b.elapsed_time)).Chain' R)
    (hpop : f.edgeid = b.edgeid → ∀ x ∈ Q.getLast?, R x (add_elapsed b.elapsed_time f))
    (hkeep : f.edgeid ≠ b.edgeid → R b (add_elapsed b.elapsed_time f)) :
    (stitch (Q ++ [b]) (f :: T)).Chain' R := by
  rw [stitch_append_cons]
  by_cases hj : f.edgeid = b.edgeid
  · simp only [hj, if_true]
    refine List.Chain'.append (List.chain'_append.1 hP).1 hT ?_
    intro x hx y hy
    simp only [List.map_cons, List.head?_cons, Option.mem_def, Option.some.injEq] at hy
    subst hy
    exact hpop hj x hx
  · simp only [hj, if_false]
    refine List.Chain'.append hP hT ?_
    intro x hx y hy
    simp only [List.map_cons, List.head?_cons, Option.mem_def, Option.some.injEq] at hy
    rw [List.getLast?_concat] at hx
    simp only [Option.mem_def, Option.some.injEq] at hx
    subst hy
    subst hx
    exact hkeep hj

theorem adjacent_pairs_iff_chain' (R : PathInfo → PathInfo → Prop) (l : List PathInfo) :
    adjacent_pairs R l ↔ l.Chain' R := by
  induction l with
  | nil => simp [adjacent_pairs]
  | cons a rest ih =>
    cases rest with
    | nil => simp [adjacent_pairs]
    | cons b rest2 => rw [List.chain'_cons, ← ih, adjacent_pairs]

/-- Merge-level form of the monotonicity of elapsed times. -/
theorem stitch_elapsed_nondecreasing (P T : List PathInfo) (hP : P ≠ []) (hT : T ≠ [])
    (hPs : elapsed_nondecreasing P) (hTs : elapsed_nondecreasing T)
    (hno : ∀ e ∈ T, e.elapsed_time + (P.getLast hP).elapsed_time < 2 ^ 32) :
    elapsed_nondecreasing (stitch P T) := by
  obtain ⟨f, T1, rfl⟩ := List.exists_cons_of_ne_nil hT
  have hPeq : P = P.dropLast ++ [P.getLast hP] := (List.dropLast_append_getLast hP).symm
  generalize P.getLast hP = b at hPeq hno
  generalize P.dropLast = Q at hPeq
  subst hPeq
  have hadd : ∀ e ∈ f :: T1, (add_elapsed b.elapsed_time e).elapsed_time =
      e.elapsed_time + b.elapsed_time := fun e he => Nat.mod_eq_of_lt (hno e he)
  unfold elapsed_nondecreasing at *
  rw [adjacent_pairs_iff_chain'] at *
  apply chain'_stitch _ Q b f T1 hPs
  · rw [List.chain'_map]
    refine chain'_imp_mem ?_ hTs
    intro x hx y hy hxy
    rw [hadd x hx, hadd y hy]
    omega
  · intro _ x hx
    have hxb := (List.chain'_append.1 hPs).2.2 x hx b (by simp)
    rw [hadd f (List.mem_cons_self _ _)]
    omega
  · intro _
    rw [hadd f (List.mem_cons_self _ _)]
    omega

/-- C5. Leg merging keeps adjacent edge ids distinct: if no two adjacent
entries of the running path share an edge id and no two adjacent entries of
the new leg share an edge id, then no two adjacent entries of the merged
path share an edge id, the pair formed at the join included, whether the
duplicated edge was removed or the last entry was kept. -/
theorem stitch_adjacent_edges_distinct (P T : List PathInfo) (hP : P ≠ []) (hT : T ≠ [])
    (hPd : adjacent_edges_distinct P) (hTd : adjacent_edges_distinct T) :
    adjacent_edges_distinct (stitch P T) := by
  obtain ⟨f, T1, rfl⟩ := List.exists_cons_of_ne_nil hT
  have hPeq : P = P.dropLast ++ [P.getLast hP] := (List.dropLast_append_getLast hP).symm
  generalize P.getLast hP = b at hPeq
  generalize P.dropLast = Q at hPeq
  subst hPeq
  unfold adjacent_edges_distinct at *
  rw [adjacent_pairs_iff_chain'] at *
  apply chain'_stitch _ Q b f T1 hPd
  · rw [List.chain'_map]
    exact hTd
  · intro hj x hx
    have hxb := (List.chain'_append.1 hPd).2.2 x hx b (by simp)
    show x.edgeid ≠ f.edgeid
    rw [hj]
    exact hxb
  · intro hj
    exact fun h => hj h.symm

/-- C5 on a concrete input: the join of a path ending on edge 2 with a leg starting on
edge 2. -/
theorem stitch_adjacent_edges_distinct_witness :
    adjacent_edges_distinct
      (stitch [⟨0, 3, ⟨1⟩, 0⟩, ⟨0, 7, ⟨2⟩, 0⟩] [⟨0, 1, ⟨2⟩, 0⟩, ⟨0, 5, ⟨3⟩, 0⟩]) :=
  stitch_adjacent_edges_distinct [⟨0, 3, ⟨1⟩, 0⟩, ⟨0, 7, ⟨2⟩, 0⟩]
    [⟨0, 1, ⟨2⟩, 0⟩, ⟨0, 5, ⟨3⟩, 0⟩] (by decide) (by decide) (by decide) (by decide)

/-! ## Theorems: `update_origin` -/

theorem update_origin_ends_at_node_iff (through_edge : GraphId) (l : List PathEdge) :
    update_origin.ends_at_node through_edge l = true ↔
      ∃ e ∈ l, e.id = through_edge ∧ e.end_node = true := by
  induction l with
  | nil => simp [update_origin.ends_at_node]
  | cons a rest ih =>
    by_cases h1 : a.id = through_edge
    · by_cases h2 : a.end_node = true
      · simp [update_origin.ends_at_node, h1, h2]
      · simp [update_origin.ends_at_node, h1, h2, ih]
    · simp [update_origin.ends_at_node, h1, ih]

theorem update_origin_set_origin_eq (through_edge : GraphId) (all l : List PathEdge) :
    update_origin.set_origin through_edge all l =
      match l.find? (fun e => decide (e.id = through_edge)) with
      | some e => [e]
      | none => all := by
  induction l with
  | nil => simp [update_origin.set_origin]
  | cons a rest ih =>
    by_cases h1 : a.id = through_edge
    · simp [update_origin.set_origin, h1]
    · simp [update_origin.set_origin, h1, ih]

/-- C8. `update_origin`, mid-edge case: when the prior snap was not at a node,
the through edge is not flagged not-through, the origin has a candidate on
the through edge and no candidate on the through edge is flagged end-node,
the origin's candidate list after `update_origin` is exactly one entry: the
first original candidate whose edge id is the through edge, as it was
(same fraction, same flags). The stop type and date-time are untouched. -/
theorem update_origin_mid_edge {σ : Type} (c : Collab σ) (origin : PathLocation)
    (through_edge : GraphId) (hnt : c.not_thru through_edge = false)
    (hex : ∃ e ∈ origin.edges, e.id = through_edge)
    (hmid : ∀ e ∈ origin.edges, e.id = through_edge → e.end_node = false) :
    ∃ e, origin.edges.find? (fun e => decide (e.id = through_edge)) = some e ∧
      e ∈ origin.edges ∧ e.id = through_edge ∧
      update_origin c origin false through_edge = { origin with edges := [e] } := by
  have hends : update_origin.ends_at_node through_edge origin.edges = false := by
    cases hv : update_origin.ends_at_node through_edge origin.edges with
    | false => rfl
    | true =>
      obtain ⟨e, he, hid, hend⟩ := (update_origin_ends_at_node_iff _ _).1 hv
      rw [hmid e he hid] at hend
      exact absurd hend (by decide)
  obtain ⟨e0, he0, hid0⟩ := hex
  cases hf : origin.edges.find? (fun e => decide (e.id = through_edge)) with
  | none =>
    have := List.find?_eq_none.1 hf e0 he0
    simp [hid0] at this
  | some e =>
    refine ⟨e, rfl, List.mem_of_find?_eq_some hf, ?_, ?_⟩
    · simpa using List.find?_some hf
    · simp [update_origin, hnt, hends, update_origin_set_origin_eq, hf]

/-- C8 on a concrete input: three candidates, the second and third on the through edge 5. -/
theorem update_origin_mid_edge_witness :
    ∃ e, (demo_loc [1, 5, 5] StopType.THROUGH).edges.find?
        (fun e => decide (e.id = (⟨5⟩ : GraphId))) = some e ∧
      e ∈ (demo_loc [1, 5, 5] StopType.THROUGH).edges ∧ e.id = ⟨5⟩ ∧
      update_origin demo_collab (demo_loc [1, 5, 5] StopType.THROUGH) false ⟨5⟩ =
        { demo_loc [1, 5, 5] StopType.THROUGH with edges := [e] } :=
  update_origin_mid_edge demo_collab (demo_loc [1, 5, 5] StopType.THROUGH) ⟨5⟩ rfl
    ⟨⟨⟨5⟩, Rat.divInt 1 2, false, false⟩, by decide, rfl⟩ (by decide)

/-- C9. `update_origin` leaves the origin unchanged, its candidate list in
particular (same entries, same order), whenever the prior snap was at a
node, whatever the through edge is, and whenever the prior snap was not at
a node and the through edge is flagged not-through, whatever the
candidates are. -/
theorem update_origin_unchanged {σ : Type} (c : Collab σ) (origin : PathLocation)
    (prior_is_node : Bool) (through_edge : GraphId)
    (h : prior_is_node = true ∨ (prior_is_node = false ∧ c.not_thru through_edge = true)) :
    (update_origin c origin prior_is_node through_edge).edges = origin.edges ∧
      update_origin c origin prior_is_node through_edge = origin := by
  rcases h with h | ⟨h1, h2⟩
  · simp [update_origin, h]
  · simp [update_origin, h1, h2]

/-- C9 on a concrete input: a prior snap at a node, the origin having a candidate on the
through edge. -/
theorem update_origin_unchanged_witness :
    (update_origin demo_collab (demo_loc [1, 5, 5] StopType.THROUGH) true ⟨5⟩).edges =
        (demo_loc [1, 5, 5] StopType.THROUGH).edges ∧
      update_origin demo_collab (demo_loc [1, 5, 5] StopType.THROUGH) true ⟨5⟩ =
        demo_loc [1, 5, 5] StopType.THROUGH :=
  update_origin_unchanged demo_collab (demo_loc [1, 5, 5] StopType.THROUGH) true ⟨5⟩
    (Or.inl rfl)

theorem remove_if_loop_length {α : Type} (pred : α → Bool) (n first result : Nat)
    (v : List α) : (remove_if.loop pred n first result v).1.length = v.length := by
  induction n generalizing first result v with
  | zero => rfl
  | succ n ih =>
    unfold remove_if.loop
    split
    · rfl
    · split
      · exact ih _ _ _
      · rw [ih, List.length_set]

/-- The algorithm `std::remove_if` alone never changes the size of the vector. -/
theorem remove_if_length {α : Type} (pred : α → Bool) (v : List α) :
    (remove_if pred v).1.length = v.length := by
  unfold remove_if
  simp only
  split
  · rfl
  · exact remove_if_loop_length _ _ _ _ _

/-- In the end-node branch of `update_origin` the origin has as many candidates
afterwards as before: nothing is dropped from the vector. -/
theorem update_origin_end_node_length {σ : Type} (c : Collab σ) (origin : PathLocation)
    (through_edge : GraphId) (hnt : c.not_thru through_edge = false)
    (hend : update_origin.ends_at_node through_edge origin.edges = true) :
    (update_origin c origin false through_edge).edges.length = origin.edges.length := by
  simp [update_origin, hnt, hend, remove_if_length]

/-- C7 (evaluation of the code). An origin whose only candidate lies on the
through edge 5 at its end node, the prior snap not at a node and edge 5 not
flagged not-through: `update_origin` takes the end-node branch, and the
candidate on the through edge is still in the list afterwards, because
`std::remove_if` is not followed by an `erase`. -/
theorem update_origin_end_node_keeps_through_edge :
    update_origin.ends_at_node ⟨5⟩ [⟨⟨5⟩, 1, false, true⟩] = true ∧
    demo_collab.not_thru ⟨5⟩ = false ∧
    (update_origin demo_collab ⟨[⟨⟨5⟩, 1, false, true⟩], StopType.THROUGH, none⟩ false
      ⟨5⟩).edges = [⟨⟨5⟩, 1, false, true⟩] := by
  decide

/-! ## Theorems: the loop of the orchestrators -/

theorem run_loop_error_iff {σ : Type}
    (body : Nat → OrchState σ → Except valhalla_exception_t (OrchState σ))
    (idxs : List Nat) (st : OrchState σ) (e : valhalla_exception_t) :
    run_loop body idxs st = Except.error e ↔
      ∃ k i st1, idxs[k]? = some i ∧ run_loop body (idxs.take k) st = Except.ok st1 ∧
        body i st1 = Except.error e := by
  induction idxs generalizing st with
  | nil => simp [run_loop]
  | cons a rest ih =>
    cases hb : body a st with
    | error e1 =>
      constructor
      · intro h
        simp only [run_loop, hb, Except.error.injEq] at h
        exact ⟨0, a, st, by simp, by simp [run_loop], by rw [hb, h]⟩
      · rintro ⟨k, i, st1, hk, hrun, hbody⟩
        cases k with
        | zero =>
          simp only [List.getElem?_cons_zero, Option.some.injEq] at hk
          simp only [List.take_zero, run_loop, Except.ok.injEq] at hrun
          subst hk; subst hrun
          simp only [run_loop, hb]
          rw [← hbody, hb]
        | succ k =>
          simp [run_loop, hb] at hrun
    | ok st2 =>
      have hstep : run_loop body (a :: rest) st = run_loop body rest st2 := by
        simp [run_loop, hb]
      rw [hstep, ih]
      constructor
      · rintro ⟨k, i, st1, hk, hrun, hbody⟩
        exact ⟨k + 1, i, st1, by simpa using hk, by simpa [run_loop, hb] using hrun, hbody⟩
      · rintro ⟨k, i, st1, hk, hrun, hbody⟩
        cases k with
        | zero =>
          simp only [List.getElem?_cons_zero, Option.some.injEq] at hk
          simp only [List.take_zero, run_loop, Except.ok.injEq] at hrun
          subst hk; subst hrun
          rw [hb] at hbody
          exact absurd hbody (by simp)
        | succ k =>
          exact ⟨k, i, st1, by simpa using hk, by simpa [run_loop, hb] using hrun, hbody⟩

/-- Both branches of an iteration of `path_depart_at` call `get_path` on the
same arguments and throw on an empty result; they differ in where the
edges go. -/
theorem depart_step_eq {σ : Type} (c : Collab σ) (costing : String)
    (date_time_type : Option Int) (n i : Nat) (st : OrchState σ)
    (origin destination : PathLocation) (correlated : List PathLocation)
    (hp : path_depart_at.prepare c date_time_type i st = some (origin, destination, correlated)) :
    path_depart_at.step c costing date_time_type n i st =
      if (get_path c (get_path_algorithm costing origin destination) origin destination
          st.world).1 = [] then Except.error ⟨400, 442⟩
      else
        Except.ok (path_depart_at.finish c date_time_type n i
          (get_path_algorithm costing origin destination) origin destination
          { st with
            correlated :=
              path_depart_at.set_break_time date_time_type st.origin_date_time origin correlated
            world := (get_path c (get_path_algorithm costing origin destination) origin
              destination st.world).2
            path_edges :=
              if st.path_edges = [] then
                (get_path c (get_path_algorithm costing origin destination) origin destination
                  st.world).1
              else
                stitch st.path_edges (get_path c (get_path_algorithm costing origin destination)
                  origin destination st.world).1 }) := by
  unfold path_depart_at.step
  rw [hp]
  by_cases h1 : st.path_edges = [] <;>
    by_cases h2 : (get_path c (get_path_algorithm costing origin destination) origin destination
          st.world).1 = [] <;>
    simp [h1, h2]

/-- Both branches of an iteration of `path_arrive_by` call `get_path` on the
same arguments and throw on an empty result. -/
theorem arrive_step_eq {σ : Type} (c : Collab σ) (costing : String)
    (n i : Nat) (st : OrchState σ)
    (origin destination : PathLocation) (correlated : List PathLocation)
    (hp : path_arrive_by.prepare c n i st = some (origin, destination, correlated)) :
    path_arrive_by.step c costing n i st =
      if (get_path c (get_path_algorithm costing origin destination) origin destination
          st.world).1 = [] then Except.error ⟨400, 442⟩
      else
        Except.ok (path_arrive_by.finish c n i
          (get_path_algorithm costing origin destination) origin
          { st with
            correlated := correlated
            world := (get_path c (get_path_algorithm costing origin destination) origin
              destination st.world).2
            path_edges :=
              if st.path_edges = [] then
                (get_path c (get_path_algorithm costing origin destination) origin destination
                  st.world).1
              else
                stitch st.path_edges (get_path c (get_path_algorithm costing origin destination)
                  origin destination st.world).1 }) := by
  unfold path_arrive_by.step
  rw [hp]
  by_cases h1 : st.path_edges = [] <;>
    by_cases h2 : (get_path c (get_path_algorithm costing origin destination) origin destination
          st.world).1 = [] <;>
    simp [h1, h2]

theorem depart_step_error_iff {σ : Type} (c : Collab σ) (costing : String)
    (date_time_type : Option Int) (n i : Nat) (st : OrchState σ) (e : valhalla_exception_t) :
    path_depart_at.step c costing date_time_type n i st = Except.error e ↔
      e = ⟨400, 442⟩ ∧ ∃ origin destination correlated,
        path_depart_at.prepare c date_time_type i st = some (origin, destination, correlated) ∧
        (get_path c (get_path_algorithm costing origin destination) origin destination
          st.world).1 = [] := by
  cases hp : path_depart_at.prepare c date_time_type i st with
  | none => simp [path_depart_at.step, hp]
  | some t =>
    obtain ⟨origin, destination, correlated⟩ := t
    rw [depart_step_eq c costing date_time_type n i st origin destination correlated hp]
    by_cases h2 : (get_path c (get_path_algorithm costing origin destination) origin destination
          st.world).1 = []
    · simp only [h2, if_true, Except.error.injEq, Option.some.injEq, Prod.mk.injEq]
      constructor
      · intro h
        exact ⟨h.symm, origin, destination, correlated, ⟨rfl, rfl, rfl⟩, h2⟩
      · intro h
        exact h.1.symm
    · simp only [h2, if_false, Option.some.injEq, Prod.mk.injEq]
      constructor
      · intro h
        exact absurd h (by simp)
      · rintro ⟨_, o, d, corr, ⟨rfl, rfl, rfl⟩, h⟩
        exact absurd h h2

theorem arrive_step_error_iff {σ : Type} (c : Collab σ) (costing : String)
    (n i : Nat) (st : OrchState σ) (e : valhalla_exception_t) :
    path_arrive_by.step c costing n i st = Except.error e ↔
      e = ⟨400, 442⟩ ∧ ∃ origin destination correlated,
        path_arrive_by.prepare c n i st = some (origin, destination, correlated) ∧
        (get_path c (get_path_algorithm costing origin destination) origin destination
          st.world).1 = [] := by
  cases hp : path_arrive_by.prepare c n i st with
  | none => simp [path_arrive_by.step, hp]
  | some t =>
    obtain ⟨origin, destination, correlated⟩ := t
    rw [arrive_step_eq c costing n i st origin destination correlated hp]
    by_cases h2 : (get_path c (get_path_algorithm costing origin destination) origin destination
          st.world).1 = []
    · simp only [h2, if_true, Except.error.injEq, Option.some.injEq, Prod.mk.injEq]
      constructor
      · intro h
        exact ⟨h.symm, origin, destination, correlated, ⟨rfl, rfl, rfl⟩, h2⟩
      · intro h
        exact h.1.symm
    · simp only [h2, if_false, Option.some.injEq, Prod.mk.injEq]
      constructor
      · intro h
        exact absurd h (by simp)
      · rintro ⟨_, o, d, corr, ⟨rfl, rfl, rfl⟩, h⟩
        exact absurd h h2

theorem path_depart_at_error_iff {σ : Type} (c : Collab σ) (correlated : List PathLocation)
    (costing : String) (date_time_type : Option Int) (s : σ) (e : valhalla_exception_t) :
    path_depart_at c correlated costing date_time_type s = Except.error e ↔
      path_depart_at.run c correlated costing date_time_type s = Except.error e := by
  unfold path_depart_at
  cases path_depart_at.run c correlated costing date_time_type s <;> simp

theorem path_arrive_by_error_iff {σ : Type} (c : Collab σ) (correlated : List PathLocation)
    (costing : String) (s : σ) (e : valhalla_exception_t) :
    path_arrive_by c correlated costing s = Except.error e ↔
      path_arrive_by.run c correlated costing s = Except.error e := by
  unfold path_arrive_by
  cases path_arrive_by.run c correlated costing s <;> simp

/-- C2. For a location list of at least two entries, `path_depart_at` and
`path_arrive_by` throw `valhalla_exception_t{400, 442}` if and only if, for
some consecutive origin/destination pair, the loop ran without exception
over the pairs before it (reaching a state `st`) and `get_path` leaves an
empty edge list for that pair, which is then the first such pair in
iteration order. They throw nothing else, and when they throw no trip list
is returned, whatever trips the state `st` had collected. -/
theorem no_path_error_iff {σ : Type} (c : Collab σ) (correlated : List PathLocation)
    (costing : String) (date_time_type : Option Int) (s : σ)
    (_hn : 2 ≤ correlated.length) :
    (path_depart_at c correlated costing date_time_type s = Except.error ⟨400, 442⟩ ↔
      ∃ k i st origin destination corr,
        (List.range' 1 (correlated.length - 1))[k]? = some i ∧
        run_loop (path_depart_at.step c costing date_time_type correlated.length)
          ((List.range' 1 (correlated.length - 1)).take k) (OrchState.init correlated s) =
            Except.ok st ∧
        path_depart_at.prepare c date_time_type i st = some (origin, destination, corr) ∧
        (get_path c (get_path_algorithm costing origin destination) origin destination
          st.world).1 = []) ∧
    (path_arrive_by c correlated costing s = Except.error ⟨400, 442⟩ ↔
      ∃ k i st origin destination corr,
        (List.range (correlated.length - 1)).reverse[k]? = some i ∧
        run_loop (path_arrive_by.step c costing correlated.length)
          ((List.range (correlated.length - 1)).reverse.take k) (OrchState.init correlated s) =
            Except.ok st ∧
        path_arrive_by.prepare c correlated.length i st = some (origin, destination, corr) ∧
        (get_path c (get_path_algorithm costing origin destination) origin destination
          st.world).1 = []) ∧
    (∀ e, path_depart_at c correlated costing date_time_type s = Except.error e →
      e = ⟨400, 442⟩ ∧
        ∀ trips, path_depart_at c correlated costing date_time_type s ≠ Except.ok trips) ∧
    (∀ e, path_arrive_by c correlated costing s = Except.error e →
      e = ⟨400, 442⟩ ∧ ∀ trips, path_arrive_by c correlated costing s ≠ Except.ok trips) := by
  refine ⟨?_, ?_, ?_, ?_⟩
  · rw [path_depart_at_error_iff, path_depart_at.run, run_loop_error_iff]
    constructor
    · rintro ⟨k, i, st, hk, hrun, hbody⟩
      obtain ⟨_, o, d, corr, hp, hg⟩ := (depart_step_error_iff _ _ _ _ _ _ _).1 hbody
      exact ⟨k, i, st, o, d, corr, hk, hrun, hp, hg⟩
    · rintro ⟨k, i, st, o, d, corr, hk, hrun, hp, hg⟩
      exact ⟨k, i, st, hk, hrun,
        (depart_step_error_iff _ _ _ _ _ _ _).2 ⟨rfl, o, d, corr, hp, hg⟩⟩
  · rw [path_arrive_by_error_iff, path_arrive_by.run, run_loop_error_iff]
    constructor
    · rintro ⟨k, i, st, hk, hrun, hbody⟩
      obtain ⟨_, o, d, corr, hp, hg⟩ := (arrive_step_error_iff _ _ _ _ _ _).1 hbody
      exact ⟨k, i, st, o, d, corr, hk, hrun, hp, hg⟩
    · rintro ⟨k, i, st, o, d, corr, hk, hrun, hp, hg⟩
      exact ⟨k, i, st, hk, hrun,
        (arrive_step_error_iff _ _ _ _ _ _).2 ⟨rfl, o, d, corr, hp, hg⟩⟩
  · intro e he
    refine ⟨?_, fun trips ht => ?_⟩
    · rw [path_depart_at_error_iff, path_depart_at.run, run_loop_error_iff] at he
      obtain ⟨k, i, st, _, _, hbody⟩ := he
      exact ((depart_step_error_iff _ _ _ _ _ _ _).1 hbody).1
    · rw [he] at ht
      exact absurd ht (by simp)
  · intro e he
    refine ⟨?_, fun trips ht => ?_⟩
    · rw [path_arrive_by_error_iff, path_arrive_by.run, run_loop_error_iff] at he
      obtain ⟨k, i, st, _, _, hbody⟩ := he
      exact ((arrive_step_error_iff _ _ _ _ _ _).1 hbody).1
    · rw [he] at ht
      exact absurd ht (by simp)

/-! ## Theorems: what an iteration does to the location vector and the trips -/

theorem drop_one_set_zero {α : Type} (l : List α) (x : α) : (l.set 0 x).drop 1 = l.drop 1 := by
  cases l <;> rfl

theorem depart_prepare_facts {σ : Type} (c : Collab σ) (date_time_type : Option Int)
    (i : Nat) (st : OrchState σ) (origin destination : PathLocation)
    (correlated : List PathLocation)
    (hp : path_depart_at.prepare c date_time_type i st = some (origin, destination, correlated)) :
    st.correlated[i]? = some destination ∧ correlated.length = st.correlated.length ∧
      correlated.drop 1 = st.correlated.drop 1 := by
  unfold path_depart_at.prepare at hp
  cases h1 : st.correlated[i - 1]? with
  | none => simp [h1] at hp
  | some o0 =>
    cases h2 : st.correlated[i]? with
    | none => simp [h1, h2] at hp
    | some d0 =>
      simp only [h1, h2] at hp
      split at hp
      · simp only [Option.some.injEq, Prod.mk.injEq] at hp
        obtain ⟨_, rfl, rfl⟩ := hp
        exact ⟨rfl, rfl, rfl⟩
      · simp only [Option.some.injEq, Prod.mk.injEq] at hp
        obtain ⟨_, rfl, rfl⟩ := hp
        exact ⟨rfl, by simp, drop_one_set_zero _ _⟩

theorem depart_prepare_isSome {σ : Type} (c : Collab σ) (date_time_type : Option Int)
    (i : Nat) (st : OrchState σ) (hi : i < st.correlated.length) :
    ∃ t, path_depart_at.prepare c date_time_type i st = some t := by
  have h1 : i - 1 < st.correlated.length := by omega
  unfold path_depart_at.prepare
  rw [List.getElem?_eq_getElem h1, List.getElem?_eq_getElem hi]
  simp only
  split <;> exact ⟨_, rfl⟩

theorem depart_set_break_time_facts (date_time_type : Option Int)
    (origin_date_time : String) (origin : PathLocation) (correlated : List PathLocation) :
    (path_depart_at.set_break_time date_time_type origin_date_time origin correlated).length =
        correlated.length ∧
      (path_depart_at.set_break_time date_time_type origin_date_time origin correlated).drop 1 =
        correlated.drop 1 := by
  unfold path_depart_at.set_break_time
  split
  · split
    · exact ⟨by simp, drop_one_set_zero _ _⟩
    · exact ⟨rfl, rfl⟩
  · exact ⟨rfl, rfl⟩

theorem depart_finish_facts {σ : Type} (c : Collab σ) (date_time_type : Option Int)
    (n i : Nat) (path_algorithm : PathAlgorithm) (origin destination : PathLocation)
    (st : OrchState σ) :
    (path_depart_at.finish c date_time_type n i path_algorithm origin destination
        st).correlated.length = st.correlated.length ∧
      (path_depart_at.finish c date_time_type n i path_algorithm origin destination
        st).correlated.drop 1 = st.correlated.drop 1 ∧
      (path_depart_at.finish c date_time_type n i path_algorithm origin destination
        st).trippaths.length =
        st.trippaths.length +
          (if destination.stoptype_ = StopType.BREAK ∨ i = n - 1 then 1 else 0) := by
  unfold path_depart_at.finish path_depart_at.boundary
  by_cases h1 : destination.stoptype_ = StopType.BREAK ∨ i = n - 1
  · simp only [h1, if_true]
    exact ⟨by simp, drop_one_set_zero _ _, by simp⟩
  · simp [h1]

/-- Effect of a successful iteration of `path_depart_at` on the location vector
(only the element at index 0 can change) and on the number of trips. -/
theorem depart_step_facts {σ : Type} (c : Collab σ) (costing : String)
    (date_time_type : Option Int) (n i : Nat) (st st1 : OrchState σ)
    (destination : PathLocation) (hd : st.correlated[i]? = some destination)
    (h : path_depart_at.step c costing date_time_type n i st = Except.ok st1) :
    st1.correlated.length = st.correlated.length ∧
      st1.correlated.drop 1 = st.correlated.drop 1 ∧
      st1.trippaths.length =
        st.trippaths.length +
          (if destination.stoptype_ = StopType.BREAK ∨ i = n - 1 then 1 else 0) := by
  have hi : i < st.correlated.length := by
    by_contra hlt
    rw [List.getElem?_eq_none (by omega)] at hd
    exact absurd hd (by simp)
  obtain ⟨⟨o, d, corr⟩, hp⟩ := depart_prepare_isSome c date_time_type i st hi
  obtain ⟨hd2, hlen, hdrop⟩ := depart_prepare_facts c date_time_type i st o d corr hp
  rw [hd] at hd2
  simp only [Option.some.injEq] at hd2
  subst hd2
  rw [depart_step_eq c costing date_time_type n i st o destination corr hp] at h
  split at h
  · exact absurd h (by simp)
  · simp only [Except.ok.injEq] at h
    subst h
    obtain ⟨f1, f2, f3⟩ := depart_finish_facts c date_time_type n i
      (get_path_algorithm costing o destination) o destination
      { st with
        correlated :=
          path_depart_at.set_break_time date_time_type st.origin_date_time o corr
        world := (get_path c (get_path_algorithm costing o destination) o
          destination st.world).2
        path_edges :=
          if st.path_edges = [] then
            (get_path c (get_path_algorithm costing o destination) o destination
              st.world).1
          else
            stitch st.path_edges (get_path c (get_path_algorithm costing o destination)
              o destination st.world).1 }
    obtain ⟨g1, g2⟩ := depart_set_break_time_facts date_time_type
      st.origin_date_time o corr
    refine ⟨?_, ?_, ?_⟩
    · rw [f1]; simp only; rw [g1, hlen]
    · rw [f2]; simp only; rw [g2, hdrop]
    · rw [f3]

theorem take_set_self {α : Type} (l : List α) (m : Nat) (x : α) :
    (l.set m x).take m = l.take m :=
  List.ext_getElem? fun i => by
    rw [List.getElem?_take, List.getElem?_take]
    split
    · next h => rw [List.getElem?_set_ne (by omega)]
    · rfl

theorem update_origin_stoptype {σ : Type} (c : Collab σ) (origin : PathLocation)
    (prior_is_node : Bool) (through_edge : GraphId) :
    (update_origin c origin prior_is_node through_edge).stoptype_ = origin.stoptype_ := by
  unfold update_origin
  split
  · rfl
  · split
    · rfl
    · split <;> rfl

theorem arrive_prepare_facts {σ : Type} (c : Collab σ) (n i : Nat) (st : OrchState σ)
    (origin destination : PathLocation) (correlated : List PathLocation)
    (hp : path_arrive_by.prepare c n i st = some (origin, destination, correlated)) :
    (∃ o0, st.correlated[i]? = some o0 ∧ origin.stoptype_ = o0.stoptype_) ∧
      correlated.length = st.correlated.length ∧
      correlated.take (n - 1) = st.correlated.take (n - 1) := by
  unfold path_arrive_by.prepare at hp
  cases h1 : st.correlated[i]? with
  | none => simp [h1] at hp
  | some o0 =>
    cases h2 : st.correlated[i + 1]? with
    | none => simp [h1, h2] at hp
    | some d0 =>
      simp only [h1, h2] at hp
      split at hp
      · simp only [Option.some.injEq, Prod.mk.injEq] at hp
        obtain ⟨rfl, rfl, rfl⟩ := hp
        exact ⟨⟨o0, rfl, update_origin_stoptype _ _ _ _⟩, rfl, rfl⟩
      · simp only [Option.some.injEq, Prod.mk.injEq] at hp
        obtain ⟨rfl, rfl, rfl⟩ := hp
        exact ⟨⟨_, rfl, rfl⟩, by simp, take_set_self _ _ _⟩

theorem arrive_prepare_isSome {σ : Type} (c : Collab σ) (n i : Nat)
    (st : OrchState σ) (hi : i + 1 < st.correlated.length) :
    ∃ t, path_arrive_by.prepare c n i st = some t := by
  have h1 : i < st.correlated.length := by omega
  unfold path_arrive_by.prepare
  rw [List.getElem?_eq_getElem h1, List.getElem?_eq_getElem hi]
  simp only
  split <;> exact ⟨_, rfl⟩

theorem arrive_finish_facts {σ : Type} (c : Collab σ)
    (n i : Nat) (path_algorithm : PathAlgorithm) (origin : PathLocation)
    (st : OrchState σ) :
    (path_arrive_by.finish c n i path_algorithm origin st).correlated.length =
        st.correlated.length ∧
      (path_arrive_by.finish c n i path_algorithm origin st).correlated.take (n - 1) =
        st.correlated.take (n - 1) ∧
      (path_arrive_by.finish c n i path_algorithm origin st).trippaths.length =
        st.trippaths.length + (if origin.stoptype_ = StopType.BREAK ∨ i = 0 then 1 else 0) := by
  unfold path_arrive_by.finish path_arrive_by.boundary
  by_cases h1 : origin.stoptype_ = StopType.BREAK ∨ i = 0
  · simp only [h1, if_true]
    exact ⟨by simp, take_set_self _ _ _, by simp⟩
  · simp [h1]

/-- Effect of a successful iteration of `path_arrive_by` on the location vector
(only the last element can change) and on the number of trips. -/
theorem arrive_step_facts {σ : Type} (c : Collab σ) (costing : String)
    (n i : Nat) (st st1 : OrchState σ)
    (o0 : PathLocation) (ho : st.correlated[i]? = some o0)
    (hi : i + 1 < st.correlated.length)
    (h : path_arrive_by.step c costing n i st = Except.ok st1) :
    st1.correlated.length = st.correlated.length ∧
      st1.correlated.take (n - 1) = st.correlated.take (n - 1) ∧
      st1.trippaths.length =
        st.trippaths.length + (if o0.stoptype_ = StopType.BREAK ∨ i = 0 then 1 else 0) := by
  obtain ⟨⟨o, d, corr⟩, hp⟩ := arrive_prepare_isSome c n i st hi
  obtain ⟨⟨o1, ho1, hst⟩, hlen, htake⟩ := arrive_prepare_facts c n i st o d corr hp
  rw [ho] at ho1
  simp only [Option.some.injEq] at ho1
  subst ho1
  rw [arrive_step_eq c costing n i st o d corr hp] at h
  split at h
  · exact absurd h (by simp)
  · simp only [Except.ok.injEq] at h
    subst h
    obtain ⟨f1, f2, f3⟩ := arrive_finish_facts c n i
      (get_path_algorithm costing o d) o
      { st with
        correlated := corr
        world := (get_path c (get_path_algorithm costing o d) o d st.world).2
        path_edges :=
          if st.path_edges = [] then
            (get_path c (get_path_algorithm costing o d) o d st.world).1
          else
            stitch st.path_edges (get_path c (get_path_algorithm costing o d) o d st.world).1 }
    refine ⟨?_, ?_, ?_⟩
    · rw [f1]; exact hlen
    · rw [f2]; exact htake
    · rw [f3, hst]

/-! ## Theorems: number of trips -/

theorem depart_trip_count {σ : Type} (c : Collab σ) (costing : String)
    (date_time_type : Option Int) (n : Nat) :
    ∀ (m a : Nat) (st st1 : OrchState σ), 1 ≤ a → st.correlated.length = a + m → n = a + m →
      run_loop (path_depart_at.step c costing date_time_type n) (List.range' a m) st =
        Except.ok st1 →
      st1.trippaths.length = st.trippaths.length +
        (if m = 0 then 0 else 1 + ((st.correlated.drop a).dropLast).countP
          (fun l => decide (l.stoptype_ = StopType.BREAK))) := by
  intro m
  induction m with
  | zero =>
    intro a st st1 _ _ _ hrun
    simp only [List.range'_zero, run_loop, Except.ok.injEq] at hrun
    subst hrun
    simp
  | succ m ih =>
    intro a st st1 ha hlen hn hrun
    rw [List.range'_succ] at hrun
    cases hb : path_depart_at.step c costing date_time_type n a st with
    | error e => simp [run_loop, hb] at hrun
    | ok st2 =>
      simp only [run_loop, hb] at hrun
      have halt : a < st.correlated.length := by omega
      obtain ⟨f1, f2, f3⟩ := depart_step_facts c costing date_time_type n a st st2
        st.correlated[a] (List.getElem?_eq_getElem halt) hb
      have hdrop : st2.correlated.drop (a + 1) = st.correlated.drop (a + 1) := by
        have := congrArg (List.drop a) f2
        simpa [List.drop_drop, Nat.add_comm] using this
      have hrec := ih (a + 1) st2 st1 (by omega) (by omega) (by omega) hrun
      rw [hrec, f3, hdrop, List.drop_eq_getElem_cons halt]
      have hlen2 : (st.correlated.drop (a + 1)).length = m := by
        rw [List.length_drop]; omega
      by_cases hm : m = 0
      · have hnil : st.correlated.drop (a + 1) = [] := by
          apply List.eq_nil_of_length_eq_zero; omega
        have hlast : a = n - 1 := by omega
        have e1 : (st.correlated[a] :: st.correlated.drop (a + 1)).dropLast = [] := by
          rw [hnil]; rfl
        rw [e1]
        simp [hm, hlast]
      · have hne : st.correlated.drop (a + 1) ≠ [] := by
          intro h0
          rw [h0] at hlen2
          exact hm hlen2.symm
        have hnl : ¬ a = n - 1 := by omega
        rw [List.dropLast_cons_of_ne_nil hne, List.countP_cons]
        simp only [hm, hnl, or_false, if_false, Nat.add_one_ne_zero, decide_eq_true_eq]
        omega

theorem arrive_trip_count {σ : Type} (c : Collab σ) (costing : String) (n : Nat) :
    ∀ (m : Nat) (st st1 : OrchState σ), m < st.correlated.length → st.correlated.length = n →
      run_loop (path_arrive_by.step c costing n) (List.range m).reverse st = Except.ok st1 →
      st1.trippaths.length = st.trippaths.length +
        (if m = 0 then 0 else 1 + ((st.correlated.take m).drop 1).countP
          (fun l => decide (l.stoptype_ = StopType.BREAK))) := by
  intro m
  induction m with
  | zero =>
    intro st st1 _ _ hrun
    simp only [List.range_zero, List.reverse_nil, run_loop, Except.ok.injEq] at hrun
    subst hrun
    simp
  | succ m ih =>
    intro st st1 hm hlen hrun
    rw [List.range_succ, List.reverse_append, List.reverse_singleton, List.singleton_append]
      at hrun
    cases hb : path_arrive_by.step c costing n m st with
    | error e => simp [run_loop, hb] at hrun
    | ok st2 =>
      simp only [run_loop, hb] at hrun
      have hmlt : m < st.correlated.length := by omega
      obtain ⟨f1, f2, f3⟩ := arrive_step_facts c costing n m st st2
        st.correlated[m] (List.getElem?_eq_getElem hmlt) hm hb
      have htake : st2.correlated.take m = st.correlated.take m := by
        have := congrArg (List.take m) f2
        rw [List.take_take, List.take_take] at this
        have hmin : min m (n - 1) = m := by omega
        rwa [hmin] at this
      have hrec := ih st2 st1 (by omega) (by omega) hrun
      rw [hrec, f3, htake]
      by_cases hm0 : m = 0
      · subst hm0
        have e1 : (st.correlated.take (0 + 1)).drop 1 = [] := by
          rw [List.drop_take]; rfl
        rw [e1]
        simp
      · have htk : st.correlated.take (m + 1) = st.correlated.take m ++ [st.correlated[m]] := by
          rw [List.take_succ, List.getElem?_eq_getElem hmlt]
          rfl
        have hlt : 1 ≤ (st.correlated.take m).length := by
          rw [List.length_take]; omega
        rw [htk, List.drop_append_of_le_length hlt, List.countP_append]
        simp only [hm0, or_false, if_false, Nat.add_one_ne_zero, List.countP_cons,
          List.countP_nil, decide_eq_true_eq]
        omega

theorem run_loop_ok_of_no_error {σ : Type}
    (body : Nat → OrchState σ → Except valhalla_exception_t (OrchState σ))
    (idxs : List Nat) (st : OrchState σ)
    (h : ∀ i st1 e, body i st1 ≠ Except.error e) : ∃ st1, run_loop body idxs st = Except.ok st1 := by
  cases hr : run_loop body idxs st with
  | ok st1 => exact ⟨st1, rfl⟩
  | error e =>
    obtain ⟨k, i, st1, _, _, hb⟩ := (run_loop_error_iff body idxs st e).1 hr
    exact absurd hb (h i st1 e)

theorem interior_eq_take_drop (l : List PathLocation) :
    (l.take (l.length - 1)).drop 1 = (l.drop 1).dropLast := by
  rw [List.dropLast_eq_take, List.drop_take, List.length_drop]

/-- C6. Trip count: for a location list of `n ≥ 2` entries, whenever
`path_depart_at` (resp. `path_arrive_by`) returns, that is whenever every
leg yielded a non-empty path, it returns exactly `1 + k` trips, `k` being
the number of locations at indices `1` to `n - 2` whose stop type is
`BREAK` (the stop types of the first and last location play no part); and
both do return when `get_path` never leaves an empty edge list. -/
theorem trip_count_eq {σ : Type} (c : Collab σ) (correlated : List PathLocation)
    (costing : String) (date_time_type : Option Int) (s : σ)
    (hn : 2 ≤ correlated.length) :
    (∀ trips, path_depart_at c correlated costing date_time_type s = Except.ok trips →
      trips.length = 1 + interior_breaks correlated) ∧
    (∀ trips, path_arrive_by c correlated costing s = Except.ok trips →
      trips.length = 1 + interior_breaks correlated) ∧
    ((∀ alg origin destination w, (get_path c alg origin destination w).1 ≠ []) →
      (∃ trips, path_depart_at c correlated costing date_time_type s = Except.ok trips ∧
        trips.length = 1 + interior_breaks correlated) ∧
      (∃ trips, path_arrive_by c correlated costing s = Except.ok trips ∧
        trips.length = 1 + interior_breaks correlated)) := by
  have hd : ∀ trips, path_depart_at c correlated costing date_time_type s = Except.ok trips →
      trips.length = 1 + interior_breaks correlated := by
    intro trips h
    unfold path_depart_at at h
    cases hr : path_depart_at.run c correlated costing date_time_type s with
    | error e => simp [hr] at h
    | ok st =>
      simp only [hr, Except.ok.injEq] at h
      subst h
      have := depart_trip_count c costing date_time_type correlated.length
        (correlated.length - 1) 1 (OrchState.init correlated s) st (le_refl 1)
        (by simp only [OrchState.init]; omega) (by omega) hr
      have hm : ¬ correlated.length - 1 = 0 := by omega
      simpa [hm, OrchState.init, interior_breaks] using this
  have ha : ∀ trips, path_arrive_by c correlated costing s = Except.ok trips →
      trips.length = 1 + interior_breaks correlated := by
    intro trips h
    unfold path_arrive_by at h
    cases hr : path_arrive_by.run c correlated costing s with
    | error e => simp [hr] at h
    | ok st =>
      simp only [hr, Except.ok.injEq] at h
      subst h
      have := arrive_trip_count c costing correlated.length
        (correlated.length - 1) (OrchState.init correlated s) st
        (by simp only [OrchState.init]; omega) rfl hr
      have hm : ¬ correlated.length - 1 = 0 := by omega
      simp only [hm, if_false, OrchState.init, interior_eq_take_drop, List.length_nil,
        Nat.zero_add] at this
      simpa [interior_breaks] using this
  refine ⟨hd, ha, fun hne => ⟨?_, ?_⟩⟩
  · obtain ⟨st, hst⟩ := run_loop_ok_of_no_error
      (path_depart_at.step c costing date_time_type correlated.length)
      (List.range' 1 (correlated.length - 1)) (OrchState.init correlated s)
      (fun i st1 e he => by
        obtain ⟨_, o, d, corr, _, hg⟩ := (depart_step_error_iff _ _ _ _ _ _ _).1 he
        exact hne _ _ _ _ hg)
    have hres : path_depart_at c correlated costing date_time_type s =
        Except.ok st.trippaths := by
      simp [path_depart_at, path_depart_at.run, hst]
    exact ⟨st.trippaths, hres, hd _ hres⟩
  · obtain ⟨st, hst⟩ := run_loop_ok_of_no_error
      (path_arrive_by.step c costing correlated.length)
      (List.range (correlated.length - 1)).reverse (OrchState.init correlated s)
      (fun i st1 e he => by
        obtain ⟨_, o, d, corr, _, hg⟩ := (arrive_step_error_iff _ _ _ _ _ _).1 he
        exact hne _ _ _ _ hg)
    have hres : path_arrive_by c correlated costing s = Except.ok st.trippaths := by
      simp [path_arrive_by, path_arrive_by.run, hst]
    exact ⟨st.trippaths, hres, ha _ hres⟩

/-- C6 on a concrete input: on `demo_route` (one interior break) two trips come back. -/
theorem trip_count_eq_witness :
    2 ≤ demo_route.length ∧ interior_breaks demo_route = 1 ∧
      ∀ trips, path_depart_at demo_collab demo_route "auto" none 0 = Except.ok trips →
        trips.length = 1 + interior_breaks demo_route :=
  ⟨by decide, by decide, (trip_count_eq demo_collab demo_route "auto" none 0 (by decide)).1⟩

/-- C2 on a concrete input: on `demo_unreachable` the first leg succeeds and the second
finds no path; the error is thrown and the trip of the first leg is lost. -/
theorem no_path_error_iff_witness :
    2 ≤ demo_unreachable.length ∧
      path_depart_at demo_collab demo_unreachable "auto" none 0 = Except.error ⟨400, 442⟩ ∧
      ∀ trips, path_depart_at demo_collab demo_unreachable "auto" none 0 ≠ Except.ok trips :=
  ⟨by decide, rfl,
    ((no_path_error_iff demo_collab demo_unreachable "auto" none 0 (by decide)).2.2.1
      ⟨400, 442⟩ rfl).2⟩

/-- C10 (evaluation of the code). The through-location list is not reset when a
trip is emitted. On `demo_route`, `path_depart_at` hands the through
location of the first break segment (index 1) to the trip builder again for
the second segment, from location 2 to location 3, which contains no
through location. On `demo_route_rev`, `path_arrive_by` hands the through
location at index 2 to the trip builder for the segment from location 0 to
location 1. In both runs `path_edges` is empty again after the emission:
the second trip holds the edges of its own leg only. -/
theorem through_loc_kept_after_emission :
    path_depart_at demo_collab demo_route "auto" none 0 =
      Except.ok
        [⟨[⟨0, 1, ⟨2⟩, 0⟩, ⟨0, 2, ⟨3⟩, 0⟩], demo_loc [1] StopType.BREAK,
            demo_loc [3] StopType.BREAK, [demo_loc [2] StopType.THROUGH]⟩,
          ⟨[⟨0, 1, ⟨4⟩, 0⟩], demo_loc [3] StopType.BREAK, demo_loc [4] StopType.BREAK,
            [demo_loc [2] StopType.THROUGH]⟩] ∧
    path_arrive_by demo_collab demo_route_rev "auto" 0 =
      Except.ok
        [⟨[⟨0, 1, ⟨2⟩, 0⟩], demo_loc [1] StopType.BREAK, demo_loc [2] StopType.BREAK,
            [demo_loc [3] StopType.THROUGH]⟩,
          ⟨[⟨0, 1, ⟨4⟩, 0⟩, ⟨0, 2, ⟨3⟩, 0⟩], demo_loc [2] StopType.BREAK,
            demo_loc [4] StopType.BREAK, [demo_loc [3] StopType.THROUGH]⟩] :=
  ⟨rfl, rfl⟩

/-! ## Theorems: elapsed times along the edge lists handed to the trip builder -/

/-- Whatever holds of every edge list an engine returns holds of the edge list
`get_path` leaves: it is the result of the last invocation. -/
theorem get_path_result {σ : Type} (c : Collab σ) (Q : List PathInfo → Prop)
    (hQ : ∀ alg origin destination w, Q (c.GetBestPath alg origin destination w).1)
    (alg : PathAlgorithm) (origin destination : PathLocation) (w : σ) :
    Q (get_path c alg origin destination w).1 := by
  unfold get_path
  simp only
  repeat' split
  all_goals exact hQ _ _ _ _

theorem depart_finish_paths {σ : Type} (c : Collab σ) (date_time_type : Option Int)
    (n i : Nat) (path_algorithm : PathAlgorithm) (origin destination : PathLocation)
    (st : OrchState σ) :
    ((path_depart_at.finish c date_time_type n i path_algorithm origin destination
        st).path_edges = [] ∨
      (path_depart_at.finish c date_time_type n i path_algorithm origin destination
        st).path_edges = st.path_edges) ∧
    ∀ t ∈ (path_depart_at.finish c date_time_type n i path_algorithm origin destination
        st).trippaths, t ∈ st.trippaths ∨ t.path_edges = st.path_edges := by
  unfold path_depart_at.finish path_depart_at.boundary
  by_cases h1 : destination.stoptype_ = StopType.BREAK ∨ i = n - 1
  · simp only [h1, if_true]
    refine ⟨by simp, fun t ht => ?_⟩
    rcases List.mem_append.1 ht with h | h
    · exact Or.inl h
    · rw [List.mem_singleton] at h
      exact Or.inr (by rw [h])
  · simp only [h1, if_false]
    exact ⟨by simp, fun t ht => Or.inl ht⟩

theorem arrive_finish_paths {σ : Type} (c : Collab σ)
    (n i : Nat) (path_algorithm : PathAlgorithm) (origin : PathLocation)
    (st : OrchState σ) :
    ((path_arrive_by.finish c n i path_algorithm origin st).path_edges = [] ∨
      (path_arrive_by.finish c n i path_algorithm origin st).path_edges = st.path_edges) ∧
    ∀ t ∈ (path_arrive_by.finish c n i path_algorithm origin st).trippaths,
      t ∈ st.trippaths ∨ t.path_edges = st.path_edges := by
  unfold path_arrive_by.finish path_arrive_by.boundary
  by_cases h1 : origin.stoptype_ = StopType.BREAK ∨ i = 0
  · simp only [h1, if_true]
    refine ⟨by simp, fun t ht => ?_⟩
    rcases List.mem_cons.1 ht with h | h
    · exact Or.inr (by rw [h])
    · exact Or.inl h
  · simp only [h1, if_false]
    exact ⟨by simp, fun t ht => Or.inl ht⟩

/-- Adding the `i`-th leg `r` to a running path whose elapsed times are
non-decreasing and below `(i - 1) * B` gives a path whose elapsed times are
non-decreasing and below `i * B`, when `r` is non-decreasing and below `B`
and `i * B` fits in 32 bits. -/
theorem leg_added_elapsed (B i : Nat) (path_edges r : List PathInfo) (hi : 1 ≤ i)
    (hfit : i * B < 2 ^ 32) (hs : elapsed_nondecreasing path_edges)
    (hb : ∀ e ∈ path_edges, e.elapsed_time ≤ (i - 1) * B) (hne : r ≠ [])
    (hrs : elapsed_nondecreasing r) (hrb : ∀ e ∈ r, e.elapsed_time ≤ B) :
    elapsed_nondecreasing (if path_edges = [] then r else stitch path_edges r) ∧
      ∀ e ∈ (if path_edges = [] then r else stitch path_edges r), e.elapsed_time ≤ i * B := by
  have hiB : (i - 1) * B + B = i * B := by
    obtain ⟨j, rfl⟩ : ∃ j, i = j + 1 := ⟨i - 1, by omega⟩
    simp [Nat.succ_mul]
  by_cases hemp : path_edges = []
  · simp only [hemp, if_true]
    refine ⟨hrs, fun e he => ?_⟩
    have := hrb e he
    omega
  · simp only [hemp, if_false]
    have hlast := hb _ (List.getLast_mem hemp)
    refine ⟨stitch_elapsed_nondecreasing _ _ hemp hne hs hrs (fun e he => ?_),
      fun e he => ?_⟩
    · have := hrb e he
      omega
    · rw [stitch_of_ne_nil _ _ hemp hne] at he
      rcases List.mem_append.1 he with h1 | h1
      · have hmem : e ∈ path_edges := by
          split at h1
          · exact List.mem_of_mem_dropLast h1
          · exact h1
        have := hb e hmem
        omega
      · obtain ⟨x, hx, rfl⟩ := List.mem_map.1 h1
        have := hrb x hx
        have hmod : (add_elapsed (path_edges.getLast hemp).elapsed_time x).elapsed_time ≤
            x.elapsed_time + (path_edges.getLast hemp).elapsed_time :=
          Nat.mod_le _ _
        omega

/-- The invariant survives the boundary block: the running path is either
emitted as the edge list of a new trip and emptied, or kept. -/
theorem elapsed_inv_of_paths {σ : Type} (B i : Nat) (st st1 : OrchState σ)
    (pe : List PathInfo) (hpe : elapsed_nondecreasing pe)
    (hpb : ∀ e ∈ pe, e.elapsed_time ≤ i * B)
    (ht : ∀ t ∈ st.trippaths, elapsed_nondecreasing t.path_edges)
    (f1 : st1.path_edges = [] ∨ st1.path_edges = pe)
    (f2 : ∀ t ∈ st1.trippaths, t ∈ st.trippaths ∨ t.path_edges = pe) :
    elapsed_inv B (i + 1) st1 := by
  refine ⟨?_, ?_, ?_⟩
  · rcases f1 with f1 | f1
    · rw [f1]; exact trivial
    · rw [f1]; exact hpe
  · intro e he
    simp only [Nat.add_sub_cancel]
    rcases f1 with f1 | f1
    · rw [f1] at he
      exact absurd he (List.not_mem_nil _)
    · rw [f1] at he
      exact hpb e he
  · intro t htm
    rcases f2 t htm with h1 | h1
    · exact ht t h1
    · rw [h1]; exact hpe

theorem elapsed_inv_mono {σ : Type} (B i : Nat) (st : OrchState σ)
    (hinv : elapsed_inv B i st) : elapsed_inv B (i + 1) st := by
  obtain ⟨hs, hb, ht⟩ := hinv
  refine ⟨hs, fun e he => ?_, ht⟩
  have := hb e he
  simp only [Nat.add_sub_cancel]
  have h2 : (i - 1) * B ≤ i * B := Nat.mul_le_mul_right B (by omega)
  omega

theorem depart_elapsed_inv_step {σ : Type} (c : Collab σ) (costing : String)
    (date_time_type : Option Int) (n B : Nat)
    (hsorted : ∀ alg origin destination w,
      elapsed_nondecreasing (c.GetBestPath alg origin destination w).1)
    (hbound : ∀ alg origin destination w,
      ∀ e ∈ (c.GetBestPath alg origin destination w).1, e.elapsed_time ≤ B)
    (pos i : Nat) (st st1 : OrchState σ) (hi : 1 ≤ i) (hfit : i * B < 2 ^ 32)
    (hinv : elapsed_inv B i st)
    (h : path_depart_at.step c costing date_time_type n pos st = Except.ok st1) :
    elapsed_inv B (i + 1) st1 := by
  cases hp : path_depart_at.prepare c date_time_type pos st with
  | none =>
    simp only [path_depart_at.step, hp, Except.ok.injEq] at h
    subst h
    exact elapsed_inv_mono B i st hinv
  | some tp =>
    obtain ⟨o, d, corr⟩ := tp
    rw [depart_step_eq c costing date_time_type n pos st o d corr hp] at h
    split at h
    · exact absurd h (by simp)
    · rename_i hne
      simp only [Except.ok.injEq] at h
      have hrs := get_path_result c elapsed_nondecreasing hsorted
        (get_path_algorithm costing o d) o d st.world
      have hrb := get_path_result c (fun l => ∀ e ∈ l, e.elapsed_time ≤ B) hbound
        (get_path_algorithm costing o d) o d st.world
      generalize (get_path c (get_path_algorithm costing o d) o d st.world) = r at h hne hrs hrb
      obtain ⟨hpe1, hpe2⟩ := leg_added_elapsed B i st.path_edges r.1 hi hfit hinv.1 hinv.2.1
        hne hrs hrb
      obtain ⟨f1, f2⟩ := depart_finish_paths c date_time_type n pos
        (get_path_algorithm costing o d) o d
        { st with
          correlated :=
            path_depart_at.set_break_time date_time_type st.origin_date_time o corr
          world := r.2
          path_edges := if st.path_edges = [] then r.1 else stitch st.path_edges r.1 }
      rw [h] at f1 f2
      exact elapsed_inv_of_paths B i st st1 _ hpe1 hpe2 hinv.2.2 f1 f2

theorem arrive_elapsed_inv_step {σ : Type} (c : Collab σ) (costing : String)
    (n B : Nat)
    (hsorted : ∀ alg origin destination w,
      elapsed_nondecreasing (c.GetBestPath alg origin destination w).1)
    (hbound : ∀ alg origin destination w,
      ∀ e ∈ (c.GetBestPath alg origin destination w).1, e.elapsed_time ≤ B)
    (pos i : Nat) (st st1 : OrchState σ) (hi : 1 ≤ i) (hfit : i * B < 2 ^ 32)
    (hinv : elapsed_inv B i st)
    (h : path_arrive_by.step c costing n pos st = Except.ok st1) :
    elapsed_inv B (i + 1) st1 := by
  cases hp : path_arrive_by.prepare c n pos st with
  | none =>
    simp only [path_arrive_by.step, hp, Except.ok.injEq] at h
    subst h
    exact elapsed_inv_mono B i st hinv
  | some tp =>
    obtain ⟨o, d, corr⟩ := tp
    rw [arrive_step_eq c costing n pos st o d corr hp] at h
    split at h
    · exact absurd h (by simp)
    · rename_i hne
      simp only [Except.ok.injEq] at h
      have hrs := get_path_result c elapsed_nondecreasing hsorted
        (get_path_algorithm costing o d) o d st.world
      have hrb := get_path_result c (fun l => ∀ e ∈ l, e.elapsed_time ≤ B) hbound
        (get_path_algorithm costing o d) o d st.world
      generalize (get_path c (get_path_algorithm costing o d) o d st.world) = r at h hne hrs hrb
      obtain ⟨hpe1, hpe2⟩ := leg_added_elapsed B i st.path_edges r.1 hi hfit hinv.1 hinv.2.1
        hne hrs hrb
      obtain ⟨f1, f2⟩ := arrive_finish_paths c n pos (get_path_algorithm costing o d) o
        { st with
          correlated := corr
          world := r.2
          path_edges := if st.path_edges = [] then r.1 else stitch st.path_edges r.1 }
      rw [h] at f1 f2
      exact elapsed_inv_of_paths B i st st1 _ hpe1 hpe2 hinv.2.2 f1 f2

/-- The invariant along a run of the loop, whatever the positions visited: after
`idxs.length` more legs it holds with the leg counter advanced as much. -/
theorem elapsed_inv_run {σ : Type}
    (body : Nat → OrchState σ → Except valhalla_exception_t (OrchState σ)) (B : Nat)
    (hstep : ∀ pos i st st1, 1 ≤ i → i * B < 2 ^ 32 → elapsed_inv B i st →
      body pos st = Except.ok st1 → elapsed_inv B (i + 1) st1) :
    ∀ (idxs : List Nat) (i : Nat) (st st1 : OrchState σ), 1 ≤ i →
      (i + idxs.length - 1) * B < 2 ^ 32 → elapsed_inv B i st →
      run_loop body idxs st = Except.ok st1 → elapsed_inv B (i + idxs.length) st1 := by
  intro idxs
  induction idxs with
  | nil =>
    intro i st st1 _ _ hinv hrun
    simp only [run_loop, Except.ok.injEq] at hrun
    subst hrun
    exact hinv
  | cons pos rest ih =>
    intro i st st1 hi hfit hinv hrun
    cases hb : body pos st with
    | error e => simp [run_loop, hb] at hrun
    | ok st2 =>
      simp only [run_loop, hb] at hrun
      simp only [List.length_cons] at hfit ⊢
      have hle : i * B ≤ (i + (rest.length + 1) - 1) * B := Nat.mul_le_mul_right B (by omega)
      have hinv2 := hstep pos i st st2 hi (by omega) hinv hb
      have := ih (i + 1) st2 st1 (by omega)
        (by have e : i + 1 + rest.length - 1 = i + (rest.length + 1) - 1 := by omega
            rw [e]; exact hfit) hinv2 hrun
      have e2 : i + 1 + rest.length = i + (rest.length + 1) := by omega
      rwa [e2] at this

/-- C4. Leg merging keeps cumulative elapsed times non-decreasing: if the
running path `P` and the new leg `T` (both non-empty) have non-decreasing
elapsed times and no sum overflows 32 bits, every adjacent pair of the
merged path satisfies `elapsed[i] ≤ elapsed[i+1]`, the pair at the join
included, whether the last entry of `P` was removed or not. Hence, in
`path_depart_at` and in `path_arrive_by`, every edge list handed to the
trip builder is non-decreasing whenever every engine result is, provided
the engine results stay below a bound `B` with `(n - 1) * B < 2 ^ 32`, so
that no sum overflows. -/
theorem elapsed_nondecreasing_kept {σ : Type} (c : Collab σ) (correlated : List PathLocation)
    (costing : String) (date_time_type : Option Int) (s : σ) (B : Nat)
    (P T : List PathInfo) (hP : P ≠ []) (hT : T ≠ [])
    (hPs : elapsed_nondecreasing P) (hTs : elapsed_nondecreasing T)
    (hno : ∀ e ∈ T, e.elapsed_time + (P.getLast hP).elapsed_time < 2 ^ 32) :
    elapsed_nondecreasing (stitch P T) ∧
    ((∀ alg origin destination w,
        elapsed_nondecreasing (c.GetBestPath alg origin destination w).1) →
      (∀ alg origin destination w,
        ∀ e ∈ (c.GetBestPath alg origin destination w).1, e.elapsed_time ≤ B) →
      (correlated.length - 1) * B < 2 ^ 32 →
      (∀ trips, path_depart_at c correlated costing date_time_type s = Except.ok trips →
        ∀ t ∈ trips, elapsed_nondecreasing t.path_edges) ∧
      (∀ trips, path_arrive_by c correlated costing s = Except.ok trips →
        ∀ t ∈ trips, elapsed_nondecreasing t.path_edges)) := by
  refine ⟨stitch_elapsed_nondecreasing P T hP hT hPs hTs hno, ?_⟩
  intro hsorted hbound hfit
  have hinit : elapsed_inv B 1 (OrchState.init correlated s) :=
    ⟨trivial, fun e he => absurd he (List.not_mem_nil _),
      fun t ht => absurd ht (List.not_mem_nil _)⟩
  constructor
  · intro trips hres t ht
    unfold path_depart_at at hres
    cases hr : path_depart_at.run c correlated costing date_time_type s with
    | error e => simp [hr] at hres
    | ok st =>
      simp only [hr, Except.ok.injEq] at hres
      subst hres
      have := elapsed_inv_run (path_depart_at.step c costing date_time_type correlated.length) B
        (fun pos i st st1 hi hf hinv hb =>
          depart_elapsed_inv_step c costing date_time_type correlated.length B hsorted hbound
            pos i st st1 hi hf hinv hb)
        (List.range' 1 (correlated.length - 1)) 1 (OrchState.init correlated s) st (le_refl 1)
        (by simp only [List.length_range']
            have e : 1 + (correlated.length - 1) - 1 = correlated.length - 1 := by omega
            rw [e]; exact hfit) hinit hr
      exact this.2.2 t ht
  · intro trips hres t ht
    unfold path_arrive_by at hres
    cases hr : path_arrive_by.run c correlated costing s with
    | error e => simp [hr] at hres
    | ok st =>
      simp only [hr, Except.ok.injEq] at hres
      subst hres
      have := elapsed_inv_run (path_arrive_by.step c costing correlated.length) B
        (fun pos i st st1 hi hf hinv hb =>
          arrive_elapsed_inv_step c costing correlated.length B hsorted hbound
            pos i st st1 hi hf hinv hb)
        (List.range (correlated.length - 1)).reverse 1 (OrchState.init correlated s) st
        (le_refl 1)
        (by simp only [List.length_reverse, List.length_range]
            have e : 1 + (correlated.length - 1) - 1 = correlated.length - 1 := by omega
            rw [e]; exact hfit) hinit hr
      exact this.2.2 t ht

theorem demo_collab_sorted (alg : PathAlgorithm) (origin destination : PathLocation) (w : Nat) :
    elapsed_nondecreasing (demo_collab.GetBestPath alg origin destination w).1 := by
  simp only [demo_collab]
  split <;> exact trivial

theorem demo_collab_bound (alg : PathAlgorithm) (origin destination : PathLocation) (w : Nat) :
    ∀ e ∈ (demo_collab.GetBestPath alg origin destination w).1, e.elapsed_time ≤ 1 := by
  simp only [demo_collab]
  split <;> simp

/-- C4 on a concrete input: a merge that removes the duplicated edge at the join, and the
two trips of `demo_route`. -/
theorem elapsed_nondecreasing_kept_witness :
    elapsed_nondecreasing
      (stitch [⟨0, 3, ⟨1⟩, 0⟩, ⟨0, 7, ⟨2⟩, 0⟩] [⟨0, 1, ⟨2⟩, 0⟩, ⟨0, 5, ⟨3⟩, 0⟩]) ∧
    ∀ t ∈ [(⟨[⟨0, 1, ⟨2⟩, 0⟩, ⟨0, 2, ⟨3⟩, 0⟩], demo_loc [1] StopType.BREAK,
              demo_loc [3] StopType.BREAK, [demo_loc [2] StopType.THROUGH]⟩ : TripPath),
            ⟨[⟨0, 1, ⟨4⟩, 0⟩], demo_loc [3] StopType.BREAK, demo_loc [4] StopType.BREAK,
              [demo_loc [2] StopType.THROUGH]⟩],
      elapsed_nondecreasing t.path_edges :=
  ⟨(elapsed_nondecreasing_kept demo_collab demo_route "auto" none 0 1
      [⟨0, 3, ⟨1⟩, 0⟩, ⟨0, 7, ⟨2⟩, 0⟩] [⟨0, 1, ⟨2⟩, 0⟩, ⟨0, 5, ⟨3⟩, 0⟩]
      (by decide) (by decide) (by decide) (by decide) (by decide)).1,
    ((elapsed_nondecreasing_kept demo_collab demo_route "auto" none 0 1
      [⟨0, 3, ⟨1⟩, 0⟩, ⟨0, 7, ⟨2⟩, 0⟩] [⟨0, 1, ⟨2⟩, 0⟩, ⟨0, 5, ⟨3⟩, 0⟩]
      (by decide) (by decide) (by decide) (by decide) (by decide)).2
      demo_collab_sorted demo_collab_bound (by decide)).1 _ rfl⟩

/-! ## Theorems: the retry ladder of `get_path` -/

/-- The three shapes of a run of `get_path`: the log and the result after one,
two or three passes. `tr` is the log before the call. -/
theorem get_path_traced_cases {σ : Type} (c : Collab σ) (alg : PathAlgorithm)
    (origin destination : PathLocation) (s : σ) (tr : List Event) :
    get_path (traced c) alg origin destination (s, tr) =
      if (c.GetBestPath alg origin destination s).1 = [] ∧
          c.AllowMultiPass (c.GetBestPath alg origin destination s).2 = true then
        if (c.GetBestPath alg origin destination
              (c.RelaxHierarchyLimits (if alg = PathAlgorithm.astar then 16 else 8)
                (if alg = PathAlgorithm.astar then 4 else 2)
                (c.Clear alg (c.GetBestPath alg origin destination s).2))).1 = [] ∧
            alg = PathAlgorithm.astar then
          ((c.GetBestPath alg origin destination
              (c.DisableHighwayTransitions (c.Clear alg
                (c.GetBestPath alg origin destination
                  (c.RelaxHierarchyLimits 16 4
                    (c.Clear alg (c.GetBestPath alg origin destination s).2))).2))).1,
            (c.GetBestPath alg origin destination
              (c.DisableHighwayTransitions (c.Clear alg
                (c.GetBestPath alg origin destination
                  (c.RelaxHierarchyLimits 16 4
                    (c.Clear alg (c.GetBestPath alg origin destination s).2))).2))).2,
            tr ++ [Event.GetBestPath alg, Event.Clear alg, Event.RelaxHierarchyLimits 16 4,
              Event.GetBestPath alg, Event.Clear alg, Event.DisableHighwayTransitions,
              Event.GetBestPath alg])
        else
          ((c.GetBestPath alg origin destination
              (c.RelaxHierarchyLimits (if alg = PathAlgorithm.astar then 16 else 8)
                (if alg = PathAlgorithm.astar then 4 else 2)
                (c.Clear alg (c.GetBestPath alg origin destination s).2))).1,
            (c.GetBestPath alg origin destination
              (c.RelaxHierarchyLimits (if alg = PathAlgorithm.astar then 16 else 8)
                (if alg = PathAlgorithm.astar then 4 else 2)
                (c.Clear alg (c.GetBestPath alg origin destination s).2))).2,
            tr ++ [Event.GetBestPath alg, Event.Clear alg,
              Event.RelaxHierarchyLimits (if alg = PathAlgorithm.astar then 16 else 8)
                (if alg = PathAlgorithm.astar then 4 else 2),
              Event.GetBestPath alg])
      else
        ((c.GetBestPath alg origin destination s).1,
          (c.GetBestPath alg origin destination s).2, tr ++ [Event.GetBestPath alg]) := by
  unfold get_path
  by_cases h1 : (c.GetBestPath alg origin destination s).1 = []
  · by_cases h2 : c.AllowMultiPass (c.GetBestPath alg origin destination s).2 = true
    · by_cases h4 : alg = PathAlgorithm.astar
      · subst h4
        by_cases h3 : (c.GetBestPath PathAlgorithm.astar origin destination
            (c.RelaxHierarchyLimits 16 4
              (c.Clear PathAlgorithm.astar
                (c.GetBestPath PathAlgorithm.astar origin destination s).2))).1 = []
        · simp [traced, h1, h2, h3]
        · simp [traced, h1, h2, h3]
      · simp [traced, h1, h2, h4]
    · simp [traced, h1, h2]
  · simp [traced, h1]

theorem get_path_plain_cases {σ : Type} (c : Collab σ) (alg : PathAlgorithm)
    (origin destination : PathLocation) (s : σ) :
    get_path c alg origin destination s =
      if (ladder_pass1 c alg origin destination s).1 = [] ∧
          c.AllowMultiPass (ladder_pass1 c alg origin destination s).2 = true then
        if (ladder_pass2 c alg origin destination s).1 = [] ∧ alg = PathAlgorithm.astar then
          ladder_pass3 c alg origin destination s
        else ladder_pass2 c alg origin destination s
      else ladder_pass1 c alg origin destination s := by
  unfold get_path ladder_pass3 ladder_pass2 ladder_pass1
  by_cases h1 : (c.GetBestPath alg origin destination s).1 = []
  · by_cases h2 : c.AllowMultiPass (c.GetBestPath alg origin destination s).2 = true
    · by_cases h4 : alg = PathAlgorithm.astar
      · subst h4
        by_cases h3 : (c.GetBestPath PathAlgorithm.astar origin destination
            (c.RelaxHierarchyLimits 16 4
              (c.Clear PathAlgorithm.astar
                (c.GetBestPath PathAlgorithm.astar origin destination s).2))).1 = []
        · simp [h1, h2, h3]
        · simp [h1, h2, h3]
      · simp [h1, h2, h4]
    · simp [h1, h2]
  · simp [h1]

theorem get_path_events_cases {σ : Type} (c : Collab σ) (alg : PathAlgorithm)
    (origin destination : PathLocation) (s : σ) :
    get_path_events c alg origin destination s =
      if (ladder_pass1 c alg origin destination s).1 = [] ∧
          c.AllowMultiPass (ladder_pass1 c alg origin destination s).2 = true then
        if (ladder_pass2 c alg origin destination s).1 = [] ∧ alg = PathAlgorithm.astar then
          [Event.GetBestPath alg, Event.Clear alg, Event.RelaxHierarchyLimits 16 4,
            Event.GetBestPath alg, Event.Clear alg, Event.DisableHighwayTransitions,
            Event.GetBestPath alg]
        else
          [Event.GetBestPath alg, Event.Clear alg,
            Event.RelaxHierarchyLimits (if alg = PathAlgorithm.astar then 16 else 8)
              (if alg = PathAlgorithm.astar then 4 else 2),
            Event.GetBestPath alg]
      else [Event.GetBestPath alg] := by
  unfold get_path_events
  rw [get_path_traced_cases]
  unfold ladder_pass2 ladder_pass1
  by_cases h1 : (c.GetBestPath alg origin destination s).1 = [] ∧
      c.AllowMultiPass (c.GetBestPath alg origin destination s).2 = true
  · by_cases h2 : (c.GetBestPath alg origin destination
        (c.RelaxHierarchyLimits (if alg = PathAlgorithm.astar then 16 else 8)
          (if alg = PathAlgorithm.astar then 4 else 2)
          (c.Clear alg (c.GetBestPath alg origin destination s).2))).1 = [] ∧
        alg = PathAlgorithm.astar
    · rw [if_pos h1, if_pos h2, if_pos h1, if_pos h2]
      simp
    · rw [if_pos h1, if_neg h2, if_pos h1, if_neg h2]
      simp
  · rw [if_neg h1, if_neg h1]
    simp

/-- C13. Retry ladder of `get_path`, number of passes. The engine is invoked
exactly once when the first result is non-empty or the cost model's
`AllowMultiPass` is false (the log then holds that single invocation: no
`Clear`, no change to the cost model, and the first result, empty or not,
is returned); otherwise exactly twice, unless the engine is the forward A*
engine and the second result is empty too, in which case exactly three
times, `DisableHighwayTransitions` being applied before the third. An
engine other than forward A* is never invoked a third time and never
disables highway transitions. The returned list (and state) is the result
of the last invocation. -/
theorem get_path_passes {σ : Type} (c : Collab σ) (alg : PathAlgorithm)
    (origin destination : PathLocation) (s : σ) :
    get_path c alg origin destination s =
      (if (ladder_pass1 c alg origin destination s).1 = [] ∧
          c.AllowMultiPass (ladder_pass1 c alg origin destination s).2 = true then
        if (ladder_pass2 c alg origin destination s).1 = [] ∧ alg = PathAlgorithm.astar then
          ladder_pass3 c alg origin destination s
        else ladder_pass2 c alg origin destination s
      else ladder_pass1 c alg origin destination s) ∧
    get_path_events c alg origin destination s =
      (if (ladder_pass1 c alg origin destination s).1 = [] ∧
          c.AllowMultiPass (ladder_pass1 c alg origin destination s).2 = true then
        if (ladder_pass2 c alg origin destination s).1 = [] ∧ alg = PathAlgorithm.astar then
          [Event.GetBestPath alg, Event.Clear alg, Event.RelaxHierarchyLimits 16 4,
            Event.GetBestPath alg, Event.Clear alg, Event.DisableHighwayTransitions,
            Event.GetBestPath alg]
        else
          [Event.GetBestPath alg, Event.Clear alg,
            Event.RelaxHierarchyLimits (if alg = PathAlgorithm.astar then 16 else 8)
              (if alg = PathAlgorithm.astar then 4 else 2),
            Event.GetBestPath alg]
      else [Event.GetBestPath alg]) ∧
    invocations (get_path_events c alg origin destination s) =
      (if (ladder_pass1 c alg origin destination s).1 = [] ∧
          c.AllowMultiPass (ladder_pass1 c alg origin destination s).2 = true then
        if (ladder_pass2 c alg origin destination s).1 = [] ∧ alg = PathAlgorithm.astar then 3
        else 2
      else 1) ∧
    (alg ≠ PathAlgorithm.astar →
      invocations (get_path_events c alg origin destination s) ≤ 2 ∧
        Event.DisableHighwayTransitions ∉ get_path_events c alg origin destination s) := by
  have hev := get_path_events_cases c alg origin destination s
  refine ⟨get_path_plain_cases c alg origin destination s, hev, ?_, ?_⟩
  · rw [hev]
    split
    · split
      · simp [invocations]
      · simp [invocations]
    · simp [invocations]
  · intro hne
    rw [hev]
    split
    · rw [if_neg (fun h => hne h.2)]
      simp [invocations]
    · simp [invocations]

/-- C13 on a concrete input: the bidirectional engine finds nothing on the first
pass and a path on the second; it is invoked twice and never disables
highway transitions. -/
theorem get_path_passes_witness :
    PathAlgorithm.bidir_astar ≠ PathAlgorithm.astar ∧
      invocations (get_path_events demo_retry_collab PathAlgorithm.bidir_astar
        (demo_loc [1] StopType.BREAK) (demo_loc [2] StopType.BREAK) 0) ≤ 2 ∧
      Event.DisableHighwayTransitions ∉
        get_path_events demo_retry_collab PathAlgorithm.bidir_astar
          (demo_loc [1] StopType.BREAK) (demo_loc [2] StopType.BREAK) 0 :=
  ⟨by decide,
    (get_path_passes demo_retry_collab PathAlgorithm.bidir_astar
      (demo_loc [1] StopType.BREAK) (demo_loc [2] StopType.BREAK) 0).2.2.2 (by decide)⟩

/-- C14. Relaxation in `get_path`: `RelaxHierarchyLimits` is applied to the cost
model if and only if the first engine result is empty and `AllowMultiPass`
is true; it is then applied exactly once, right after the engine is cleared
and right before the second invocation, with arguments `(16, 4)` when the
engine is the forward A* engine and `(8, 2)` for every other engine. -/
theorem relax_applied_once {σ : Type} (c : Collab σ) (alg : PathAlgorithm)
    (origin destination : PathLocation) (s : σ) :
    relaxations (get_path_events c alg origin destination s) =
      (if (ladder_pass1 c alg origin destination s).1 = [] ∧
          c.AllowMultiPass (ladder_pass1 c alg origin destination s).2 = true then
        [Event.RelaxHierarchyLimits (if alg = PathAlgorithm.astar then 16 else 8)
          (if alg = PathAlgorithm.astar then 4 else 2)]
      else []) ∧
    ((∃ a b, Event.RelaxHierarchyLimits a b ∈ get_path_events c alg origin destination s) ↔
      ((ladder_pass1 c alg origin destination s).1 = [] ∧
        c.AllowMultiPass (ladder_pass1 c alg origin destination s).2 = true)) ∧
    (((ladder_pass1 c alg origin destination s).1 = [] ∧
        c.AllowMultiPass (ladder_pass1 c alg origin destination s).2 = true) →
      (get_path_events c alg origin destination s).take 4 =
        [Event.GetBestPath alg, Event.Clear alg,
          Event.RelaxHierarchyLimits (if alg = PathAlgorithm.astar then 16 else 8)
            (if alg = PathAlgorithm.astar then 4 else 2),
          Event.GetBestPath alg]) := by
  have hev := get_path_events_cases c alg origin destination s
  by_cases h1 : (ladder_pass1 c alg origin destination s).1 = [] ∧
      c.AllowMultiPass (ladder_pass1 c alg origin destination s).2 = true
  · by_cases h2 : (ladder_pass2 c alg origin destination s).1 = [] ∧ alg = PathAlgorithm.astar
    · rw [if_pos h1, if_pos h2] at hev
      rw [hev, if_pos h1]
      have ha := h2.2
      subst ha
      refine ⟨by simp [relaxations], ⟨fun _ => h1, fun _ => ⟨16, 4, by simp⟩⟩, fun _ => by simp⟩
    · rw [if_pos h1, if_neg h2] at hev
      rw [hev, if_pos h1]
      refine ⟨by simp [relaxations], ⟨fun _ => h1, fun _ =>
        ⟨if alg = PathAlgorithm.astar then 16 else 8,
          if alg = PathAlgorithm.astar then 4 else 2, by simp⟩⟩, fun _ => by simp⟩
  · rw [if_neg h1] at hev
    rw [hev, if_neg h1]
    refine ⟨by simp [relaxations], ⟨fun h => ?_, fun h => absurd h h1⟩, fun h => absurd h h1⟩
    obtain ⟨a, b, hab⟩ := h
    simp at hab

/-- C14 on a concrete input: the forward A* engine finds nothing on the first
pass; the limits are relaxed once with `(16, 4)` between the `Clear` and the
second invocation. -/
theorem relax_applied_once_witness :
    ((ladder_pass1 demo_retry_collab PathAlgorithm.astar (demo_loc [1] StopType.BREAK)
        (demo_loc [1] StopType.BREAK) 0).1 = [] ∧
      demo_retry_collab.AllowMultiPass
        (ladder_pass1 demo_retry_collab PathAlgorithm.astar (demo_loc [1] StopType.BREAK)
          (demo_loc [1] StopType.BREAK) 0).2 = true) ∧
    (get_path_events demo_retry_collab PathAlgorithm.astar (demo_loc [1] StopType.BREAK)
        (demo_loc [1] StopType.BREAK) 0).take 4 =
      [Event.GetBestPath PathAlgorithm.astar, Event.Clear PathAlgorithm.astar,
        Event.RelaxHierarchyLimits 16 4, Event.GetBestPath PathAlgorithm.astar] :=
  ⟨⟨rfl, rfl⟩,
    (relax_applied_once demo_retry_collab PathAlgorithm.astar (demo_loc [1] StopType.BREAK)
      (demo_loc [1] StopType.BREAK) 0).2.2 ⟨rfl, rfl⟩⟩

/-! ## Theorems: travel order, through locations at a node, the location vector -/

/-- C11 (evaluation of the code). On `demo_through_route`, a break, a through
location and a break, the engine answers with edges 1, 2 for the leg from
location 0 to location 1 and with edges 2, 3 for the leg from location 1 to
location 2. `path_depart_at` hands the trip builder the edges in travel
order, 1, 2, 3. `path_arrive_by` computes the later leg first and appends
the earlier leg behind it: the trip builder receives the edges 2, 3, 1, 2,
the edges of the second leg before those of the first. -/
theorem arrive_by_edges_out_of_travel_order :
    path_depart_at demo_log_collab demo_through_route "auto" none [] =
      Except.ok
        [⟨[⟨0, 1, ⟨1⟩, 0⟩, ⟨0, 3, ⟨2⟩, 0⟩, ⟨0, 4, ⟨3⟩, 0⟩], demo_loc [1] StopType.BREAK,
            demo_loc [3] StopType.BREAK, [demo_loc [2] StopType.THROUGH]⟩] ∧
    path_arrive_by demo_log_collab demo_through_route "auto" [] =
      Except.ok
        [⟨[⟨0, 1, ⟨2⟩, 0⟩, ⟨0, 2, ⟨3⟩, 0⟩, ⟨0, 3, ⟨1⟩, 0⟩, ⟨0, 4, ⟨2⟩, 0⟩],
            demo_loc [1] StopType.BREAK, demo_loc [3] StopType.BREAK,
            [demo_loc [2] StopType.THROUGH]⟩] :=
  ⟨rfl, rfl⟩

/-- C12 (evaluation of the code). On `demo_node_route` the first leg ends on
edge 2 and the through location has a candidate on edge 2 flagged end-node:
the through point is at a node. `path_depart_at` looks for the last edge
among the candidates of the origin of the leg (location 0), finds none and
records `prior_is_node = false`; `update_origin` then rewrites the
candidates of the through location, and the engine receives the candidate
list `[3, 3]` for the origin of the second leg instead of the original
`[2, 3]`. One trip is emitted. -/
theorem through_at_node_not_recognised :
    ∃ st, path_depart_at.run demo_log_collab demo_node_route "auto" none [] = Except.ok st ∧
      st.prior_is_node = false ∧
      st.world =
        [(demo_loc [1] StopType.BREAK, demo_node_loc),
          ({ demo_node_loc with edges := [⟨⟨3⟩, 0, true, false⟩, ⟨⟨3⟩, 0, true, false⟩] },
            demo_loc [4] StopType.BREAK)] ∧
      st.trippaths.length = 1 :=
  ⟨_, rfl, rfl, rfl, rfl⟩

theorem run_loop_inv {σ : Type}
    (body : Nat → OrchState σ → Except valhalla_exception_t (OrchState σ))
    (I : OrchState σ → Prop)
    (hstep : ∀ i st st1, I st → body i st = Except.ok st1 → I st1) :
    ∀ (idxs : List Nat) (st st1 : OrchState σ), I st →
      run_loop body idxs st = Except.ok st1 → I st1 := by
  intro idxs
  induction idxs with
  | nil =>
    intro st st1 hI hrun
    simp only [run_loop, Except.ok.injEq] at hrun
    subst hrun
    exact hI
  | cons i rest ih =>
    intro st st1 hI hrun
    cases hb : body i st with
    | error e => simp [run_loop, hb] at hrun
    | ok st2 =>
      simp only [run_loop, hb] at hrun
      exact ih st2 st1 (hstep i st st2 hI hb) hrun

/-- A successful iteration of `path_depart_at` keeps the length of the location
vector and all its entries but the first. -/
theorem depart_step_frame {σ : Type} (c : Collab σ) (costing : String)
    (date_time_type : Option Int) (n i : Nat) (st st1 : OrchState σ)
    (h : path_depart_at.step c costing date_time_type n i st = Except.ok st1) :
    st1.correlated.length = st.correlated.length ∧
      st1.correlated.drop 1 = st.correlated.drop 1 := by
  cases hp : path_depart_at.prepare c date_time_type i st with
  | none =>
    simp only [path_depart_at.step, hp, Except.ok.injEq] at h
    subst h
    exact ⟨rfl, rfl⟩
  | some tp =>
    obtain ⟨o, d, corr⟩ := tp
    obtain ⟨hd, _, _⟩ := depart_prepare_facts c date_time_type i st o d corr hp
    obtain ⟨f1, f2, _⟩ := depart_step_facts c costing date_time_type n i st st1 d hd h
    exact ⟨f1, f2⟩

/-- A successful iteration of `path_arrive_by` keeps the length of the location
vector and all its entries but the last. -/
theorem arrive_step_frame {σ : Type} (c : Collab σ) (costing : String)
    (n i : Nat) (st st1 : OrchState σ)
    (h : path_arrive_by.step c costing n i st = Except.ok st1) :
    st1.correlated.length = st.correlated.length ∧
      st1.correlated.take (n - 1) = st.correlated.take (n - 1) := by
  cases hp : path_arrive_by.prepare c n i st with
  | none =>
    simp only [path_arrive_by.step, hp, Except.ok.injEq] at h
    subst h
    exact ⟨rfl, rfl⟩
  | some tp =>
    obtain ⟨o, d, corr⟩ := tp
    obtain ⟨_, hlen, htake⟩ := arrive_prepare_facts c n i st o d corr hp
    rw [arrive_step_eq c costing n i st o d corr hp] at h
    split at h
    · exact absurd h (by simp)
    · simp only [Except.ok.injEq] at h
      subst h
      obtain ⟨f1, f2, _⟩ := arrive_finish_facts c n i (get_path_algorithm costing o d) o
        { st with
          correlated := corr
          world := (get_path c (get_path_algorithm costing o d) o d st.world).2
          path_edges :=
            if st.path_edges = [] then
              (get_path c (get_path_algorithm costing o d) o d st.world).1
            else
              stitch st.path_edges
                (get_path c (get_path_algorithm costing o d) o d st.world).1 }
      exact ⟨f1.trans hlen, f2.trans htake⟩

/-- C19 (the claim fails as stated). On three breaks `path_depart_at` returns
with the first entry of the location vector overwritten by a copy of the
second location (the write `last_break_origin = origin` goes through a
reference to `correlated[0]`), and `path_arrive_by` returns with the last
entry overwritten by a copy of the second location. -/
theorem correlated_entry_overwritten :
    (∃ st, path_depart_at.run demo_log_collab demo_three_breaks "auto" none [] = Except.ok st ∧
      st.correlated =
        [demo_loc [2] StopType.BREAK, demo_loc [2] StopType.BREAK, demo_loc [3] StopType.BREAK] ∧
      st.correlated ≠ demo_three_breaks) ∧
    (∃ st, path_arrive_by.run demo_log_collab demo_three_breaks "auto" [] = Except.ok st ∧
      st.correlated =
        [demo_loc [1] StopType.BREAK, demo_loc [2] StopType.BREAK, demo_loc [2] StopType.BREAK] ∧
      st.correlated ≠ demo_three_breaks) :=
  ⟨⟨_, rfl, rfl, by decide⟩, ⟨_, rfl, rfl, by decide⟩⟩

/-- C19 (amended). `path_depart_at` changes at most the first entry of the
location vector it is given, and `path_arrive_by` at most the last one: the
vector keeps its length, every entry at an index from 1 on (resp. below
`n - 1`) keeps its candidates, stop type and date-time. This holds of the
vector when the orchestrator returns, and of the vector at every earlier
point of the loop, the iteration that throws included (`corr` is the vector
as that iteration leaves it before calling the engine). -/
theorem correlated_frame {σ : Type} (c : Collab σ) (correlated : List PathLocation)
    (costing : String) (date_time_type : Option Int) (s : σ) :
    (∀ st, path_depart_at.run c correlated costing date_time_type s = Except.ok st →
      st.correlated.length = correlated.length ∧
        st.correlated.drop 1 = correlated.drop 1) ∧
    (∀ st, path_arrive_by.run c correlated costing s = Except.ok st →
      st.correlated.length = correlated.length ∧
        st.correlated.take (correlated.length - 1) =
          correlated.take (correlated.length - 1)) ∧
    (∀ k st, run_loop (path_depart_at.step c costing date_time_type correlated.length)
        ((List.range' 1 (correlated.length - 1)).take k) (OrchState.init correlated s) =
          Except.ok st →
      (st.correlated.length = correlated.length ∧
        st.correlated.drop 1 = correlated.drop 1) ∧
      ∀ i origin destination corr,
        path_depart_at.prepare c date_time_type i st = some (origin, destination, corr) →
        corr.length = correlated.length ∧ corr.drop 1 = correlated.drop 1) ∧
    (∀ k st, run_loop (path_arrive_by.step c costing correlated.length)
        ((List.range (correlated.length - 1)).reverse.take k) (OrchState.init correlated s) =
          Except.ok st →
      (st.correlated.length = correlated.length ∧
        st.correlated.take (correlated.length - 1) =
          correlated.take (correlated.length - 1)) ∧
      ∀ i origin destination corr,
        path_arrive_by.prepare c correlated.length i st = some (origin, destination, corr) →
        corr.length = correlated.length ∧
          corr.take (correlated.length - 1) = correlated.take (correlated.length - 1)) := by
  have hd : ∀ idxs st,
      run_loop (path_depart_at.step c costing date_time_type correlated.length) idxs
        (OrchState.init correlated s) = Except.ok st →
      st.correlated.length = correlated.length ∧ st.correlated.drop 1 = correlated.drop 1 := by
    intro idxs st hrun
    exact run_loop_inv _
      (fun st => st.correlated.length = correlated.length ∧
        st.correlated.drop 1 = correlated.drop 1)
      (fun i st st1 hI hb => by
        obtain ⟨f1, f2⟩ := depart_step_frame c costing date_time_type _ i st st1 hb
        exact ⟨f1.trans hI.1, f2.trans hI.2⟩)
      idxs _ st ⟨rfl, rfl⟩ hrun
  have ha : ∀ idxs st,
      run_loop (path_arrive_by.step c costing correlated.length) idxs
        (OrchState.init correlated s) = Except.ok st →
      st.correlated.length = correlated.length ∧
        st.correlated.take (correlated.length - 1) =
          correlated.take (correlated.length - 1) := by
    intro idxs st hrun
    exact run_loop_inv _
      (fun st => st.correlated.length = correlated.length ∧
        st.correlated.take (correlated.length - 1) =
          correlated.take (correlated.length - 1))
      (fun i st st1 hI hb => by
        obtain ⟨f1, f2⟩ := arrive_step_frame c costing _ i st st1 hb
        exact ⟨f1.trans hI.1, f2.trans hI.2⟩)
      idxs _ st ⟨rfl, rfl⟩ hrun
  refine ⟨fun st h => hd _ st h, fun st h => ha _ st h, fun k st h => ⟨hd _ st h, ?_⟩,
    fun k st h => ⟨ha _ st h, ?_⟩⟩
  · intro i o d corr hp
    obtain ⟨_, h1, h2⟩ := depart_prepare_facts c date_time_type i st o d corr hp
    exact ⟨h1.trans (hd _ st h).1, h2.trans (hd _ st h).2⟩
  · intro i o d corr hp
    obtain ⟨_, h1, h2⟩ := arrive_prepare_facts c _ i st o d corr hp
    exact ⟨h1.trans (ha _ st h).1, h2.trans (ha _ st h).2⟩

/-- C19 (amended) on a concrete input: on three breaks the entries at index 1
and 2 are the same after `path_depart_at` as before. -/
theorem correlated_frame_witness :
    ∃ st, path_depart_at.run demo_log_collab demo_three_breaks "auto" none [] = Except.ok st ∧
      st.correlated.length = demo_three_breaks.length ∧
      st.correlated.drop 1 = demo_three_breaks.drop 1 :=
  ⟨_, rfl, (correlated_frame demo_log_collab demo_three_breaks "auto" none []).1 _ rfl⟩

/-! ## Theorems: `RouteMatcher::FormPath` -/

theorem find_begin_edge_loop_eq (l : List PathEdge) :
    find_begin_edge.loop l = l.find? (fun e => !e.end_node) := by
  induction l with
  | nil => rfl
  | cons a rest ih =>
    cases h : a.end_node <;> simp [find_begin_edge.loop, List.find?, h, ih]

theorem find_end_edge_loop_eq (l : List PathEdge) :
    find_end_edge.loop l = l.find? (fun e => !e.begin_node) := by
  induction l with
  | nil => rfl
  | cons a rest ih =>
    cases h : a.begin_node <;> simp [find_end_edge.loop, List.find?, h, ih]

/-- When the begin edge is missing or invalid, `FormPath` throws before it
looks at anything else. -/
theorem FormPath_invalid_begin (env : WalkEnv) (mode : Nat) (shape : List PointLL)
    (correlated : List PathLocation) (path_infos : List PathInfo)
    (h : find_begin_edge correlated = none ∨
      ∃ b, find_begin_edge correlated = some b ∧ b.id.Is_Valid = false) :
    FormPath env mode shape correlated path_infos =
      (Except.error (WalkError.runtime_error "Invalid begin edge id"), path_infos) := by
  unfold FormPath
  rcases h with h | ⟨b, h, hv⟩
  · rw [h]
  · rw [h]
    simp [hv]

/-- When the end edge is missing or invalid, `FormPath` throws: on the end edge,
unless the begin edge already made it throw. -/
theorem FormPath_invalid_end (env : WalkEnv) (mode : Nat) (shape : List PointLL)
    (correlated : List PathLocation) (path_infos : List PathInfo)
    (h : find_end_edge correlated = none ∨
      ∃ e, find_end_edge correlated = some e ∧ e.id.Is_Valid = false) :
    ∃ what, FormPath env mode shape correlated path_infos =
      (Except.error (WalkError.runtime_error what), path_infos) := by
  unfold FormPath
  cases hb : find_begin_edge correlated with
  | none => exact ⟨_, rfl⟩
  | some b =>
    by_cases hbv : b.id.Is_Valid = false
    · simp only [hbv, if_true]
      exact ⟨_, rfl⟩
    · simp only [hbv, if_false]
      cases hbt : env.GetGraphTile b.id with
      | none => exact ⟨_, rfl⟩
      | some bt =>
        rcases h with h | ⟨e, h, hv⟩
        · simp only [h]
          exact ⟨_, rfl⟩
        · simp only [h, hv, if_true]
          exact ⟨_, rfl⟩

/-- C17. Pre-walk validation of `RouteMatcher::FormPath`: the begin edge is the
first candidate of the first location that is not flagged end-node, the end
edge the first candidate of the last location that is not flagged
begin-node. If either location has no such candidate, or the selected
candidate's edge id is invalid, `FormPath` ends with a
`std::runtime_error`: it does not return (neither true nor false), the
error is not `valhalla_exception_t{400, 442}`, and the output vector is as
it was at the call, no `PathInfo` added. -/
theorem FormPath_prewalk_validation (env : WalkEnv) (mode : Nat) (shape : List PointLL)
    (correlated : List PathLocation) (path_infos : List PathInfo)
    (front back : PathLocation) (hfront : correlated.head? = some front)
    (hback : correlated.getLast? = some back) :
    find_begin_edge correlated = front.edges.find? (fun e => !e.end_node) ∧
    find_end_edge correlated = back.edges.find? (fun e => !e.begin_node) ∧
    ((find_begin_edge correlated = none ∨ find_end_edge correlated = none ∨
        (∃ b, find_begin_edge correlated = some b ∧ b.id.Is_Valid = false) ∨
        (∃ e, find_end_edge correlated = some e ∧ e.id.Is_Valid = false)) →
      ∃ what, FormPath env mode shape correlated path_infos =
        (Except.error (WalkError.runtime_error what), path_infos)) := by
  refine ⟨?_, ?_, ?_⟩
  · simp [find_begin_edge, hfront, find_begin_edge_loop_eq]
  · simp [find_end_edge, hback, find_end_edge_loop_eq]
  · rintro (h | h | h | h)
    · exact ⟨_, FormPath_invalid_begin env mode shape correlated path_infos (Or.inl h)⟩
    · exact FormPath_invalid_end env mode shape correlated path_infos (Or.inl h)
    · exact ⟨_, FormPath_invalid_begin env mode shape correlated path_infos (Or.inr h)⟩
    · exact FormPath_invalid_end env mode shape correlated path_infos (Or.inr h)

/-- C17 on a concrete input: the only candidate of the first location is
flagged end-node, no begin edge is selected and `FormPath` throws. -/
theorem FormPath_prewalk_validation_witness :
    find_begin_edge demo_no_begin_locations = none ∧
      ∃ what, FormPath demo_walk_env 0 demo_shape demo_no_begin_locations [] =
        (Except.error (WalkError.runtime_error what), []) :=
  ⟨rfl,
    (FormPath_prewalk_validation demo_walk_env 0 demo_shape demo_no_begin_locations [] _ _
      rfl rfl).2.2 (Or.inl rfl)⟩

/-- C15 (the claim fails as stated). The selected begin and end candidates carry
the same edge id and `FormPath` does not do what the claim says. On
`demo_invalid_locations` the common id is the invalid id and the run ends
with the runtime error of the begin-edge check; on
`demo_same_edge_locations` with no tile loaded it ends with the runtime
error of the begin-tile check; no `PathInfo` is added in either run. On
`demo_reversed_locations` (edge 3, which costs 10 s, from three quarters to
a quarter of the edge) `FormPath` returns true with one `PathInfo`, but
`edge_cost × (end.dist − begin.dist)` is `-5` and the elapsed time emitted
is the unsigned 32-bit value `4294967291`. -/
theorem FormPath_single_edge_fails :
    (∃ b e, find_begin_edge demo_invalid_locations = some b ∧
      find_end_edge demo_invalid_locations = some e ∧ b.id = e.id ∧
      FormPath demo_walk_env 0 demo_shape demo_invalid_locations [] =
        (Except.error (WalkError.runtime_error "Invalid begin edge id"), [])) ∧
    (∃ b e, find_begin_edge demo_same_edge_locations = some b ∧
      find_end_edge demo_same_edge_locations = some e ∧ b.id = e.id ∧
      FormPath demo_no_tile_env 0 demo_shape demo_same_edge_locations [] =
        (Except.error (WalkError.runtime_error "Begin tile is null"), [])) ∧
    (∃ b e, find_begin_edge demo_reversed_locations = some b ∧
      find_end_edge demo_reversed_locations = some e ∧ b.id = e.id ∧
      demo_walk_env.EdgeCost 0 (demo_tile.directededge b.id) * (e.dist - b.dist) = -5 ∧
      FormPath demo_walk_env 0 demo_shape demo_reversed_locations [] =
        (Except.ok true, [⟨0, 4294967291, ⟨3⟩, 0⟩])) :=
  ⟨⟨_, _, rfl, rfl, rfl, by decide!⟩, ⟨_, _, rfl, rfl, rfl, by decide!⟩,
    ⟨_, _, rfl, rfl, rfl, by decide!, by decide!⟩⟩

/-- The single-edge short-circuit for any floating-point operations: `FormPath` returns
true and appends one `PathInfo` with the edge id and the elapsed time as the source
computes it, whatever the shape. -/
theorem FormPath_single_edge_any_float (env : WalkEnv) (mode : Nat) (shape : List PointLL)
    (correlated : List PathLocation) (path_infos : List PathInfo)
    (b e : PathEdge) (tile end_node_tile : GraphTile)
    (hb : find_begin_edge correlated = some b) (he : find_end_edge correlated = some e)
    (heq : b.id = e.id) (hv : b.id.Is_Valid = true)
    (htile : env.GetGraphTile b.id = some tile)
    (hend : env.GetGraphTile (tile.directededge b.id).endnode = some end_node_tile) :
    FormPath env mode shape correlated path_infos =
      (Except.ok true,
        path_infos ++
          [⟨mode,
            env.F.to_uint32 (env.F.round
              (env.F.mul (env.EdgeCost mode (tile.directededge b.id))
                (env.F.sub e.dist b.dist))),
            b.id, 0⟩]) ∧
    FormPath env mode shape correlated path_infos =
      FormPath env mode [] correlated path_infos := by
  have hev : e.id.Is_Valid = true := heq ▸ hv
  have hetile : env.GetGraphTile e.id = some tile := heq ▸ htile
  have hend2 : env.GetGraphTile (tile.directededge e.id).endnode = some end_node_tile :=
    heq ▸ hend
  have key : ∀ sh, FormPath env mode sh correlated path_infos =
      (Except.ok true,
        path_infos ++
          [⟨mode,
            env.F.to_uint32 (env.F.round
              (env.F.mul (env.EdgeCost mode (tile.directededge b.id))
                (env.F.sub e.dist b.dist))),
            b.id, 0⟩]) := by
    intro sh
    unfold FormPath
    simp only [hb, he, hv, hev, htile, hetile, find_start_node, hend2, heq, env.F.zero_add,
      Bool.true_eq_false, if_false, if_true]
  exact ⟨key shape, (key shape).trans (key []).symm⟩

/-- On a value that is not negative, `std::round` in exact arithmetic is the nearest
integer. -/
theorem exact_float_round_of_nonneg (x : ℚ) (hx : 0 ≤ x) :
    exact_float.round x = ((round x : ℤ) : ℚ) := by
  simp only [exact_float, if_pos hx]
  rw [round_eq, Rat.divInt_eq_div]
  norm_num

/-- The conversion to `uint32_t` of an integer that is not negative keeps its low 32 bits. -/
theorem exact_float_to_uint32_intCast (z : ℤ) (hz : 0 ≤ z) :
    exact_float.to_uint32 (z : ℚ) = Int.toNat (z % 2 ^ 32) := by
  have h : (0 : ℚ) ≤ (z : ℚ) := by exact_mod_cast hz
  simp only [exact_float, if_pos h, Int.floor_intCast]

theorem round_nonneg_of_nonneg (x : ℚ) (hx : 0 ≤ x) : 0 ≤ round x := by
  rw [round_eq]
  apply Int.floor_nonneg.2
  positivity

/-- C15 (amended). Single-edge short-circuit of `RouteMatcher::FormPath`: when
the selected begin and end candidates carry the same valid edge id, the
graph tiles of that edge and of its end node are available, and
`edge_cost(edge).secs × (end.dist − begin.dist)` is not negative, `FormPath`
returns true and appends exactly one `PathInfo` to the output, carrying
that edge id and, the arithmetic being exact, an elapsed time equal to
`edge_cost(edge).secs × (end.dist − begin.dist)` rounded to the nearest
second (within half a second of it), kept in 32 bits: it is that rounded
value whenever the value is below `2 ^ 32`. The result is the same for
every shape, the empty one included. -/
theorem FormPath_single_edge (env : WalkEnv) (mode : Nat) (shape : List PointLL)
    (correlated : List PathLocation) (path_infos : List PathInfo)
    (b e : PathEdge) (tile end_node_tile : GraphTile)
    (hb : find_begin_edge correlated = some b) (he : find_end_edge correlated = some e)
    (heq : b.id = e.id) (hv : b.id.Is_Valid = true)
    (htile : env.GetGraphTile b.id = some tile)
    (hend : env.GetGraphTile (tile.directededge b.id).endnode = some end_node_tile)
    (hF : env.F = exact_float)
    (hnonneg : 0 ≤ env.EdgeCost mode (tile.directededge b.id) * (e.dist - b.dist)) :
    FormPath env mode shape correlated path_infos =
      (Except.ok true,
        path_infos ++
          [⟨mode,
            Int.toNat
              (round (env.EdgeCost mode (tile.directededge b.id) * (e.dist - b.dist)) %
                2 ^ 32),
            b.id, 0⟩]) ∧
    (round (env.EdgeCost mode (tile.directededge b.id) * (e.dist - b.dist)) < 2 ^ 32 →
      ((Int.toNat
          (round (env.EdgeCost mode (tile.directededge b.id) * (e.dist - b.dist)) %
            2 ^ 32) : Nat) : ℤ) =
        round (env.EdgeCost mode (tile.directededge b.id) * (e.dist - b.dist))) ∧
    |env.EdgeCost mode (tile.directededge b.id) * (e.dist - b.dist) -
        round (env.EdgeCost mode (tile.directededge b.id) * (e.dist - b.dist))| ≤ 1 / 2 ∧
    FormPath env mode shape correlated path_infos =
      FormPath env mode [] correlated path_infos := by
  have hr := round_nonneg_of_nonneg _ hnonneg
  obtain ⟨h1, h2⟩ := FormPath_single_edge_any_float env mode shape correlated path_infos b e
    tile end_node_tile hb he heq hv htile hend
  refine ⟨?_, ?_, abs_sub_round _, h2⟩
  · rw [h1, hF]
    have hs : exact_float.sub e.dist b.dist = e.dist - b.dist := rfl
    have hm : ∀ x y, exact_float.mul x y = x * y := fun _ _ => rfl
    rw [hs, hm, exact_float_round_of_nonneg _ hnonneg, exact_float_to_uint32_intCast _ hr]
  · intro hlt
    rw [Int.emod_eq_of_lt hr hlt, Int.toNat_of_nonneg hr]

/-- C15 (amended) on a concrete input: both locations on edge 3 of the demo
graph, at 0.2 and 0.7 of the edge; the edge costs 10 s, so
`edge_cost × (end.dist − begin.dist)` is 5 and the single `PathInfo`
carries 5 s. -/
theorem FormPath_single_edge_witness :
    demo_walk_env.EdgeCost 0 (demo_tile.directededge ⟨3⟩) *
        (Rat.divInt 7 10 - Rat.divInt 1 5) = 5 ∧
      FormPath demo_walk_env 0 demo_shape demo_same_edge_locations [] =
        (Except.ok true, [⟨0, 5, ⟨3⟩, 0⟩]) :=
  ⟨by decide!,
    (FormPath_single_edge demo_walk_env 0 demo_shape demo_same_edge_locations []
      ⟨⟨3⟩, Rat.divInt 1 5, false, false⟩ ⟨⟨3⟩, Rat.divInt 7 10, false, false⟩
      demo_tile demo_tile rfl rfl rfl rfl rfl rfl rfl (by decide!)).1.trans (by decide!)⟩

/-- C16 (evaluation of the code). On the demo graph the walk from edge 0 to
edge 6 along `demo_shape` succeeds through `expand_from_node`, which leaves
the accumulated time `T = 21` and the predecessor label of edge 3. The
end edge 6 costs 20 s and the transition onto it 2 s, so the claim gives
the last `PathInfo` the elapsed time `21 + 2 + 20 × 1 = 43`. `FormPath`
emits the end edge id with the elapsed time 32: it adds the transition and
edge costs of `de`, which is still the begin edge 0 (1 s and 10 s). -/
theorem FormPath_end_edge_uses_begin_edge_costs :
    expand_from_node demo_walk_env 0 demo_shape ⟨1003⟩ 10 1 demo_tile ⟨1001⟩
        ⟨EdgeLabel.walked ⟨0⟩ (demo_edge 0) 0, 10, [⟨0, 10, ⟨0⟩, 0⟩]⟩ false =
      some (true, ⟨EdgeLabel.walked ⟨3⟩ (demo_edge 3) 0, 21,
        [⟨0, 10, ⟨0⟩, 0⟩, ⟨0, 21, ⟨3⟩, 0⟩]⟩) ∧
    FormPath demo_walk_env 0 demo_shape demo_walk_locations [] =
      (Except.ok true, [⟨0, 10, ⟨0⟩, 0⟩, ⟨0, 21, ⟨3⟩, 0⟩, ⟨0, 32, ⟨6⟩, 0⟩]) ∧
    exact_float.to_uint32 (exact_float.round
      (exact_float.add
        (exact_float.add 21
          (demo_walk_env.TransitionCost 0 (demo_edge 6) (demo_node ⟨1003⟩)
            (EdgeLabel.walked ⟨3⟩ (demo_edge 3) 0)))
        (exact_float.mul (demo_walk_env.EdgeCost 0 (demo_edge 6)) 1))) = 43 ∧
    exact_float.to_uint32 (exact_float.round
      (exact_float.add
        (exact_float.add 21
          (demo_walk_env.TransitionCost 0 (demo_edge 0) (demo_node ⟨1003⟩)
            (EdgeLabel.walked ⟨3⟩ (demo_edge 3) 0)))
        (exact_float.mul (demo_walk_env.EdgeCost 0 (demo_edge 0)) 1))) = 32 := by
  refine ⟨by decide!, by decide!, by decide!, by decide!⟩

/-- C20 (evaluation of the code). On the demo graph with `demo_shape_spur`,
node 1001 has the outgoing edges 1, 2 and 3 in this order and the stop node
is 1003. Edge 3 matches the shape (at index 3) and the expansion from its
end node, the stop node, succeeds. Edge 2, the spur visited before it, also
matches the shape (at index 2) and the expansion from its end node fails.
`expand_from_node` returns the failure of that recursion at once, without
trying edge 3, and leaves the spur in `path_infos`; `FormPath` returns
false on the exact shape of the route over the edges 0, 3, 6. -/
theorem expand_from_node_does_not_backtrack :
    expand_from_node.match_shape demo_walk_env ⟨200, 0⟩
        (exact_float.of_uint32 (150 * 150)) (demo_shape_spur.drop 2) 2 = some 3 ∧
    expand_from_node demo_walk_env 0 demo_shape_spur ⟨1003⟩ 9 3 demo_tile ⟨1003⟩
        ⟨EdgeLabel.walked ⟨3⟩ (demo_edge 3) 0, 21, [⟨0, 10, ⟨0⟩, 0⟩, ⟨0, 21, ⟨3⟩, 0⟩]⟩ false =
      some (true, ⟨EdgeLabel.walked ⟨3⟩ (demo_edge 3) 0, 21,
        [⟨0, 10, ⟨0⟩, 0⟩, ⟨0, 21, ⟨3⟩, 0⟩]⟩) ∧
    expand_from_node.match_shape demo_walk_env ⟨150, 0⟩
        (exact_float.of_uint32 (100 * 100)) (demo_shape_spur.drop 2) 2 = some 2 ∧
    expand_from_node demo_walk_env 0 demo_shape_spur ⟨1003⟩ 9 2 demo_tile ⟨1002⟩
        ⟨EdgeLabel.walked ⟨2⟩ (demo_edge 2) 0, 15, [⟨0, 10, ⟨0⟩, 0⟩, ⟨0, 15, ⟨2⟩, 0⟩]⟩ false =
      some (false, ⟨EdgeLabel.walked ⟨2⟩ (demo_edge 2) 0, 15,
        [⟨0, 10, ⟨0⟩, 0⟩, ⟨0, 15, ⟨2⟩, 0⟩]⟩) ∧
    expand_from_node demo_walk_env 0 demo_shape_spur ⟨1003⟩ 10 1 demo_tile ⟨1001⟩
        ⟨EdgeLabel.walked ⟨0⟩ (demo_edge 0) 0, 10, [⟨0, 10, ⟨0⟩, 0⟩]⟩ false =
      some (false, ⟨EdgeLabel.walked ⟨2⟩ (demo_edge 2) 0, 15,
        [⟨0, 10, ⟨0⟩, 0⟩, ⟨0, 15, ⟨2⟩, 0⟩]⟩) ∧
    FormPath demo_walk_env 0 demo_shape_spur demo_walk_locations [] =
      (Except.ok false, [⟨0, 10, ⟨0⟩, 0⟩, ⟨0, 15, ⟨2⟩, 0⟩]) := by
  refine ⟨by decide!, by decide!, by decide!, by decide!, by decide!, by decide!⟩

/-! ## Theorems: `MapMatchingRoute::FormPath` -/

/-- The loop appends one `PathInfo` per kept segment, in order, with the mode
given, the edge id of the segment and trip id 0. -/
theorem MapMatchingRoute_loop_path (env : MatchEnv) (mode : Nat) (segs : List EdgeSegment)
    (st : MatchState) :
    (MapMatchingRoute.loop env mode segs st).path.map (fun p => (p.mode, p.edgeid, p.tripid)) =
      st.path.map (fun p => (p.mode, p.edgeid, p.tripid)) ++
        (kept_segments st.prior_edge segs).map (fun seg => (mode, seg.edgeid, 0)) := by
  induction segs generalizing st with
  | nil => simp [MapMatchingRoute.loop, kept_segments]
  | cons seg rest ih =>
    by_cases h : seg.edgeid = st.prior_edge
    · simp only [MapMatchingRoute.loop, kept_segments, h, if_true]
      exact ih st
    · simp only [MapMatchingRoute.loop, kept_segments, h, if_false]
      rw [ih]
      simp

theorem destutter'_eq_cons_tail {α : Type} (R : α → α → Prop) [DecidableRel R] (a : α)
    (l : List α) : l.destutter' R a = a :: (l.destutter' R a).tail := by
  induction l generalizing a with
  | nil => rfl
  | cons h rest ih =>
    by_cases hr : R a h
    · rw [List.destutter'_cons_pos _ hr]
      rfl
    · rw [List.destutter'_cons_neg _ hr]
      exact ih a

/-- The kept segments are the segments left when consecutive repetitions of an
edge id are removed greedily, starting from the id `prior`. -/
theorem kept_segments_edgeid (prior : GraphId) (segs : List EdgeSegment) :
    (kept_segments prior segs).map EdgeSegment.edgeid =
      ((segs.map EdgeSegment.edgeid).destutter' (fun a b => a ≠ b) prior).tail := by
  induction segs generalizing prior with
  | nil => rfl
  | cons seg rest ih =>
    by_cases h : seg.edgeid = prior
    · have hr : ¬ (prior ≠ seg.edgeid) := fun hne => hne h.symm
      simp only [kept_segments, h, if_true, List.map_cons]
      rw [ih prior]
      have := List.destutter'_cons_neg (R := fun a b : GraphId => a ≠ b)
        (l := rest.map EdgeSegment.edgeid) hr
      rw [h] at this
      rw [this]
    · have hr : prior ≠ seg.edgeid := fun he => h he.symm
      simp only [kept_segments, h, if_false, List.map_cons]
      rw [List.destutter'_cons_pos (R := fun a b : GraphId => a ≠ b) _ hr, List.tail_cons,
        ih seg.edgeid]
      exact (destutter'_eq_cons_tail _ _ _).symm

/-- C18. Deduplication in `MapMatchingRoute::FormPath`: for every sequence of
edge segments the matcher returns, the path returned holds, in order, one
`PathInfo` for each segment whose edge id differs from the edge id of the
last kept segment (initially the invalid id) and nothing else; these are
the segments left when consecutive repetitions of an edge id are removed.
Hence no two adjacent entries of the path share an edge id. -/
theorem MapMatchingRoute_FormPath_dedup (env : MatchEnv) (results : List MatchResult)
    (mode : Nat) (segs : List EdgeSegment) (h : env.ConstructRoute results = Except.ok segs) :
    ∃ path, MapMatchingRoute.FormPath env results mode = Except.ok path ∧
      path.map (fun p => (p.mode, p.edgeid, p.tripid)) =
        (kept_segments GraphId.invalid segs).map (fun seg => (mode, seg.edgeid, 0)) ∧
      path.map PathInfo.edgeid =
        ((segs.map EdgeSegment.edgeid).destutter' (fun a b => a ≠ b) GraphId.invalid).tail ∧
      adjacent_edges_distinct path := by
  have hp := MapMatchingRoute_loop_path env mode segs MatchState.init
  have hids : (MapMatchingRoute.loop env mode segs MatchState.init).path.map PathInfo.edgeid =
      ((segs.map EdgeSegment.edgeid).destutter' (fun a b => a ≠ b) GraphId.invalid).tail := by
    have := congrArg (List.map (fun t : Nat × GraphId × Nat => t.2.1)) hp
    simp only [List.map_map, List.map_append, MatchState.init, List.map_nil,
      List.nil_append] at this
    rw [← kept_segments_edgeid]
    exact this
  refine ⟨_, by simp [MapMatchingRoute.FormPath, h], ?_, hids, ?_⟩
  · simpa [MatchState.init] using hp
  · unfold adjacent_edges_distinct
    rw [adjacent_pairs_iff_chain']
    have hc : (((segs.map EdgeSegment.edgeid).destutter' (fun a b => a ≠ b)
        GraphId.invalid).tail).Chain' (fun a b => a ≠ b) :=
      (List.destutter'_is_chain' _ _ _).tail
    rw [← hids, List.chain'_map] at hc
    exact hc

/-- C18 on a concrete input: the segments `0, 0, 3, 3, 6` give the path over
the edges 0, 3, 6. -/
theorem MapMatchingRoute_FormPath_dedup_witness :
    ∃ path, MapMatchingRoute.FormPath demo_match_env [] 0 = Except.ok path ∧
      path.map PathInfo.edgeid = [⟨0⟩, ⟨3⟩, ⟨6⟩] ∧ adjacent_edges_distinct path := by
  obtain ⟨path, h1, _, h3, h4⟩ := MapMatchingRoute_FormPath_dedup demo_match_env [] 0
    [⟨⟨0⟩, 0, 1⟩, ⟨⟨0⟩, 1, 1⟩, ⟨⟨3⟩, 0, 1⟩, ⟨⟨3⟩, 1, 1⟩, ⟨⟨6⟩, 0, 1⟩] rfl
  exact ⟨path, h1, h3.trans (by decide), h4⟩

/-- The log does not disturb the run: `get_path` on the instrumented
collaborators returns the edge list and the state it returns on the plain
ones. -/
theorem get_path_traced_result {σ : Type} (c : Collab σ) (alg : PathAlgorithm)
    (origin destination : PathLocation) (s : σ) (tr : List Event) :
    (get_path (traced c) alg origin destination (s, tr)).1 =
        (get_path c alg origin destination s).1 ∧
      (get_path (traced c) alg origin destination (s, tr)).2.1 =
        (get_path c alg origin destination s).2 := by
  rw [get_path_traced_cases, get_path_plain_cases]
  unfold ladder_pass3 ladder_pass2 ladder_pass1
  by_cases h1 : (c.GetBestPath alg origin destination s).1 = [] ∧
      c.AllowMultiPass (c.GetBestPath alg origin destination s).2 = true
  · by_cases h2 : (c.GetBestPath alg origin destination
        (c.RelaxHierarchyLimits (if alg = PathAlgorithm.astar then 16 else 8)
          (if alg = PathAlgorithm.astar then 4 else 2)
          (c.Clear alg (c.GetBestPath alg origin destination s).2))).1 = [] ∧
        alg = PathAlgorithm.astar
    · rw [if_pos h1, if_pos h2, if_pos h1, if_pos h2]
      have ha := h2.2
      subst ha
      exact ⟨rfl, rfl⟩
    · rw [if_pos h1, if_neg h2, if_pos h1, if_neg h2]
      exact ⟨rfl, rfl⟩
  · rw [if_neg h1, if_neg h1]
    exact ⟨rfl, rfl⟩

/-! ## Theorems: `update_origin` without a candidate on the through edge -/

/-- C25. `update_origin` with no candidate on the through edge: when the
prior snap was not at a node, the through edge is not flagged not-through
and no candidate of the origin has the through edge as its edge id,
`update_origin` returns the origin as it was: the candidate list is the
same list (same entries, same order), so every candidate stays available
to the next leg and none of them is on the through edge. -/
theorem update_origin_no_candidate {σ : Type} (c : Collab σ) (origin : PathLocation)
    (through_edge : GraphId) (hnt : c.not_thru through_edge = false)
    (hno : ∀ e ∈ origin.edges, e.id ≠ through_edge) :
    (update_origin c origin false through_edge).edges = origin.edges ∧
      update_origin c origin false through_edge = origin ∧
      ∀ e ∈ (update_origin c origin false through_edge).edges, e.id ≠ through_edge := by
  have hends : update_origin.ends_at_node through_edge origin.edges = false := by
    cases hv : update_origin.ends_at_node through_edge origin.edges with
    | false => rfl
    | true =>
      obtain ⟨e, he, hid, _⟩ := (update_origin_ends_at_node_iff _ _).1 hv
      exact absurd hid (hno e he)
  have hf : origin.edges.find? (fun e => decide (e.id = through_edge)) = none := by
    rw [List.find?_eq_none]
    intro e he
    simpa using hno e he
  have heq : update_origin c origin false through_edge = origin := by
    simp [update_origin, hnt, hends, update_origin_set_origin_eq, hf]
  rw [heq]
  exact ⟨rfl, rfl, hno⟩

/-- C25 on a concrete input: two candidates on the edges 1 and 4, the through edge being
edge 5. -/
theorem update_origin_no_candidate_witness :
    (update_origin demo_collab (demo_loc [1, 4] StopType.THROUGH) false ⟨5⟩).edges =
        (demo_loc [1, 4] StopType.THROUGH).edges ∧
      update_origin demo_collab (demo_loc [1, 4] StopType.THROUGH) false ⟨5⟩ =
        demo_loc [1, 4] StopType.THROUGH ∧
      ∀ e ∈ (update_origin demo_collab (demo_loc [1, 4] StopType.THROUGH) false ⟨5⟩).edges,
        e.id ≠ ⟨5⟩ :=
  update_origin_no_candidate demo_collab (demo_loc [1, 4] StopType.THROUGH) ⟨5⟩ rfl
    (by decide)

/-! ## Theorems: leg merging is associative -/

theorem add_elapsed_add_elapsed (s t : Nat) (x : PathInfo) :
    add_elapsed s (add_elapsed t x) = add_elapsed ((t + s) % 2 ^ 32) x := by
  simp only [add_elapsed]
  congr 1
  omega

theorem map_add_elapsed_map (s t : Nat) (l : List PathInfo) :
    (l.map (add_elapsed t)).map (add_elapsed s) =
      l.map (add_elapsed ((t + s) % 2 ^ 32)) := by
  rw [List.map_map]
  apply List.map_congr_left
  intro x _
  simp only [Function.comp, add_elapsed]
  congr 1
  omega

theorem stitch_assoc_aux (Qa : List PathInfo) (a : PathInfo) (B : List PathInfo)
    (c0 : PathInfo) (C1 : List PathInfo) (hB : B ≠ []) :
    stitch (stitch (Qa ++ [a]) B) (c0 :: C1) = stitch (Qa ++ [a]) (stitch B (c0 :: C1)) := by
  obtain ⟨b0, B1, rfl⟩ := List.exists_cons_of_ne_nil hB
  rcases List.eq_nil_or_concat B1 with rfl | ⟨Bm, bl, rfl⟩
  · -- `B` is the single edge `b0`
    have h1 : stitch (Qa ++ [a]) [b0] =
        (if b0.edgeid = a.edgeid then Qa else Qa ++ [a]) ++ [add_elapsed a.elapsed_time b0] := by
      rw [stitch_append_cons]; rfl
    have h2 : stitch [b0] (c0 :: C1) =
        (if c0.edgeid = b0.edgeid then [] else [b0]) ++
          (c0 :: C1).map (add_elapsed b0.elapsed_time) := by
      have := stitch_append_cons [] b0 c0 C1
      simpa using this
    rw [h1, stitch_append_cons, h2]
    have hid : (add_elapsed a.elapsed_time b0).edgeid = b0.edgeid := rfl
    have hel : (add_elapsed a.elapsed_time b0).elapsed_time =
        (b0.elapsed_time + a.elapsed_time) % 2 ^ 32 := rfl
    rw [hid, hel]
    by_cases hc : c0.edgeid = b0.edgeid
    · have h3 : stitch (Qa ++ [a]) ((c0 :: C1).map (add_elapsed b0.elapsed_time)) =
          (if b0.edgeid = a.edgeid then Qa else Qa ++ [a]) ++
            (c0 :: C1).map (add_elapsed ((b0.elapsed_time + a.elapsed_time) % 2 ^ 32)) := by
        rw [List.map_cons, stitch_append_cons, ← List.map_cons, map_add_elapsed_map]
        have : (add_elapsed b0.elapsed_time c0).edgeid = b0.edgeid := hc
        rw [this]
      rw [if_pos hc, if_pos hc, List.nil_append, h3]
    · have h3 : stitch (Qa ++ [a]) (b0 :: (c0 :: C1).map (add_elapsed b0.elapsed_time)) =
          (if b0.edgeid = a.edgeid then Qa else Qa ++ [a]) ++
            add_elapsed a.elapsed_time b0 ::
              (c0 :: C1).map (add_elapsed ((b0.elapsed_time + a.elapsed_time) % 2 ^ 32)) := by
        rw [stitch_append_cons, List.map_cons, map_add_elapsed_map]
      rw [if_neg hc, if_neg hc, List.singleton_append, h3]
      simp [List.append_assoc]
  · -- `B` has at least two edges
    rw [List.concat_eq_append] at hB ⊢
    have h1 : stitch (Qa ++ [a]) (b0 :: (Bm ++ [bl])) =
        ((if b0.edgeid = a.edgeid then Qa else Qa ++ [a]) ++
          (b0 :: Bm).map (add_elapsed a.elapsed_time)) ++ [add_elapsed a.elapsed_time bl] := by
      rw [stitch_append_cons]; simp [List.append_assoc]
    have h2 : stitch (b0 :: (Bm ++ [bl])) (c0 :: C1) =
        b0 :: ((if c0.edgeid = bl.edgeid then Bm else Bm ++ [bl]) ++
          (c0 :: C1).map (add_elapsed bl.elapsed_time)) := by
      have := stitch_append_cons (b0 :: Bm) bl c0 C1
      rw [List.cons_append] at this
      rw [this]
      by_cases hc : c0.edgeid = bl.edgeid <;> simp [hc]
    rw [h1, stitch_append_cons, h2, stitch_append_cons]
    have hid : (add_elapsed a.elapsed_time bl).edgeid = bl.edgeid := rfl
    have hel : (add_elapsed a.elapsed_time bl).elapsed_time =
        (bl.elapsed_time + a.elapsed_time) % 2 ^ 32 := rfl
    rw [hid, hel]
    by_cases hc : c0.edgeid = bl.edgeid
    · simp only [if_pos hc, List.map_cons, List.map_append, map_add_elapsed_map,
        List.append_assoc, List.cons_append, List.singleton_append, add_elapsed_add_elapsed,
        List.map_nil, List.nil_append]
    · simp only [if_neg hc, List.map_cons, List.map_append, map_add_elapsed_map,
        List.append_assoc, List.cons_append, List.singleton_append, add_elapsed_add_elapsed,
        List.map_nil, List.nil_append]

/-- C23. Leg merging is associative: for all non-empty legs `A`, `B` and `C`,
merging `A` with `B` and then the result with `C` gives the same vector of
entries (same edge ids, same elapsed times, same modes and trip ids) as
merging `A` with the result of merging `B` with `C`. No condition on `B` is
needed: it may be a single edge equal to the last edge of `A`, to the first
edge of `C`, or to both. The elapsed times are the 32-bit sums, so the
equality holds in particular when no sum overflows. -/
theorem stitch_assoc (A B C : List PathInfo) (hA : A ≠ []) (hB : B ≠ []) (hC : C ≠ []) :
    stitch (stitch A B) C = stitch A (stitch B C) := by
  obtain ⟨c0, C1, rfl⟩ := List.exists_cons_of_ne_nil hC
  have hAs : A = A.dropLast ++ [A.getLast hA] := (List.dropLast_append_getLast hA).symm
  rw [hAs]
  exact stitch_assoc_aux _ _ B c0 C1 hB

/-- C23 on a concrete input: `B` is the single edge 2, which is both the last edge of `A`
and the first edge of `C`; both groupings give the edges 1, 2, 3 with the elapsed times
10, 29, 42. -/
theorem stitch_assoc_witness :
    stitch (stitch [⟨0, 10, ⟨1⟩, 0⟩, ⟨0, 20, ⟨2⟩, 0⟩] [⟨0, 7, ⟨2⟩, 0⟩])
        [⟨0, 2, ⟨2⟩, 0⟩, ⟨0, 15, ⟨3⟩, 0⟩] =
      stitch [⟨0, 10, ⟨1⟩, 0⟩, ⟨0, 20, ⟨2⟩, 0⟩]
        (stitch [⟨0, 7, ⟨2⟩, 0⟩] [⟨0, 2, ⟨2⟩, 0⟩, ⟨0, 15, ⟨3⟩, 0⟩]) :=
  stitch_assoc [⟨0, 10, ⟨1⟩, 0⟩, ⟨0, 20, ⟨2⟩, 0⟩] [⟨0, 7, ⟨2⟩, 0⟩]
    [⟨0, 2, ⟨2⟩, 0⟩, ⟨0, 15, ⟨3⟩, 0⟩] (by decide) (by decide) (by decide)


/-! ## Theorems: the recursion of `expand_from_node` is bounded -/

theorem expand_match_shape_bound (env : WalkEnv) (ll : PointLL) (d : ℚ) (l : List PointLL)
    (k j : Nat) (h : expand_from_node.match_shape env ll d l k = some j) :
    k ≤ j ∧ j < k + l.length := by
  induction l generalizing k with
  | nil => simp [expand_from_node.match_shape] at h
  | cons p rest ih =>
    simp only [expand_from_node.match_shape] at h
    split at h
    · split at h
      · simp only [Option.some.injEq] at h
        subst h
        simp
      · have := ih _ h
        simp only [List.length_cons]
        omega
    · simp at h

/-- The shape index found for a non-transition edge is strictly greater than the caller's
index and smaller than the shape length. -/
theorem expand_match_shape_range (env : WalkEnv) (ll : PointLL) (d : ℚ)
    (shape : List PointLL) (correlated_index j : Nat)
    (h : expand_from_node.match_shape env ll d (shape.drop (correlated_index + 1))
      (correlated_index + 1) = some j) :
    correlated_index < j ∧ j < shape.length := by
  have := expand_match_shape_bound env ll d _ _ _ h
  rw [List.length_drop] at this
  omega

/-- The edge loop calls `recurse` only with the caller's index and the transition flag set
(and only when the caller was not itself entered through a transition), or with a greater
index smaller than the shape length and the flag unset. -/
theorem expand_edges_congr (env : WalkEnv) (mode : Nat) (shape : List PointLL)
    (r1 r2 : Nat → GraphTile → GraphId → WalkState → Bool → Option (Bool × WalkState))
    (correlated_index : Nat) (tile : GraphTile) (node : GraphId) (node_info : NodeInfo)
    (from_transition : Bool)
    (htrans : from_transition = false →
      ∀ t n s, r1 correlated_index t n s true = r2 correlated_index t n s true)
    (hstep : ∀ j t n s, correlated_index < j → j < shape.length →
      r1 j t n s false = r2 j t n s false)
    (idxs : List Nat) (st : WalkState) :
    expand_from_node.edges env mode shape r1 correlated_index tile node node_info
        from_transition idxs st =
      expand_from_node.edges env mode shape r2 correlated_index tile node node_info
        from_transition idxs st := by
  induction idxs generalizing st with
  | nil => rfl
  | cons idx rest ih =>
    simp only [expand_from_node.edges]
    split
    · exact ih _
    · split
      · exact ih _
      · split
        · split
          · exact ih _
          · rename_i hft
            have hft2 : from_transition = false := Bool.eq_false_iff.2 hft
            split
            · exact ih _
            · rw [htrans hft2]
              split
              · rfl
              · rfl
              · exact ih _
        · split
          · exact ih _
          · split
            · rename_i j hj
              obtain ⟨h1, h2⟩ := expand_match_shape_range env _ _ shape correlated_index j hj
              exact hstep j _ _ _ h1 h2
            · exact ih _

theorem expand_edges_isSome (env : WalkEnv) (mode : Nat) (shape : List PointLL)
    (recurse : Nat → GraphTile → GraphId → WalkState → Bool → Option (Bool × WalkState))
    (correlated_index : Nat) (tile : GraphTile) (node : GraphId) (node_info : NodeInfo)
    (from_transition : Bool)
    (htrans : from_transition = false →
      ∀ t n s, (recurse correlated_index t n s true).isSome = true)
    (hstep : ∀ j t n s, correlated_index < j → j < shape.length →
      (recurse j t n s false).isSome = true)
    (idxs : List Nat) (st : WalkState) :
    (expand_from_node.edges env mode shape recurse correlated_index tile node node_info
        from_transition idxs st).isSome = true := by
  induction idxs generalizing st with
  | nil => rfl
  | cons idx rest ih =>
    simp only [expand_from_node.edges]
    split
    · exact ih _
    · split
      · exact ih _
      · split
        · split
          · exact ih _
          · rename_i hft
            have hft2 : from_transition = false := Bool.eq_false_iff.2 hft
            split
            · exact ih _
            · rename_i end_node_tile _
              have h := htrans hft2 end_node_tile (tile.directededge_at idx).endnode st
              split
              · rename_i hnone
                rw [hnone] at h
                exact absurd h (by decide)
              · rfl
              · exact ih _
        · split
          · exact ih _
          · split
            · rename_i j hj
              obtain ⟨h1, h2⟩ := expand_match_shape_range env _ _ shape correlated_index j hj
              exact hstep j _ _ _ h1 h2
            · exact ih _

/-- A depth bound of `2 * (|shape| - index) + 2` (one less for a call entered through a
transition edge) is never reached. -/
theorem expand_from_node_isSome (env : WalkEnv) (mode : Nat) (shape : List PointLL)
    (stop_node : GraphId) (fuel index : Nat) (tile : GraphTile) (node : GraphId)
    (st : WalkState) (from_transition : Bool)
    (hfuel : 2 * (shape.length - index) + (if from_transition = true then 1 else 2) ≤ fuel) :
    (expand_from_node env mode shape stop_node fuel index tile node st
      from_transition).isSome = true := by
  induction fuel generalizing index tile node st from_transition with
  | zero => split at hfuel <;> omega
  | succ fuel ih =>
    unfold expand_from_node
    split
    · rfl
    · apply expand_edges_isSome
      · intro hft t n s
        apply ih
        rw [hft] at hfuel
        simp only [if_true, Bool.false_eq_true, if_false] at hfuel ⊢
        omega
      · intro j t n s h1 h2
        apply ih
        simp only [Bool.false_eq_true, if_false]
        split at hfuel <;> omega

/-- Above that bound the result does not depend on the bound. -/
theorem expand_from_node_fuel_irrelevant (env : WalkEnv) (mode : Nat) (shape : List PointLL)
    (stop_node : GraphId) (fuel1 fuel2 index : Nat) (tile : GraphTile) (node : GraphId)
    (st : WalkState) (from_transition : Bool)
    (h1 : 2 * (shape.length - index) + (if from_transition = true then 1 else 2) ≤ fuel1)
    (h2 : 2 * (shape.length - index) + (if from_transition = true then 1 else 2) ≤ fuel2) :
    expand_from_node env mode shape stop_node fuel1 index tile node st from_transition =
      expand_from_node env mode shape stop_node fuel2 index tile node st from_transition := by
  induction fuel1 generalizing fuel2 index tile node st from_transition with
  | zero => split at h1 <;> omega
  | succ fuel1 ih =>
    cases fuel2 with
    | zero => split at h2 <;> omega
    | succ fuel2 =>
      unfold expand_from_node
      split
      · rfl
      · apply expand_edges_congr
        · intro hft t n s
          apply ih
          · rw [hft] at h1
            simp only [if_true, Bool.false_eq_true, if_false] at h1 ⊢
            omega
          · rw [hft] at h2
            simp only [if_true, Bool.false_eq_true, if_false] at h2 ⊢
            omega
        · intro j t n s hj1 hj2
          apply ih
          · simp only [Bool.false_eq_true, if_false]
            split at h1 <;> omega
          · simp only [Bool.false_eq_true, if_false]
            split at h2 <;> omega

/-- The walk of `FormPath` never stops at the depth bound. -/
theorem FormPath_not_out_of_fuel (env : WalkEnv) (mode : Nat) (shape : List PointLL)
    (correlated : List PathLocation) (path_infos : List PathInfo) :
    (FormPath env mode shape correlated path_infos).1 ≠ Except.error WalkError.out_of_fuel := by
  intro h
  have key : ∀ x i t n s,
      expand_from_node env mode shape x (2 * shape.length + 2) i t n s false ≠ none := by
    intro x i t n s hn
    have := expand_from_node_isSome env mode shape x (2 * shape.length + 2) i t n s false
      (by simp only [Bool.false_eq_true, if_false]; omega)
    rw [hn] at this
    exact absurd this (by decide)
  simp only [FormPath] at h
  repeat' split at h
  all_goals first
    | (simp at h; done)
    | (rename_i heq
       simp only [Except.error.injEq] at h
       subst h
       unfold find_start_node at heq
       split at heq <;> simp at heq)
    | (rename_i hnone
       exact key _ _ _ _ _ hnone)

/-- C24. `expand_from_node` terminates on every graph (cyclic or not) and every
finite shape. The edge loop makes a recursive call through a non-transition
edge only with a shape index strictly greater than the caller's and smaller
than the shape length, and makes a call through a transition edge (same
index) only when the caller was not itself entered through a transition
edge: the result of the loop depends on no other call. Hence a recursion
depth of `2 * (|shape| - index) + 2` (one less inside a call entered through
a transition edge), and so of `2 * |shape| + 2`, is never exceeded: with
that bound the function returns a result, the same result as with any
greater bound, and `FormPath` never stops at the bound. -/
theorem expand_from_node_terminates (env : WalkEnv) (mode : Nat) (shape : List PointLL)
    (stop_node : GraphId) (fuel index : Nat) (tile : GraphTile) (node : GraphId)
    (st : WalkState) (from_transition : Bool)
    (hfuel : 2 * (shape.length - index) + (if from_transition = true then 1 else 2) ≤ fuel) :
    (∃ r, expand_from_node env mode shape stop_node fuel index tile node st
        from_transition = some r) ∧
      expand_from_node env mode shape stop_node fuel index tile node st from_transition =
        expand_from_node env mode shape stop_node (2 * shape.length + 2) index tile node st
          from_transition ∧
      (∀ ll d j, expand_from_node.match_shape env ll d (shape.drop (index + 1)) (index + 1) =
        some j → index < j ∧ j < shape.length) ∧
      (∀ r1 r2 : Nat → GraphTile → GraphId → WalkState → Bool → Option (Bool × WalkState),
        (from_transition = false → ∀ t n s, r1 index t n s true = r2 index t n s true) →
        (∀ j t n s, index < j → j < shape.length → r1 j t n s false = r2 j t n s false) →
        ∀ node_info idxs,
          expand_from_node.edges env mode shape r1 index tile node node_info from_transition
              idxs st =
            expand_from_node.edges env mode shape r2 index tile node node_info
              from_transition idxs st) ∧
      ∀ correlated path_infos,
        (FormPath env mode shape correlated path_infos).1 ≠
          Except.error WalkError.out_of_fuel := by
  refine ⟨?_, ?_, ?_, ?_, ?_⟩
  · exact Option.isSome_iff_exists.1
      (expand_from_node_isSome env mode shape stop_node fuel index tile node st
        from_transition hfuel)
  · apply expand_from_node_fuel_irrelevant _ _ _ _ _ _ _ _ _ _ _ hfuel
    split <;> omega
  · intro ll d j h
    exact expand_match_shape_range env ll d shape index j h
  · intro r1 r2 h1 h2 node_info idxs
    exact expand_edges_congr env mode shape r1 r2 index tile node node_info from_transition
      h1 h2 idxs st
  · intro correlated path_infos
    exact FormPath_not_out_of_fuel env mode shape correlated path_infos

/-- C24 on a concrete input: the walk from node 1001 (shape index 1) of the example graph,
which has cycles, with the depth bound `2 * 4 + 2 = 10`. -/
theorem expand_from_node_terminates_witness :
    (∃ r, expand_from_node demo_walk_env 0 demo_shape ⟨1003⟩ 10 1 demo_tile ⟨1001⟩
        ⟨EdgeLabel.default, 0, []⟩ false = some r) ∧
      expand_from_node demo_walk_env 0 demo_shape ⟨1003⟩ 10 1 demo_tile ⟨1001⟩
          ⟨EdgeLabel.default, 0, []⟩ false =
        expand_from_node demo_walk_env 0 demo_shape ⟨1003⟩ (2 * demo_shape.length + 2) 1
          demo_tile ⟨1001⟩ ⟨EdgeLabel.default, 0, []⟩ false ∧
      (∀ ll d j, expand_from_node.match_shape demo_walk_env ll d (demo_shape.drop (1 + 1))
        (1 + 1) = some j → 1 < j ∧ j < demo_shape.length) ∧
      (∀ r1 r2 : Nat → GraphTile → GraphId → WalkState → Bool → Option (Bool × WalkState),
        (false = false → ∀ t n s, r1 1 t n s true = r2 1 t n s true) →
        (∀ j t n s, 1 < j → j < demo_shape.length → r1 j t n s false = r2 j t n s false) →
        ∀ node_info idxs,
          expand_from_node.edges demo_walk_env 0 demo_shape r1 1 demo_tile ⟨1001⟩ node_info
              false idxs ⟨EdgeLabel.default, 0, []⟩ =
            expand_from_node.edges demo_walk_env 0 demo_shape r2 1 demo_tile ⟨1001⟩ node_info
              false idxs ⟨EdgeLabel.default, 0, []⟩) ∧
      ∀ correlated path_infos,
        (FormPath demo_walk_env 0 demo_shape correlated path_infos).1 ≠
          Except.error WalkError.out_of_fuel :=
  expand_from_node_terminates demo_walk_env 0 demo_shape ⟨1003⟩ 10 1 demo_tile ⟨1001⟩
    ⟨EdgeLabel.default, 0, []⟩ false (by decide)

/-! ## Theorems: the loop guard of `expand_from_node` -/

/-- With two or more entries in `path_infos`, the edge loop skips an outgoing edge whose id
is the edge id of the last or of the second-to-last entry. -/
theorem expand_edges_skips_recent (env : WalkEnv) (mode : Nat) (shape : List PointLL)
    (recurse : Nat → GraphTile → GraphId → WalkState → Bool → Option (Bool × WalkState))
    (correlated_index : Nat) (tile : GraphTile) (node : GraphId) (node_info : NodeInfo)
    (from_transition : Bool) (idx : Nat) (rest : List Nat) (st : WalkState)
    (hn : 1 < st.path_infos.length)
    (hid : (st.path_infos[st.path_infos.length - 2]?).map PathInfo.edgeid =
        some (env.edge_id_at node idx) ∨
      (st.path_infos[st.path_infos.length - 1]?).map PathInfo.edgeid =
        some (env.edge_id_at node idx)) :
    expand_from_node.edges env mode shape recurse correlated_index tile node node_info
        from_transition (idx :: rest) st =
      expand_from_node.edges env mode shape recurse correlated_index tile node node_info
        from_transition rest st := by
  simp only [expand_from_node.edges]
  split
  · rfl
  · rw [if_pos ⟨hn, hid⟩]

/-- C22 (evaluation of the code). On the graph with the loop edge, the route
goes once around the loop edge 0 from node 3000 and on over the edges 1
and 3. `FormPath` emits the begin edge 0 (matched at shape index 0, the
loop ending where it begins), so `expand_from_node` is entered at node 3000
with the single entry of edge 0 in `path_infos`. The guard requires more
than one entry: the outgoing edge 0 is not skipped, it matches the shape at
index 2 and is emitted a second time, right after itself. With the two
entries in `path_infos` the guard does skip edge 0 and the walk goes on over
edge 1. The path returned holds edge 0 twice. -/
theorem expand_from_node_single_entry_unguarded :
    demo_loop_env.edge_id_at ⟨3000⟩ (demo_loop_node ⟨3000⟩).edge_index = ⟨0⟩ ∧
    expand_from_node.match_shape demo_loop_env ⟨0, 0⟩
        (exact_float.of_uint32 (110 * 110)) (demo_loop_shape.drop 1) 1 = some 2 ∧
    expand_from_node demo_loop_env 0 demo_loop_shape ⟨3001⟩ 10 2 demo_loop_tile ⟨3000⟩
        ⟨EdgeLabel.walked ⟨0⟩ (demo_loop_edge 0) 0, 12, [⟨0, 6, ⟨0⟩, 0⟩, ⟨0, 12, ⟨0⟩, 0⟩]⟩
        false =
      some (true, ⟨EdgeLabel.walked ⟨1⟩ (demo_loop_edge 1) 0, 23,
        [⟨0, 6, ⟨0⟩, 0⟩, ⟨0, 12, ⟨0⟩, 0⟩, ⟨0, 23, ⟨1⟩, 0⟩]⟩) ∧
    expand_from_node demo_loop_env 0 demo_loop_shape ⟨3001⟩ 12 0 demo_loop_tile ⟨3000⟩
        ⟨EdgeLabel.walked ⟨0⟩ (demo_loop_edge 0) 0, 6, [⟨0, 6, ⟨0⟩, 0⟩]⟩ false =
      some (true, ⟨EdgeLabel.walked ⟨1⟩ (demo_loop_edge 1) 0, 23,
        [⟨0, 6, ⟨0⟩, 0⟩, ⟨0, 12, ⟨0⟩, 0⟩, ⟨0, 23, ⟨1⟩, 0⟩]⟩) ∧
    FormPath demo_loop_env 0 demo_loop_shape demo_loop_locations [] =
      (Except.ok true,
        [⟨0, 6, ⟨0⟩, 0⟩, ⟨0, 12, ⟨0⟩, 0⟩, ⟨0, 23, ⟨1⟩, 0⟩, ⟨0, 29, ⟨3⟩, 0⟩]) := by
  refine ⟨by decide, by decide!, by decide!, by decide!, by decide!⟩
/-! ## Theorems: connectivity of the edges that `FormPath` emits -/

/-- C21 (evaluation of the code). On the graph on three levels, the route is
edge 0, the transition up at node 1001, then the edges 7 and 10, and the
shape is its exact shape. At node 1001 the transition down (edge 2) is
visited before the transition up (edge 3). The expansion entered through
the transition down emits the spur (edge 4, whose end node 2002 lies on
the intermediate shape point at 150 m) and then fails; the spur stays in
`path_infos` and its cost in the elapsed time. The loop goes on with the
transition up, whose expansion succeeds over edge 7. `FormPath` returns
true with the edges 0, 4, 7, 10: edge 4 ends at node 2002, edge 7 starts at
node 3001 and at no other node, and node 2002 is neither node 3001 nor
joined to it by a transition edge (the end node of edge 0, node 1001, is
joined to the start nodes of both edge 4 and edge 7). -/
theorem FormPath_keeps_edges_of_failed_transition :
    expand_from_node demo_levels_env 0 demo_shape_spur ⟨3003⟩ 11 1 demo_levels_tile ⟨2001⟩
        ⟨EdgeLabel.walked ⟨0⟩ (demo_levels_edge 0) 0, 10, [⟨0, 10, ⟨0⟩, 0⟩]⟩ true =
      some (false, ⟨EdgeLabel.walked ⟨4⟩ (demo_levels_edge 4) 0, 15,
        [⟨0, 10, ⟨0⟩, 0⟩, ⟨0, 15, ⟨4⟩, 0⟩]⟩) ∧
    expand_from_node demo_levels_env 0 demo_shape_spur ⟨3003⟩ 12 1 demo_levels_tile ⟨1001⟩
        ⟨EdgeLabel.walked ⟨0⟩ (demo_levels_edge 0) 0, 10, [⟨0, 10, ⟨0⟩, 0⟩]⟩ false =
      some (true, ⟨EdgeLabel.walked ⟨7⟩ (demo_levels_edge 7) 0, 26,
        [⟨0, 10, ⟨0⟩, 0⟩, ⟨0, 15, ⟨4⟩, 0⟩, ⟨0, 26, ⟨7⟩, 0⟩]⟩) ∧
    FormPath demo_levels_env 0 demo_shape_spur demo_levels_locations [] =
      (Except.ok true,
        [⟨0, 10, ⟨0⟩, 0⟩, ⟨0, 15, ⟨4⟩, 0⟩, ⟨0, 26, ⟨7⟩, 0⟩, ⟨0, 37, ⟨10⟩, 0⟩]) ∧
    (demo_levels_tile.directededge ⟨4⟩).endnode = ⟨2002⟩ ∧
    demo_levels_nodes.filter
        (fun n => edge_leaves demo_levels_env demo_levels_tile n ⟨7⟩) = [⟨3001⟩] ∧
    nodes_joined demo_levels_tile ⟨2002⟩ ⟨3001⟩ = false ∧
    (demo_levels_tile.directededge ⟨0⟩).endnode = ⟨1001⟩ ∧
    demo_levels_nodes.filter
        (fun n => edge_leaves demo_levels_env demo_levels_tile n ⟨4⟩) = [⟨2001⟩] ∧
    nodes_joined demo_levels_tile ⟨1001⟩ ⟨2001⟩ = true ∧
    nodes_joined demo_levels_tile ⟨1001⟩ ⟨3001⟩ = true := by
  refine ⟨by decide!, by decide!, by decide!, by decide, by decide, by decide, by decide,
    by decide, by decide, by decide⟩

end Thor
